import Mathlib

/-! FastQTL genotype reader: `data::readGenotypesVCF`

A shallow embedding of `src/readGenotypes.cpp` and the properties proved about it.

Conventions of the embedding.

* A `std::string` is the list of its characters (`Str`).
* `int` counters are `Nat` (they only count upwards and never approach `2^31`);
  `int` values that may be negative (`idx_sample`, `idx_field`, `ref_factor`, the
  configured `ma_sample_threshold`) are `Int`.
* A finite `float`/`double` is the exact rational it denotes; binary rounding is not
  modelled. The only non-finite value the function can compute is the NaN of `0/0`,
  which is `none` in `Option ℚ`; every comparison with NaN is false (`fge`, `fgt`).
* `LOG.error` ends the run: the run is a value of `Except Err _`. An access outside a
  `vector` or `string` (undefined in C++) is `Err.outOfRange`, an exception thrown by
  the standard library (`std::stod`) is `Err.exception`.
* Functions of the repository that are not part of this source file (`sutils::tokenize`,
  `checkSample`, `checkGenotype`) and the text-to-number conversions `atof`/`std::stod`
  are fields of `Env`; every general theorem holds for all of them.
-/

deriving instance DecidableEq for Except

namespace FastQTL

/-- A C++ `std::string`, as the list of its characters. -/
abbrev Str := List Char

/-- The messages of the `LOG.error` calls of `readGenotypesVCF`, in source order. -/
inductive Msg where
  | indexMissing
  | noHeader
  | wrongHeader
  | noOverlap
  | regionFailed
  | badGenotype
  | badDosage
  | noGenotypes
deriving DecidableEq, Repr

/-- The ways a run can end without returning. -/
inductive Err where
  | fatal (msg : Msg)
  | outOfRange
  | exception
deriving DecidableEq, Repr

/-- The collaborators of `readGenotypesVCF` whose code is not in `readGenotypes.cpp`. -/
structure Env where
  /-- The call `sutils::tokenize(s, tokens, sep)`: the tokens of `s`. -/
  tokenize : Str → Str → List Str
  /-- The separator set `sutils::tokenize` uses when called without one. -/
  sep_default : Str
  /-- The call `checkSample(id, false)`: is the label part of the cohort? -/
  checkSample : Str → Bool
  /-- The call `checkGenotype(id)`: is the site kept? -/
  checkGenotype : Str → Bool
  /-- The value of `atof(s.c_str())`. -/
  atof : Str → ℚ
  /-- The value of `std::stod(s)`; `none` when it throws. -/
  stod : Str → Option ℚ

/-! ## Standard-library functions -/

/-- The predicate `isspace` in the C locale. -/
def isSpace (c : Char) : Bool :=
  c.toNat = 32 || (9 ≤ c.toNat && c.toNat ≤ 13)

/-- The value of a decimal digit character. -/
def digitOf (c : Char) : Option Nat :=
  if 48 ≤ c.toNat ∧ c.toNat ≤ 57 then some (c.toNat - 48) else none

/-- The longest run of decimal digits at the start of a string, and what follows it. -/
def takeDigits : List Char → List Nat × List Char
  | [] => ([], [])
  | c :: cs =>
    match digitOf c with
    | some d => (d :: (takeDigits cs).1, (takeDigits cs).2)
    | none => ([], c :: cs)

/-- The number written by a list of decimal digits. -/
def natOfDigits (ds : List Nat) : Nat :=
  ds.foldl (fun a d => 10 * a + d) 0

/-- The C function `atoi`: optional white space, optional sign, decimal digits; `0`
when there is no digit. Overflow is not modelled. -/
def atoi (s : Str) : Int :=
  match s.dropWhile isSpace with
  | '-' :: r => - (natOfDigits (takeDigits r).1 : Int)
  | '+' :: r => (natOfDigits (takeDigits r).1 : Int)
  | r => (natOfDigits (takeDigits r).1 : Int)

/-- The C function `round`: nearest integer, halves away from zero. -/
def round (x : ℚ) : Int :=
  if 0 ≤ x then ⌊x + 1 / 2⌋ else -⌊-x + 1 / 2⌋

/-- The call `s.substr(pos, len)` for `pos ≤ s.size()`. -/
def substr (s : Str) (pos len : Nat) : Str :=
  (s.drop pos).take len

/-- The access `s[i]` of a `std::string`: the character, the terminating null character at
`i = s.size()`, undefined beyond. -/
def charAt (s : Str) (i : Nat) : Except Err Char :=
  match s.get? i with
  | some c => .ok c
  | none => if i = s.length then .ok (Char.ofNat 0) else .error .outOfRange

/-! ## Float model -/

/-- Float division `a / b` where `a = 0` whenever `b = 0`: the quotient, or NaN for `0/0`. -/
def fdiv (a b : ℚ) : Option ℚ :=
  if b = 0 then none else some (a / b)

/-- The comparison `a >= b` of a possibly-NaN `a` with a finite `b`. -/
def fge (a : Option ℚ) (b : ℚ) : Bool :=
  match a with
  | some x => decide (b ≤ x)
  | none => false

/-- The comparison `a > b` of a possibly-NaN `a` with a finite `b`. -/
def fgt (a : Option ℚ) (b : ℚ) : Bool :=
  match a with
  | some x => decide (b < x)
  | none => false

/-! ## Data members -/

/-- The members of `data` that `readGenotypesVCF` reads: the cohort and the thresholds. -/
structure Config where
  sample_count : Nat
  sample_id : List Str
  interaction_val : List ℚ
  maf_threshold : ℚ
  ma_sample_threshold : Int
  global_af_threshold : ℚ
  interaction_maf_threshold : ℚ

/-- One accepted variant: the nine values pushed at lines 202-210. -/
structure Variant where
  id : Str
  chr : Str
  pos : Int
  orig : List ℚ
  curr : List ℚ
  maf : Option ℚ
  ma_count : Nat
  ma_samples : Nat
  ref_factor : Int
deriving DecidableEq

/-- The members of `data` that `readGenotypesVCF` writes: nine parallel vectors and
`genotype_count`. -/
structure Output where
  genotype_id : List Str
  genotype_chr : List Str
  genotype_pos : List Int
  genotype_orig : List (List ℚ)
  genotype_curr : List (List ℚ)
  genotype_maf : List (Option ℚ)
  genotype_ma_count : List Nat
  genotype_ma_samples : List Nat
  genotype_ref_factor : List Int
  genotype_count : Int
deriving DecidableEq

/-- The line counters of `readGenotypesVCF`. -/
structure Tally where
  n_includedG : Nat
  n_excludedG : Nat
  n_excludedF : Nat
  n_excludedMAF : Nat
  n_excludedMAFglobal : Nat
  n_parsed : Nat
deriving DecidableEq, Repr

/-- The sample counters of `readGenotypesVCF`. -/
structure SampleTally where
  n_includedS : Nat
  n_missingS : Nat
  n_excludedS : Nat
deriving DecidableEq, Repr

/-- What the indexed reader `Tabix` yields for the file and the configured region. -/
structure VcfFile where
  /-- The result of `futils::isFile(fvcf + ".tbi")`. -/
  has_index : Bool
  /-- The buffer filled by `getLastHeader`. -/
  header : Str
  /-- The result of `setRegion`. -/
  region_ok : Bool
  /-- The buffers filled by the successive calls of `getNextLine`. -/
  lines : List Str

/-! ## Sample Reconciler (lines 40-57) -/

/-- The search loop of line 48 from index `i` on, with `n` iterations left before `i`
reaches `sample_count`: the first index whose identifier is the label, or `-1`. -/
def findSampleFrom (sample_id : List Str) (label : Str) : Nat → Nat → Except Err Int
  | 0, _ => .ok (-1)
  | n + 1, i =>
    match sample_id.get? i with
    | none => .error .outOfRange
    | some s => if s = label then .ok (i : Int) else findSampleFrom sample_id label n (i + 1)

/-- Lines 47-48: `idx_sample` for one column label. -/
def findSample (cfg : Config) (label : Str) : Except Err Int :=
  findSampleFrom cfg.sample_id label cfg.sample_count 0

/-- The loop of lines 45-56 over the labels `str[9], str[10], ...`, extending `mappingS`
and the three sample counters. -/
def mapSamples (E : Env) (cfg : Config) :
    List Str → List Int → SampleTally → Except Err (List Int × SampleTally)
  | [], mappingS, c => .ok (mappingS, c)
  | label :: rest, mappingS, c =>
    if E.checkSample label then
      match findSample cfg label with
      | .error e => .error e
      | .ok idx_sample =>
        if idx_sample ≥ 0 then
          mapSamples E cfg rest (mappingS ++ [idx_sample])
            { c with n_includedS := c.n_includedS + 1 }
        else
          mapSamples E cfg rest (mappingS ++ [idx_sample])
            { c with n_missingS := c.n_missingS + 1 }
    else
      mapSamples E cfg rest (mappingS ++ [-1]) { c with n_excludedS := c.n_excludedS + 1 }

/-- Lines 41-57: the header checks, the Column Mapping and the overlap check. -/
def readSamples (E : Env) (cfg : Config) (header : Str) :
    Except Err (List Int × SampleTally) :=
  if header.length = 0 then .error (.fatal .noHeader)
  else
    let str := E.tokenize header E.sep_default
    if str.length < 10 then .error (.fatal .wrongHeader)
    else
      match mapSamples E cfg (str.drop 9) [] ⟨0, 0, 0⟩ with
      | .error e => .error e
      | .ok (mappingS, c) =>
        if c.n_includedS ≠ cfg.sample_count then .error (.fatal .noOverlap)
        else .ok (mappingS, c)

/-! ## Median Covariate Calculator (lines 59-70) -/

/-- Lines 62-69: the median of a sorted copy of the vector. -/
def median (interaction_val : List ℚ) : Except Err ℚ :=
  let interaction_val_sorted := interaction_val.insertionSort (· ≤ ·)
  let s := interaction_val.length
  if s % 2 = 0 then
    match interaction_val_sorted.get? (s / 2), interaction_val_sorted.get? (s / 2 - 1) with
    | some a, some b => .ok ((a + b) / 2)
    | _, _ => .error .outOfRange
  else
    match interaction_val_sorted.get? (s / 2) with
    | some a => .ok a
    | none => .error .outOfRange

/-- Lines 59-70: `median_interaction`, left at `0.0` when stratification is disabled. -/
def medianInteraction (cfg : Config) : Except Err ℚ :=
  if cfg.interaction_maf_threshold > 0 then median cfg.interaction_val else .ok 0

/-! ## Format Resolver (lines 80-84) -/

/-- One of the loops of lines 83-84 from position `f` on: `idx_field` becomes the position of
every token equal to `name`, so it ends at the last one. -/
def scanField (name : Str) : List Str → Nat → Int → Int
  | [], _, idx_field => idx_field
  | x :: xs, f, idx_field => scanField name xs (f + 1) (if x = name then (f : Int) else idx_field)

/-- Lines 80-84: the pair `(idx_field, gt_field)` for the tokens of FORMAT. -/
def resolveFormat (field : List Str) : Int × Bool :=
  let idx_field := scanField "DS".toList field 0 (-1)
  if idx_field < 0 then (scanField "GT".toList field 0 idx_field, true)
  else (idx_field, false)

/-! ## Global Frequency Prefilter (lines 86-100) -/

/-- The call `s.find("=")`: the position of the first `=`, `none` for `npos`. -/
def findEq : Str → Option Nat
  | [] => none
  | c :: cs => if c = '=' then some 0 else (findEq cs).map (· + 1)

/-- The key `field[f].substr(0, p)`: all of the token when it has no `=`. -/
def infoKey (s : Str) : Str :=
  match findEq s with
  | some p => s.take p
  | none => s

/-- The text `field[f].substr(p+1, npos)`: with `p = npos` the position `p+1` wraps to `0`
and the text is all of the token. -/
def infoValue (s : Str) : Str :=
  match findEq s with
  | some p => s.drop (p + 1)
  | none => s

/-- The loop of lines 90-99 over the tokens of INFO: `passed_AF`. -/
def scanAF (E : Env) (global_af_threshold : ℚ) : List Str → Except Err Bool
  | [] => .ok true
  | x :: xs =>
    if infoKey x = "AF".toList then
      match E.stod (infoValue x) with
      | none => .error .exception
      | some val =>
        .ok (!(decide (val < global_af_threshold) || decide (val > 1 - global_af_threshold)))
    else scanAF E global_af_threshold xs

/-- Lines 86-100: `passed_AF` for the token list `str` of a line. -/
def passedAF (E : Env) (cfg : Config) (str : List Str) : Except Err Bool :=
  if cfg.global_af_threshold > 0 then
    match str.get? 7 with
    | none => .error .outOfRange
    | some info => scanAF E cfg.global_af_threshold (E.tokenize info ";".toList)
  else .ok true

/-! ## Per-Sample Value Extractor (lines 105-129) -/

/-- Lines 119-126: the value of a sample from its GT sub-field. -/
def gtValue (g : Str) : Except Err ℚ :=
  match charAt g 0 with
  | .error e => .error e
  | .ok x0 =>
    if x0 = '.' then .ok (-1)
    else
      match charAt g 2 with
      | .error e => .error e
      | .ok x2 =>
        if x2 = '.' then .ok (-1)
        else
          let a0 := atoi (substr g 0 1)
          let a1 := atoi (substr g 2 1)
          let dosage := a0 + a1
          if dosage < 0 ∨ dosage > 2 then .error (.fatal .badGenotype)
          else .ok (dosage : ℚ)

/-- Lines 112-117: the value of a sample from its DS sub-field. -/
def dsValue (E : Env) (g : Str) : Except Err ℚ :=
  match charAt g 0 with
  | .error e => .error e
  | .ok x0 => if x0 = '.' then .ok (-1) else .ok (E.atof g)

/-- Lines 109-127: the value written to `genotype_vec` for the sample column `col`. -/
def sampleValue (E : Env) (gt_field : Bool) (idx_field : Int) (col : Str) : Except Err ℚ :=
  let field := E.tokenize col ":".toList
  if col = ".".toList ∨ col = "NN".toList ∨ col = "NA".toList then .ok (-1)
  else
    match field.get? idx_field.toNat with
    | none => .error .outOfRange
    | some g => if !gt_field then dsValue E g else gtValue g

/-- The loop of lines 107-129 over the columns `str[9], str[10], ...`; `k` is `t - 9`. -/
def extractFrom (E : Env) (mappingS : List Int) (gt_field : Bool) (idx_field : Int) :
    List Str → Nat → List ℚ → Except Err (List ℚ)
  | [], _, genotype_vec => .ok genotype_vec
  | col :: rest, k, genotype_vec =>
    match mappingS.get? k with
    | none => .error .outOfRange
    | some m =>
      if m ≥ 0 then
        match sampleValue E gt_field idx_field col with
        | .error e => .error e
        | .ok v =>
          if m.toNat < genotype_vec.length then
            extractFrom E mappingS gt_field idx_field rest (k + 1) (genotype_vec.set m.toNat v)
          else .error .outOfRange
      else extractFrom E mappingS gt_field idx_field rest (k + 1) genotype_vec

/-- Lines 105-129: `genotype_vec` for the token list `str` of a line. -/
def extract (E : Env) (cfg : Config) (mappingS : List Int) (gt_field : Bool) (idx_field : Int)
    (str : List Str) : Except Err (List ℚ) :=
  extractFrom E mappingS gt_field idx_field (str.drop 9) 0 (List.replicate cfg.sample_count 0)

/-! ## Allele Statistics Engine (lines 133-168) -/

/-- The loop of lines 137-150: the class counts `(c0, c1, c2)`. -/
def classCounts : List ℚ → Nat × Nat × Nat → Except Err (Nat × Nat × Nat)
  | [], c => .ok c
  | x :: xs, (c0, c1, c2) =>
    if x ≠ -1 then
      let r := round x
      if r = 0 then classCounts xs (c0 + 1, c1, c2)
      else if r = 1 then classCounts xs (c0, c1 + 1, c2)
      else if r = 2 then classCounts xs (c0, c1, c2 + 1)
      else .error (.fatal .badDosage)
    else classCounts xs (c0, c1, c2)

/-- The variables set at lines 151-168. -/
structure Stats where
  maf : Option ℚ
  ma_samples : Nat
  ma_count : Nat
  ref_factor : Int
deriving DecidableEq

/-- Lines 151-168. The floats `ref_alleles` and `alt_alleles` hold integers. -/
def alleleStats (c0 c1 c2 : Nat) : Stats :=
  let ref_alleles := 2 * c0 + c1
  let alt_alleles := c1 + 2 * c2
  let num_samples := c0 + c1 + c2
  if ref_alleles ≥ alt_alleles then
    { maf := fdiv (alt_alleles : ℚ) ((2 * num_samples : Nat) : ℚ)
      ma_samples := c1 + c2
      ma_count := alt_alleles
      ref_factor := 1 }
  else
    { maf := fdiv (ref_alleles : ℚ) ((2 * num_samples : Nat) : ℚ)
      ma_samples := c0 + c1
      ma_count := ref_alleles
      ref_factor := -1 }

/-! ## Covariate-Stratified Frequency Splitter (lines 170-196) -/

/-- The statement `c[r]++` on a `std::map<int,int>`, read as the function from keys to
counts (absent keys count `0`). -/
def bump (c : Int → Nat) (r : Int) : Int → Nat :=
  fun k => if k = r then c k + 1 else c k

/-- The loop of lines 176-185 from sample `i` on. -/
def splitCounts (interaction_val : List ℚ) (median_interaction : ℚ) :
    List ℚ → Nat → (Int → Nat) → (Int → Nat) → Except Err ((Int → Nat) × (Int → Nat))
  | [], _, c_upper, c_lower => .ok (c_upper, c_lower)
  | x :: xs, i, c_upper, c_lower =>
    if x ≠ -1 then
      let r := round x
      match interaction_val.get? i with
      | none => .error .outOfRange
      | some v =>
        if v ≥ median_interaction then
          splitCounts interaction_val median_interaction xs (i + 1) (bump c_upper r) c_lower
        else
          splitCounts interaction_val median_interaction xs (i + 1) c_upper (bump c_lower r)
    else splitCounts interaction_val median_interaction xs (i + 1) c_upper c_lower

/-- Lines 186-190 (and 191-195): the frequency of one half, mirrored when above `0.5`. -/
def halfMaf (c : Int → Nat) : Option ℚ :=
  let alt := c 1 + 2 * c 2
  let maf := fdiv (alt : ℚ) ((2 * (c 0 + c 1 + c 2) : Nat) : ℚ)
  if fgt maf (1 / 2) then maf.map (fun q => 1 - q) else maf

/-- Lines 170-196: the pair `(maf_lower, maf_upper)`, both `0.0` when stratification is
disabled. -/
def stratify (cfg : Config) (median_interaction : ℚ) (genotype_vec : List ℚ) :
    Except Err (Option ℚ × Option ℚ) :=
  if cfg.interaction_maf_threshold > 0 then
    match splitCounts cfg.interaction_val median_interaction genotype_vec 0
        (fun _ => 0) (fun _ => 0) with
    | .error e => .error e
    | .ok (c_upper, c_lower) => .ok (halfMaf c_lower, halfMaf c_upper)
  else .ok (some 0, some 0)

/-! ## Threshold Filter and Accumulator (lines 75-233) -/

/-- The local variables of a line when control reaches the test of line 198. -/
structure Candidate where
  str : List Str
  genotype_vec : List ℚ
  c0 : Nat
  c1 : Nat
  c2 : Nat
  maf_lower : Option ℚ
  maf_upper : Option ℚ
deriving DecidableEq

/-- The variables `maf`, `ma_samples`, `ma_count`, `ref_factor` of a candidate. -/
def Candidate.stats (c : Candidate) : Stats :=
  alleleStats c.c0 c.c1 c.c2

/-- How far a line gets before the threshold filter. -/
inductive Stage where
  | excludedG
  | excludedF
  | excludedMAFglobal
  | reached (c : Candidate)
deriving DecidableEq

/-- Lines 78-196 for the token list `str` of a non-empty line. -/
def lineStage (E : Env) (cfg : Config) (mappingS : List Int) (median_interaction : ℚ)
    (str : List Str) : Except Err Stage :=
  match str.get? 2 with
  | none => .error .outOfRange
  | some id =>
    if E.checkGenotype id then
      match str.get? 8 with
      | none => .error .outOfRange
      | some format =>
        let fmt := resolveFormat (E.tokenize format ":".toList)
        match passedAF E cfg str with
        | .error e => .error e
        | .ok passed_AF =>
          if fmt.1 ≥ 0 then
            if passed_AF then
              match extract E cfg mappingS fmt.2 fmt.1 str with
              | .error e => .error e
              | .ok genotype_vec =>
                match classCounts genotype_vec (0, 0, 0) with
                | .error e => .error e
                | .ok (c0, c1, c2) =>
                  match stratify cfg median_interaction genotype_vec with
                  | .error e => .error e
                  | .ok (maf_lower, maf_upper) =>
                    .ok (.reached ⟨str, genotype_vec, c0, c1, c2, maf_lower, maf_upper⟩)
            else .ok .excludedMAFglobal
          else .ok .excludedF
    else .ok .excludedG

/-- The condition of lines 198-201. -/
def passesThresholds (cfg : Config) (c : Candidate) : Bool :=
  fge c.stats.maf cfg.maf_threshold &&
  decide ((c.stats.ma_samples : Int) ≥ cfg.ma_sample_threshold) &&
  fge c.maf_lower cfg.interaction_maf_threshold &&
  fge c.maf_upper cfg.interaction_maf_threshold

/-- The nine values pushed at lines 202-210. The columns `str[0]`, `str[1]`, `str[2]` exist,
`str[8]` having been read before. -/
def variantOf (cfg : Config) (c : Candidate) : Variant :=
  { id := c.str.getD 2 []
    chr := c.str.getD 0 []
    pos := atoi (c.str.getD 1 [])
    orig := c.genotype_vec
    curr := List.replicate cfg.sample_count 0
    maf := c.stats.maf
    ma_count := c.stats.ma_count
    ma_samples := c.stats.ma_samples
    ref_factor := c.stats.ref_factor }

/-- The branch a non-empty line ends in. -/
inductive LineResult where
  | included (v : Variant)
  | excludedG
  | excludedF
  | excludedMAFglobal
  | excludedMAF
deriving DecidableEq

/-- Lines 198-217: the branch chosen for a stage. -/
def filterStage (cfg : Config) : Stage → LineResult
  | .excludedG => .excludedG
  | .excludedF => .excludedF
  | .excludedMAFglobal => .excludedMAFglobal
  | .reached c => if passesThresholds cfg c then .included (variantOf cfg c) else .excludedMAF

/-- Lines 78-217 for the token list `str` of a non-empty line. -/
def lineResult (E : Env) (cfg : Config) (mappingS : List Int) (median_interaction : ℚ)
    (str : List Str) : Except Err LineResult :=
  match lineStage E cfg mappingS median_interaction str with
  | .error e => .error e
  | .ok st => .ok (filterStage cfg st)

/-- Lines 202-210: one `push_back` on each of the nine vectors. -/
def Output.push (o : Output) (v : Variant) : Output :=
  { o with
    genotype_id := o.genotype_id ++ [v.id]
    genotype_chr := o.genotype_chr ++ [v.chr]
    genotype_pos := o.genotype_pos ++ [v.pos]
    genotype_orig := o.genotype_orig ++ [v.orig]
    genotype_curr := o.genotype_curr ++ [v.curr]
    genotype_maf := o.genotype_maf ++ [v.maf]
    genotype_ma_count := o.genotype_ma_count ++ [v.ma_count]
    genotype_ma_samples := o.genotype_ma_samples ++ [v.ma_samples]
    genotype_ref_factor := o.genotype_ref_factor ++ [v.ref_factor] }

/-- The effect of a non-empty line on the output vectors (lines 202-210). -/
def applyOutput (o : Output) : LineResult → Output
  | .included v => o.push v
  | _ => o

/-- The effect of a non-empty line on the counters (lines 211-218). -/
def applyTally (t : Tally) : LineResult → Tally
  | .included _ => { t with n_includedG := t.n_includedG + 1, n_parsed := t.n_parsed + 1 }
  | .excludedG => { t with n_excludedG := t.n_excludedG + 1, n_parsed := t.n_parsed + 1 }
  | .excludedF => { t with n_excludedF := t.n_excludedF + 1, n_parsed := t.n_parsed + 1 }
  | .excludedMAFglobal =>
    { t with n_excludedMAFglobal := t.n_excludedMAFglobal + 1, n_parsed := t.n_parsed + 1 }
  | .excludedMAF => { t with n_excludedMAF := t.n_excludedMAF + 1, n_parsed := t.n_parsed + 1 }

/-- The loop of lines 75-220 over the lines of the region. -/
def readLines (E : Env) (cfg : Config) (mappingS : List Int) (median_interaction : ℚ) :
    List Str → Output → Tally → Except Err (Output × Tally)
  | [], o, t => .ok (o, t)
  | buffer :: rest, o, t =>
    if buffer.length = 0 then readLines E cfg mappingS median_interaction rest o t
    else
      match lineResult E cfg mappingS median_interaction (E.tokenize buffer E.sep_default) with
      | .error e => .error e
      | .ok r =>
        readLines E cfg mappingS median_interaction rest (applyOutput o r) (applyTally t r)

/-- What a completed run leaves behind: the data members written and the local variables
that the summary reports. -/
structure Run where
  out : Output
  tally : Tally
  mappingS : List Int
  samples : SampleTally
  median_interaction : ℚ
deriving DecidableEq

/-- The function `data::readGenotypesVCF`, run on an object whose output members are `o`. -/
def readGenotypesVCF (E : Env) (cfg : Config) (fvcf : VcfFile) (o : Output) : Except Err Run :=
  if !fvcf.has_index then .error (.fatal .indexMissing)
  else
    match readSamples E cfg fvcf.header with
    | .error e => .error e
    | .ok (mappingS, samples) =>
      match medianInteraction cfg with
      | .error e => .error e
      | .ok median_interaction =>
        if !fvcf.region_ok then .error (.fatal .regionFailed)
        else
          match readLines E cfg mappingS median_interaction fvcf.lines o ⟨0, 0, 0, 0, 0, 0⟩ with
          | .error e => .error e
          | .ok (o1, t) =>
            if t.n_includedG ≤ 0 then .error (.fatal .noGenotypes)
            else
              .ok { out := { o1 with genotype_count := (t.n_includedG : Int) }
                    tally := t
                    mappingS := mappingS
                    samples := samples
                    median_interaction := median_interaction }

/-! ## A concrete environment

The general theorems hold for every `Env`. Concrete runs use `refEnv`, which splits at
separator characters, keeps every sample and site, and reads plain decimal numbers. -/

/-- Modelled from the spec: `sutils::tokenize` is not part of `readGenotypes.cpp`; the spec
has it split a line into columns and a column into sub-fields at the separator. The tokens
of `s` from a position on, `cur` being the token under construction; empty tokens are
dropped. -/
def splitSep (sep : Str) : List Char → Str → List Str
  | [], cur => if cur = [] then [] else [cur]
  | c :: cs, cur =>
    if sep.contains c then
      (if cur = [] then splitSep sep cs [] else cur :: splitSep sep cs [])
    else splitSep sep cs (cur ++ [c])

/-- Modelled from the spec: the tokens of `s` for the separator set `sep` (see `splitSep`);
the empty string has the single empty token. -/
def tokenizeRef (s sep : Str) : List Str :=
  if s = [] then [[]] else splitSep sep s []

/-- The decimal exponent part `e[+-]digits` of a number, `0` when absent. -/
def exponentOf : List Char → Int
  | c :: r =>
    if c = 'e' ∨ c = 'E' then
      match r with
      | '-' :: r1 => - (natOfDigits (takeDigits r1).1 : Int)
      | '+' :: r1 => (natOfDigits (takeDigits r1).1 : Int)
      | r1 => (natOfDigits (takeDigits r1).1 : Int)
    else 0
  | [] => 0

/-- The C function `strtod` on decimal input: optional white space, optional sign, digits
with an optional fraction, optional exponent; `none` when no number starts the string.
Hexadecimal, `inf` and `nan` inputs are not modelled. -/
def strtod (s : Str) : Option ℚ :=
  let body := match s.dropWhile isSpace with
    | '-' :: r => (true, r)
    | '+' :: r => (false, r)
    | r => (false, r)
  let ip := takeDigits body.2
  let fp := match ip.2 with
    | '.' :: r => takeDigits r
    | r => ([], r)
  if ip.1 = [] ∧ fp.1 = [] then none
  else
    let mant : ℚ := (natOfDigits ip.1 : ℚ) + (natOfDigits fp.1 : ℚ) / (10 : ℚ) ^ fp.1.length
    some ((if body.1 then -mant else mant) * (10 : ℚ) ^ exponentOf fp.2)

/-- The environment of the concrete runs: no sample or site is excluded, `atof` is `strtod`
with `0` for no number, `std::stod` throws for no number. -/
def refEnv : Env :=
  { tokenize := tokenizeRef
    sep_default := [' ', '\t']
    checkSample := fun _ => true
    checkGenotype := fun _ => true
    atof := fun s => (strtod s).getD 0
    stod := strtod }


/-! ## The streaming loop as a list of line results -/

/-- The variants among a list of line results, in order. -/
def acceptedVariants : List LineResult → List Variant
  | [] => []
  | .included v :: rs => v :: acceptedVariants rs
  | _ :: rs => acceptedVariants rs

/-- The lines of the stream that the loop does not skip (line 76). -/
def nonEmpty (lines : List Str) : List Str :=
  lines.filter (fun buffer => buffer.length ≠ 0)

/-- The results of the lines of a stream, paired in order. -/
def ResultsOf (E : Env) (cfg : Config) (mappingS : List Int) (median_interaction : ℚ)
    (lines : List Str) (rs : List LineResult) : Prop :=
  List.Forall₂
    (fun buffer r =>
      lineResult E cfg mappingS median_interaction (E.tokenize buffer E.sep_default) = .ok r)
    (nonEmpty lines) rs

/-- The stages of the lines of a stream, paired in order. -/
def StagesOf (E : Env) (cfg : Config) (mappingS : List Int) (median_interaction : ℚ)
    (lines : List Str) (sts : List Stage) : Prop :=
  List.Forall₂
    (fun buffer st =>
      lineStage E cfg mappingS median_interaction (E.tokenize buffer E.sep_default) = .ok st)
    (nonEmpty lines) sts

/-- The output members after the variants `vs` have been pushed in order. -/
def Output.pushAll (o : Output) (vs : List Variant) : Output :=
  { genotype_id := o.genotype_id ++ vs.map (fun v => v.id)
    genotype_chr := o.genotype_chr ++ vs.map (fun v => v.chr)
    genotype_pos := o.genotype_pos ++ vs.map (fun v => v.pos)
    genotype_orig := o.genotype_orig ++ vs.map (fun v => v.orig)
    genotype_curr := o.genotype_curr ++ vs.map (fun v => v.curr)
    genotype_maf := o.genotype_maf ++ vs.map (fun v => v.maf)
    genotype_ma_count := o.genotype_ma_count ++ vs.map (fun v => v.ma_count)
    genotype_ma_samples := o.genotype_ma_samples ++ vs.map (fun v => v.ma_samples)
    genotype_ref_factor := o.genotype_ref_factor ++ vs.map (fun v => v.ref_factor)
    genotype_count := o.genotype_count }

/-! ## Notions of the specification -/

/-- The acceptance rule in the words of the specification (section 4.8): the global
frequency and the minor-allele sample count reach their thresholds and, when stratified
filtering is enabled, both half-frequencies reach the stratified threshold. -/
def specAccepts (cfg : Config) (c : Candidate) : Bool :=
  fge c.stats.maf cfg.maf_threshold &&
  decide ((c.stats.ma_samples : Int) ≥ cfg.ma_sample_threshold) &&
  (if cfg.interaction_maf_threshold > 0 then
    fge c.maf_lower cfg.interaction_maf_threshold && fge c.maf_upper cfg.interaction_maf_threshold
   else true)

/-- The Column Mapping entry of a label in the words of the specification: the first cohort
slot holding the label when the label is a cohort member present in `sample_id`, and `-1`
otherwise. -/
def specEntry (E : Env) (cfg : Config) (label : Str) : Int :=
  if E.checkSample label = true ∧ label ∈ cfg.sample_id then
    ((cfg.sample_id.findIdx (fun s => decide (s = label)) : Nat) : Int)
  else -1

/-- The number of resolved entries of a Column Mapping. -/
def resolvedCount (mappingS : List Int) : Nat :=
  mappingS.countP (fun e => decide (e ≥ 0))

/-- The integer value of a single allele character: the value of a decimal digit, `0` for
any other character. -/
def charValue (c : Char) : Nat :=
  (digitOf c).getD 0

/-- A dosage that the statistics engine can classify: the missing sentinel, or a value
that rounds to `0`, `1` or `2`. -/
def validDosage (x : ℚ) : Prop :=
  x = -1 ∨ round x = 0 ∨ round x = 1 ∨ round x = 2

instance (x : ℚ) : Decidable (validDosage x) := by
  unfold validDosage
  infer_instance

/-- The number of non-missing entries of a dosage vector that round to the class `k`. -/
def classSize (k : Int) (xs : List ℚ) : Nat :=
  xs.countP (fun x => decide (x ≠ -1) && decide (round x = k))

/-- Membership of a covariate value in a half: the upper half holds the values at or above
the median, the lower half those below it. -/
def inHalf (upper : Bool) (median_interaction v : ℚ) : Bool :=
  if upper then decide (v ≥ median_interaction) else decide (v < median_interaction)

/-- The number of non-missing samples of a half whose dosage rounds to the class `k`; a
sample is a pair of its dosage and its covariate value. -/
def halfCount (upper : Bool) (median_interaction : ℚ) (k : Int) (pairs : List (ℚ × ℚ)) : Nat :=
  pairs.countP (fun p =>
    decide (p.1 ≠ -1) && decide (round p.1 = k) && inHalf upper median_interaction p.2)

/-- The number of non-missing samples of a half. -/
def halfSamples (upper : Bool) (median_interaction : ℚ) (pairs : List (ℚ × ℚ)) : Nat :=
  pairs.countP (fun p => decide (p.1 ≠ -1) && inHalf upper median_interaction p.2)

/-- The raw alternate-allele frequency `(c1 + 2*c2) / (2*(c0 + c1 + c2))` of class counts. -/
def rawFrequency (c0 c1 c2 : Nat) : ℚ :=
  ((c1 + 2 * c2 : Nat) : ℚ) / ((2 * (c0 + c1 + c2) : Nat) : ℚ)

/-- The class counts `c0, c1, c2` as a map from classes to counts. -/
def countsMap (c0 c1 c2 : Nat) : Int → Nat :=
  fun k => if k = 0 then c0 else if k = 1 then c1 else if k = 2 then c2 else 0

/-- Is this the outcome of an included line? -/
def isIncluded : Except Err LineResult → Bool
  | .ok (.included _) => true
  | _ => false

/-- The token lists of the lines of a stream that the loop includes, in stream order. -/
def acceptedLines (E : Env) (cfg : Config) (mappingS : List Int) (median_interaction : ℚ)
    (lines : List Str) : List (List Str) :=
  ((nonEmpty lines).map (fun buffer => E.tokenize buffer E.sep_default)).filter
    (fun str => isIncluded (lineResult E cfg mappingS median_interaction str))

/-- The five tallies of the lines, in the order included, site-excluded, format-missing,
global-AF-filtered, MAF-filtered. -/
def Tally.counters (t : Tally) : List Nat :=
  [t.n_includedG, t.n_excludedG, t.n_excludedF, t.n_excludedMAFglobal, t.n_excludedMAF]

/-- The sum of the five tallies. -/
def Tally.total (t : Tally) : Nat :=
  t.n_includedG + t.n_excludedG + t.n_excludedF + t.n_excludedMAFglobal + t.n_excludedMAF

/-- The position in `Tally.counters` of the tally a line result is counted under. -/
def tallyIndex : LineResult → Nat
  | .included _ => 0
  | .excludedG => 1
  | .excludedF => 2
  | .excludedMAFglobal => 3
  | .excludedMAF => 4

/-- What an entry of the Column Mapping can be for a label: `-1`, or a cohort slot below
`sample_count` that holds the label. -/
def EntryFor (cfg : Config) (label : Str) (e : Int) : Prop :=
  e = -1 ∨ ∃ j : Nat, e = (j : Int) ∧ j < cfg.sample_count ∧ cfg.sample_id.get? j = some label

/-! ## Concrete inputs -/

/-- An object whose output vectors are still empty. -/
def emptyOutput : Output :=
  ⟨[], [], [], [], [], [], [], [], [], 0⟩

/-- A cohort of two samples with every threshold at zero. -/
def demoConfig : Config :=
  { sample_count := 2
    sample_id := ["s1".toList, "s2".toList]
    interaction_val := []
    maf_threshold := 0
    ma_sample_threshold := 0
    global_af_threshold := 0
    interaction_maf_threshold := 0 }

/-- A header line with the two samples of `demoConfig`. -/
def demoHeader : Str :=
  "#CHROM\tPOS\tID\tREF\tALT\tQUAL\tFILTER\tINFO\tFORMAT\ts1\ts2".toList

/-- A genotype-encoded file of one line: calls `0/1` and `1/1`. -/
def gtFile : VcfFile :=
  { has_index := true
    header := demoHeader
    region_ok := true
    lines := ["1\t100\trs1\tA\tG\t.\tPASS\tAF=0.3\tGT\t0/1\t1/1".toList] }

/-- The tokens of the line of `gtFile`. -/
def gtLine : List Str :=
  tokenizeRef "1\t100\trs1\tA\tG\t.\tPASS\tAF=0.3\tGT\t0/1\t1/1".toList refEnv.sep_default

/-- The local variables of `gtLine` at the threshold filter. -/
def gtCandidate : Candidate :=
  { str := gtLine
    genotype_vec := [1, 2]
    c0 := 0
    c1 := 1
    c2 := 1
    maf_lower := some 0
    maf_upper := some 0 }

/-- The run of `readGenotypesVCF` on `gtFile`. -/
def gtRun : Run :=
  { out :=
      { genotype_id := ["rs1".toList]
        genotype_chr := ["1".toList]
        genotype_pos := [100]
        genotype_orig := [[1, 2]]
        genotype_curr := [[0, 0]]
        genotype_maf := [some (1 / 4)]
        genotype_ma_count := [1]
        genotype_ma_samples := [1]
        genotype_ref_factor := [-1]
        genotype_count := 1 }
    tally := ⟨1, 0, 0, 0, 0, 1⟩
    mappingS := [0, 1]
    samples := ⟨2, 0, 0⟩
    median_interaction := 0 }

/-- A file whose line carries both GT and DS: the dosages `1.7` and `2.4` are read. -/
def dsFile : VcfFile :=
  { has_index := true
    header := demoHeader
    region_ok := true
    lines := ["1\t100\trs1\tA\tG\t.\tPASS\tAF=0.3\tGT:DS\t0/1:1.7\t1/1:2.4".toList] }

/-- The tokens of the line of `dsFile`. -/
def dsLine : List Str :=
  tokenizeRef "1\t100\trs1\tA\tG\t.\tPASS\tAF=0.3\tGT:DS\t0/1:1.7\t1/1:2.4".toList
    refEnv.sep_default

/-- The run of `readGenotypesVCF` on `dsFile`. -/
def dsRun : Run :=
  { out :=
      { genotype_id := ["rs1".toList]
        genotype_chr := ["1".toList]
        genotype_pos := [100]
        genotype_orig := [[17 / 10, 12 / 5]]
        genotype_curr := [[0, 0]]
        genotype_maf := [some 0]
        genotype_ma_count := [0]
        genotype_ma_samples := [0]
        genotype_ref_factor := [-1]
        genotype_count := 1 }
    tally := ⟨1, 0, 0, 0, 0, 1⟩
    mappingS := [0, 1]
    samples := ⟨2, 0, 0⟩
    median_interaction := 0 }

/-- A genotype-encoded file of two lines: frequency `1/4` at `rs1` and `1/2` at `rs2`. -/
def twoLineFile : VcfFile :=
  { has_index := true
    header := demoHeader
    region_ok := true
    lines := ["1\t100\trs1\tA\tG\t.\tPASS\tAF=0.3\tGT\t0/1\t1/1".toList,
              "1\t200\trs2\tC\tT\t.\tPASS\tAF=0.5\tGT\t0/1\t0/1".toList] }

/-- The configuration `demoConfig` with `global_af_threshold = 0.05`. -/
def afConfig : Config :=
  { demoConfig with global_af_threshold := 1 / 20 }

/-- The tokens of a line annotated `AF=0.01` whose sample columns hold the malformed
genotype `9/9`. -/
def afLine : List Str :=
  tokenizeRef "1\t100\trs1\tA\tG\t.\tPASS\tDP=7;AF=0.01\tGT\t9/9\t9/9".toList refEnv.sep_default

/-- The configuration `demoConfig` with stratified filtering at `0.1` and the covariate
values `1` and `2` (median `1.5`). -/
def stratConfig : Config :=
  { demoConfig with interaction_maf_threshold := 1 / 10, interaction_val := [1, 2] }

/-- The local variables of `gtLine` at the threshold filter under `stratConfig`: the lower
half holds the call `0/1` (raw frequency `0.5`), the upper half the call `1/1` (raw
frequency `1`, folded to `0`). -/
def stratCandidate : Candidate :=
  { str := gtLine
    genotype_vec := [1, 2]
    c0 := 0
    c1 := 1
    c2 := 1
    maf_lower := some (1 / 2)
    maf_upper := some 0 }

/-- The tokens of a line whose FORMAT names neither DS nor GT and whose INFO carries the
missing value `AF=.`. -/
def plLine : List Str :=
  tokenizeRef "1\t100\trs1\tA\tG\t.\tPASS\tAF=.\tPL\t0,1,2\t0,1,2".toList refEnv.sep_default

/-- A file of two lines: the line of `plLine`, then the line of `gtFile`. -/
def plFile : VcfFile :=
  { has_index := true
    header := demoHeader
    region_ok := true
    lines := ["1\t100\trs1\tA\tG\t.\tPASS\tAF=.\tPL\t0,1,2\t0,1,2".toList,
              "1\t200\trs2\tA\tG\t.\tPASS\tAF=0.3\tGT\t0/1\t1/1".toList] }

/-- The configuration `demoConfig` with `maf_threshold = 0.3`. -/
def mafConfig : Config :=
  { demoConfig with maf_threshold := 3 / 10 }

/-- The run of `readGenotypesVCF` on `twoLineFile` under `mafConfig`: `rs1` is filtered,
`rs2` is included. -/
def mafRun : Run :=
  { out :=
      { genotype_id := ["rs2".toList]
        genotype_chr := ["1".toList]
        genotype_pos := [200]
        genotype_orig := [[1, 1]]
        genotype_curr := [[0, 0]]
        genotype_maf := [some (1 / 2)]
        genotype_ma_count := [2]
        genotype_ma_samples := [2]
        genotype_ref_factor := [1]
        genotype_count := 1 }
    tally := ⟨1, 0, 0, 1, 0, 2⟩
    mappingS := [0, 1]
    samples := ⟨2, 0, 0⟩
    median_interaction := 0 }

/-- The tokens of a line whose FORMAT names neither DS nor GT and whose `AF=0.01` fails the
prefilter of `afConfig`. -/
def plAfLine : List Str :=
  tokenizeRef "1\t100\trs1\tA\tG\t.\tPASS\tAF=0.01\tPL\t0,1,2\t0,1,2".toList refEnv.sep_default

/-- The tokens of a dosage-encoded line whose first dosage `3.0` rounds to no class. -/
def badDsLine : List Str :=
  tokenizeRef "1\t100\trs1\tA\tG\t.\tPASS\tAF=0.3\tDS\t3.0\t1.0".toList refEnv.sep_default

/-- A genotype-encoded file of one line with the multi-allelic call `0/2` and the call `0/0`. -/
def multiAllelicFile : VcfFile :=
  { has_index := true
    header := demoHeader
    region_ok := true
    lines := ["1\t100\trs1\tA\tG,T\t.\tPASS\tAF=0.3\tGT\t0/2\t0/0".toList] }

/-- A header whose two sample columns both carry the label `s1`. -/
def dupHeader : Str :=
  "#CHROM\tPOS\tID\tREF\tALT\tQUAL\tFILTER\tINFO\tFORMAT\ts1\ts1".toList

/-! # Properties -/

/-! ## The streaming loop -/

theorem readLines_results (E : Env) (cfg : Config) (mappingS : List Int) (med : ℚ) :
    ∀ (lines : List Str) (o : Output) (t : Tally) (o1 : Output) (t1 : Tally),
      readLines E cfg mappingS med lines o t = .ok (o1, t1) →
      ∃ rs, ResultsOf E cfg mappingS med lines rs ∧
        o1 = rs.foldl applyOutput o ∧ t1 = rs.foldl applyTally t := by
  intro lines
  induction lines with
  | nil =>
    intro o t o1 t1 h
    simp only [readLines, Except.ok.injEq, Prod.mk.injEq] at h
    exact ⟨[], List.Forall₂.nil, by simp [h.1], by simp [h.2]⟩
  | cons buffer rest ih =>
    intro o t o1 t1 h
    by_cases hb : buffer.length = 0
    · simp only [readLines, hb, if_true] at h
      obtain ⟨rs, hrs, ho, ht⟩ := ih o t o1 t1 h
      refine ⟨rs, ?_, ho, ht⟩
      simpa [ResultsOf, nonEmpty, List.filter, hb] using hrs
    · simp only [readLines, hb, if_false] at h
      cases hr : lineResult E cfg mappingS med (E.tokenize buffer E.sep_default) with
      | error e => simp [hr] at h
      | ok r =>
        simp only [hr] at h
        obtain ⟨rs, hrs, ho, ht⟩ := ih _ _ o1 t1 h
        refine ⟨r :: rs, ?_, by simpa using ho, by simpa using ht⟩
        have : nonEmpty (buffer :: rest) = buffer :: nonEmpty rest := by
          simp [nonEmpty, List.filter, hb]
        rw [ResultsOf, this]
        exact List.Forall₂.cons hr hrs

theorem readLines_of_results (E : Env) (cfg : Config) (mappingS : List Int) (med : ℚ) :
    ∀ (lines : List Str) (rs : List LineResult) (o : Output) (t : Tally),
      ResultsOf E cfg mappingS med lines rs →
      readLines E cfg mappingS med lines o t = .ok (rs.foldl applyOutput o, rs.foldl applyTally t) := by
  intro lines
  induction lines with
  | nil =>
    intro rs o t h
    cases h
    simp [readLines]
  | cons buffer rest ih =>
    intro rs o t h
    by_cases hb : buffer.length = 0
    · have : nonEmpty (buffer :: rest) = nonEmpty rest := by simp [nonEmpty, List.filter, hb]
      rw [ResultsOf, this] at h
      simp only [readLines, hb, if_true]
      exact ih rs o t h
    · have : nonEmpty (buffer :: rest) = buffer :: nonEmpty rest := by
        simp [nonEmpty, List.filter, hb]
      rw [ResultsOf, this] at h
      cases h with
      | cons hr hrs =>
        simp only [readLines, hb, if_false, hr]
        exact ih _ _ _ hrs

theorem foldl_applyOutput (rs : List LineResult) :
    ∀ o : Output, rs.foldl applyOutput o = o.pushAll (acceptedVariants rs) := by
  induction rs with
  | nil => intro o; simp [acceptedVariants, Output.pushAll]
  | cons r rs ih =>
    intro o
    cases r <;>
      simp [List.foldl_cons, ih, applyOutput, acceptedVariants, Output.pushAll, Output.push]

theorem foldl_applyTally_included (rs : List LineResult) :
    ∀ t : Tally, (rs.foldl applyTally t).n_includedG
      = t.n_includedG + (acceptedVariants rs).length := by
  induction rs with
  | nil => intro t; simp [acceptedVariants]
  | cons r rs ih =>
    intro t
    cases r
    all_goals simp [List.foldl_cons, ih, applyTally, acceptedVariants]
    omega

/-- A completed run passed every start-up check, and its output is the initial output
extended by the variants of the included lines. -/
theorem readGenotypesVCF_ok {E : Env} {cfg : Config} {fvcf : VcfFile} {o : Output} {r : Run}
    (h : readGenotypesVCF E cfg fvcf o = .ok r) :
    fvcf.has_index = true ∧ fvcf.region_ok = true ∧
    readSamples E cfg fvcf.header = .ok (r.mappingS, r.samples) ∧
    medianInteraction cfg = .ok r.median_interaction ∧
    ∃ rs, ResultsOf E cfg r.mappingS r.median_interaction fvcf.lines rs ∧
      r.out = { o.pushAll (acceptedVariants rs) with
                genotype_count := ((acceptedVariants rs).length : Int) } ∧
      r.tally = rs.foldl applyTally ⟨0, 0, 0, 0, 0, 0⟩ ∧
      0 < (acceptedVariants rs).length := by
  unfold readGenotypesVCF at h
  cases hi : fvcf.has_index with
  | false => simp [hi] at h
  | true =>
    simp only [hi, Bool.not_true, Bool.false_eq_true, if_false] at h
    cases hs : readSamples E cfg fvcf.header with
    | error e => simp [hs] at h
    | ok ms =>
      obtain ⟨mappingS, samples⟩ := ms
      simp only [hs] at h
      cases hm : medianInteraction cfg with
      | error e => simp [hm] at h
      | ok med =>
        simp only [hm] at h
        cases hr : fvcf.region_ok with
        | false => simp [hr] at h
        | true =>
          simp only [hr, Bool.not_true, Bool.false_eq_true, if_false] at h
          cases hl : readLines E cfg mappingS med fvcf.lines o ⟨0, 0, 0, 0, 0, 0⟩ with
          | error e => simp [hl] at h
          | ok ot =>
            obtain ⟨o1, t⟩ := ot
            simp only [hl] at h
            by_cases hz : t.n_includedG ≤ 0
            · simp [hz] at h
            · simp only [hz, if_false, Except.ok.injEq] at h
              obtain ⟨rs, hrs, ho, ht⟩ := readLines_results E cfg mappingS med _ _ _ _ _ hl
              have hn := foldl_applyTally_included rs ⟨0, 0, 0, 0, 0, 0⟩
              rw [← ht] at hn
              simp only [Nat.zero_add] at hn
              subst h
              refine ⟨rfl, rfl, rfl, rfl, rs, hrs, ?_, ht, by omega⟩
              simp only [ho, foldl_applyOutput, hn]

/-! ## One line -/

/-- A line that reaches the threshold filter passed the site check, has a DS or GT field,
passed the global prefilter, and its local variables are those of the three passes over
the samples. -/
theorem lineStage_reached {E : Env} {cfg : Config} {mappingS : List Int} {med : ℚ}
    {str : List Str} {c : Candidate}
    (h : lineStage E cfg mappingS med str = .ok (.reached c)) :
    ∃ id format,
      str.get? 2 = some id ∧ E.checkGenotype id = true ∧ str.get? 8 = some format ∧
      (resolveFormat (E.tokenize format ":".toList)).1 ≥ 0 ∧
      passedAF E cfg str = .ok true ∧
      c.str = str ∧
      extract E cfg mappingS (resolveFormat (E.tokenize format ":".toList)).2
        (resolveFormat (E.tokenize format ":".toList)).1 str = .ok c.genotype_vec ∧
      classCounts c.genotype_vec (0, 0, 0) = .ok (c.c0, c.c1, c.c2) ∧
      stratify cfg med c.genotype_vec = .ok (c.maf_lower, c.maf_upper) := by
  unfold lineStage at h
  cases h2 : str.get? 2 with
  | none => rw [h2] at h; simp at h
  | some id =>
    simp only [h2] at h
    cases hg : E.checkGenotype id with
    | false => rw [hg] at h; simp at h
    | true =>
      simp only [hg, if_true] at h
      cases h8 : str.get? 8 with
      | none => rw [h8] at h; simp at h
      | some format =>
        simp only [h8] at h
        cases hp : passedAF E cfg str with
        | error e => rw [hp] at h; simp at h
        | ok passed =>
          simp only [hp] at h
          by_cases hf : (resolveFormat (E.tokenize format ":".toList)).1 ≥ 0
          · simp only [hf, if_true] at h
            cases passed with
            | false => simp at h
            | true =>
              simp only [if_true] at h
              cases he : extract E cfg mappingS (resolveFormat (E.tokenize format ":".toList)).2
                  (resolveFormat (E.tokenize format ":".toList)).1 str with
              | error e => rw [he] at h; simp at h
              | ok vec =>
                simp only [he] at h
                cases hc : classCounts vec (0, 0, 0) with
                | error e => rw [hc] at h; simp at h
                | ok cs =>
                  obtain ⟨c0, c1, c2⟩ := cs
                  simp only [hc] at h
                  cases hst : stratify cfg med vec with
                  | error e => rw [hst] at h; simp at h
                  | ok lu =>
                    obtain ⟨lo, up⟩ := lu
                    simp only [hst, Except.ok.injEq, Stage.reached.injEq] at h
                    subst h
                    exact ⟨id, format, rfl, hg, rfl, hf, rfl, rfl, he, hc, hst⟩
          · rw [if_neg hf] at h; simp at h

/-- An included line reached the threshold filter and passed it. -/
theorem lineResult_included {E : Env} {cfg : Config} {mappingS : List Int} {med : ℚ}
    {str : List Str} {v : Variant}
    (h : lineResult E cfg mappingS med str = .ok (.included v)) :
    ∃ c, lineStage E cfg mappingS med str = .ok (.reached c) ∧
      passesThresholds cfg c = true ∧ v = variantOf cfg c := by
  unfold lineResult at h
  cases hs : lineStage E cfg mappingS med str with
  | error e => rw [hs] at h; simp at h
  | ok st =>
    simp only [hs, Except.ok.injEq] at h
    cases st with
    | reached c =>
      simp only [filterStage] at h
      by_cases hp : passesThresholds cfg c = true
      · simp only [hp, if_true, LineResult.included.injEq] at h
        exact ⟨c, rfl, hp, h.symm⟩
      · simp [hp] at h
    | excludedG => simp [filterStage] at h
    | excludedF => simp [filterStage] at h
    | excludedMAFglobal => simp [filterStage] at h

/-- Every variant among the results of a stream is the variant of an included line. -/
theorem acceptedVariants_mem {E : Env} {cfg : Config} {mappingS : List Int} {med : ℚ}
    {lines : List Str} {rs : List LineResult}
    (h : ResultsOf E cfg mappingS med lines rs) {v : Variant} (hv : v ∈ acceptedVariants rs) :
    ∃ buffer ∈ lines, buffer.length ≠ 0 ∧
      lineResult E cfg mappingS med (E.tokenize buffer E.sep_default) = .ok (.included v) := by
  have key : ∀ (ls : List Str) (rs : List LineResult),
      List.Forall₂ (fun buffer r =>
        lineResult E cfg mappingS med (E.tokenize buffer E.sep_default) = .ok r) ls rs →
      v ∈ acceptedVariants rs →
      ∃ buffer ∈ ls,
        lineResult E cfg mappingS med (E.tokenize buffer E.sep_default) = .ok (.included v) := by
    intro ls
    induction ls with
    | nil =>
      intro rs hf hv
      cases hf
      simp [acceptedVariants] at hv
    | cons b bs ih =>
      intro rs hf hv
      cases hf with
      | cons hr hrs =>
        rename_i r rs2
        cases r with
        | included w =>
          simp only [acceptedVariants, List.mem_cons] at hv
          rcases hv with hv | hv
          · subst hv; exact ⟨b, List.mem_cons_self _ _, hr⟩
          · obtain ⟨b2, hb2, h2⟩ := ih rs2 hrs hv
            exact ⟨b2, List.mem_cons_of_mem _ hb2, h2⟩
        | excludedG | excludedF | excludedMAFglobal | excludedMAF =>
          simp only [acceptedVariants] at hv
          obtain ⟨b2, hb2, h2⟩ := ih rs2 hrs hv
          exact ⟨b2, List.mem_cons_of_mem _ hb2, h2⟩
  obtain ⟨b, hb, hr⟩ := key _ _ h hv
  simp only [nonEmpty, List.mem_filter, decide_eq_true_eq] at hb
  exact ⟨b, hb.1, hb.2, hr⟩

/-! ## Allele statistics -/

theorem fge_eq_true {a : Option ℚ} {b : ℚ} (h : fge a b = true) : ∃ q, a = some q ∧ b ≤ q := by
  cases a with
  | none => simp [fge] at h
  | some q => exact ⟨q, rfl, by simpa [fge] using h⟩

/-- The frequency computed at lines 158-168 is NaN exactly when no sample is counted, and is
otherwise the smaller allele count over twice the number of counted samples. -/
theorem alleleStats_maf (c0 c1 c2 : Nat) :
    (alleleStats c0 c1 c2).maf =
      if c0 + c1 + c2 = 0 then none
      else some (((min (2 * c0 + c1) (c1 + 2 * c2) : Nat) : ℚ) / ((2 * (c0 + c1 + c2) : Nat) : ℚ)) := by
  unfold alleleStats
  by_cases hn : c0 + c1 + c2 = 0
  · have h0 : c0 = 0 := by omega
    have h1 : c1 = 0 := by omega
    have h2 : c2 = 0 := by omega
    subst h0 h1 h2
    simp [fdiv]
  · have hq : ((2 * (c0 + c1 + c2) : Nat) : ℚ) ≠ 0 := by
      exact_mod_cast (by omega : 2 * (c0 + c1 + c2) ≠ 0)
    by_cases hr : 2 * c0 + c1 ≥ c1 + 2 * c2
    · simp only [hr, if_true, fdiv, hq, if_false, hn, Nat.min_eq_right hr]
    · have hr2 : 2 * c0 + c1 ≤ c1 + 2 * c2 := by omega
      simp only [hr, if_false, fdiv, hq, hn, Nat.min_eq_left hr2]

/-- The smaller allele count over twice the number of samples lies in `[0, 1/2]`. -/
theorem minor_frequency_bounds (c0 c1 c2 : Nat) :
    (0 : ℚ) ≤ ((min (2 * c0 + c1) (c1 + 2 * c2) : Nat) : ℚ) / ((2 * (c0 + c1 + c2) : Nat) : ℚ) ∧
    ((min (2 * c0 + c1) (c1 + 2 * c2) : Nat) : ℚ) / ((2 * (c0 + c1 + c2) : Nat) : ℚ) ≤ 1 / 2 := by
  constructor
  · positivity
  · by_cases hn : c0 + c1 + c2 = 0
    · simp [hn]
    · have hpos : (0 : ℚ) < ((2 * (c0 + c1 + c2) : Nat) : ℚ) := by
        exact_mod_cast (by omega : 0 < 2 * (c0 + c1 + c2))
      rw [div_le_iff₀ hpos]
      have : 2 * min (2 * c0 + c1) (c1 + 2 * c2) ≤ 2 * (c0 + c1 + c2) := by
        have := Nat.min_le_left (2 * c0 + c1) (c1 + 2 * c2)
        have := Nat.min_le_right (2 * c0 + c1) (c1 + 2 * c2)
        omega
      have hc : ((2 * min (2 * c0 + c1) (c1 + 2 * c2) : Nat) : ℚ) ≤ ((2 * (c0 + c1 + c2) : Nat) : ℚ) := by
        exact_mod_cast this
      push_cast at hc ⊢
      linarith

/-- The frequency stored for an included line is the exact minor-allele ratio of the class
counts of its dosage vector, and at least one sample is counted. -/
theorem included_maf_exact {E : Env} {cfg : Config} {mappingS : List Int} {med : ℚ}
    {str : List Str} {v : Variant}
    (h : lineResult E cfg mappingS med str = .ok (.included v)) :
    ∃ c0 c1 c2 : Nat,
      classCounts v.orig (0, 0, 0) = .ok (c0, c1, c2) ∧ 0 < c0 + c1 + c2 ∧
      v.maf = some (((min (2 * c0 + c1) (c1 + 2 * c2) : Nat) : ℚ)
                      / ((2 * (c0 + c1 + c2) : Nat) : ℚ)) := by
  obtain ⟨c, hstage, hpass, hvc⟩ := lineResult_included h
  obtain ⟨_, _, _, _, _, _, _, _, _, hcc, _⟩ := lineStage_reached hstage
  have hmaf : fge c.stats.maf cfg.maf_threshold = true := by
    simp only [passesThresholds, Bool.and_eq_true] at hpass
    exact hpass.1.1.1
  obtain ⟨q, hq, _⟩ := fge_eq_true hmaf
  have hform := alleleStats_maf c.c0 c.c1 c.c2
  have hn : ¬ (c.c0 + c.c1 + c.c2 = 0) := by
    intro h0
    rw [Candidate.stats, hform, if_pos h0] at hq
    cases hq
  rw [if_neg hn] at hform
  refine ⟨c.c0, c.c1, c.c2, ?_, by omega, ?_⟩
  · rw [hvc]; exact hcc
  · rw [hvc]; exact hform

/-- C1: every variant that `readGenotypesVCF` appends has a stored minor-allele frequency
that is the exact ratio `min(ref_alleles, alt_alleles) / (2 * (c0 + c1 + c2))` of the class
counts of its stored dosage vector, with at least one counted sample, and this ratio lies
between `0` and `0.5`. This holds of the variant of every included line (so also of those
appended before a later line ends the run), and of every variant a completed run appended. -/
theorem accepted_maf_bounds (E : Env) (cfg : Config) :
    (∀ (mappingS : List Int) (med : ℚ) (str : List Str) (v : Variant),
      lineResult E cfg mappingS med str = .ok (.included v) →
      ∃ (c0 c1 c2 : Nat) (q : ℚ),
        classCounts v.orig (0, 0, 0) = .ok (c0, c1, c2) ∧ 0 < c0 + c1 + c2 ∧
        q = ((min (2 * c0 + c1) (c1 + 2 * c2) : Nat) : ℚ) / ((2 * (c0 + c1 + c2) : Nat) : ℚ) ∧
        v.maf = some q ∧ 0 ≤ q ∧ q ≤ 1 / 2) ∧
    (∀ (fvcf : VcfFile) (o : Output) (r : Run),
      readGenotypesVCF E cfg fvcf o = .ok r →
      ∃ vs : List Variant,
        r.out.genotype_maf = o.genotype_maf ++ vs.map (fun v => v.maf) ∧
        r.out.genotype_orig = o.genotype_orig ++ vs.map (fun v => v.orig) ∧
        ∀ v ∈ vs, ∃ (c0 c1 c2 : Nat) (q : ℚ),
          classCounts v.orig (0, 0, 0) = .ok (c0, c1, c2) ∧ 0 < c0 + c1 + c2 ∧
          q = ((min (2 * c0 + c1) (c1 + 2 * c2) : Nat) : ℚ) / ((2 * (c0 + c1 + c2) : Nat) : ℚ) ∧
          v.maf = some q ∧ 0 ≤ q ∧ q ≤ 1 / 2) := by
  constructor
  · intro mappingS med str v h
    obtain ⟨c0, c1, c2, hcc, hpos, hmaf⟩ := included_maf_exact h
    exact ⟨c0, c1, c2, _, hcc, hpos, rfl, hmaf, (minor_frequency_bounds _ _ _).1,
      (minor_frequency_bounds _ _ _).2⟩
  · intro fvcf o r h
    obtain ⟨_, _, _, _, rs, hrs, hout, _, _⟩ := readGenotypesVCF_ok h
    refine ⟨acceptedVariants rs, by simp [hout, Output.pushAll], by simp [hout, Output.pushAll], ?_⟩
    intro v hv
    obtain ⟨buffer, _, _, hres⟩ := acceptedVariants_mem hrs hv
    obtain ⟨c0, c1, c2, hcc, hpos, hmaf⟩ := included_maf_exact hres
    exact ⟨c0, c1, c2, _, hcc, hpos, rfl, hmaf, (minor_frequency_bounds _ _ _).1,
      (minor_frequency_bounds _ _ _).2⟩

theorem accepted_maf_bounds_witness :
    readGenotypesVCF refEnv demoConfig gtFile emptyOutput = .ok gtRun ∧
    ∃ vs : List Variant,
      gtRun.out.genotype_maf = emptyOutput.genotype_maf ++ vs.map (fun v => v.maf) ∧
      gtRun.out.genotype_orig = emptyOutput.genotype_orig ++ vs.map (fun v => v.orig) ∧
      ∀ v ∈ vs, ∃ (c0 c1 c2 : Nat) (q : ℚ),
        classCounts v.orig (0, 0, 0) = .ok (c0, c1, c2) ∧ 0 < c0 + c1 + c2 ∧
        q = ((min (2 * c0 + c1) (c1 + 2 * c2) : Nat) : ℚ) / ((2 * (c0 + c1 + c2) : Nat) : ℚ) ∧
        v.maf = some q ∧ 0 ≤ q ∧ q ≤ 1 / 2 :=
  ⟨by decide!,
   (accepted_maf_bounds refEnv demoConfig).2 gtFile emptyOutput gtRun (by decide!)⟩

/-! ## Threshold filter -/

/-- With stratification disabled the two half-frequencies stay at `0.0`. -/
theorem stratify_disabled {cfg : Config} {med : ℚ} {vec : List ℚ} {lo up : Option ℚ}
    (hd : ¬ cfg.interaction_maf_threshold > 0) (h : stratify cfg med vec = .ok (lo, up)) :
    lo = some 0 ∧ up = some 0 := by
  unfold stratify at h
  rw [if_neg hd] at h
  simp only [Except.ok.injEq, Prod.mk.injEq] at h
  exact ⟨h.1.symm, h.2.symm⟩

/-- The unguarded test of lines 198-201 agrees with the guarded rule of the specification on
every line that reaches it. -/
theorem passesThresholds_eq_spec {E : Env} {cfg : Config} {mappingS : List Int} {med : ℚ}
    {str : List Str} {c : Candidate}
    (h : lineStage E cfg mappingS med str = .ok (.reached c)) :
    passesThresholds cfg c = specAccepts cfg c := by
  obtain ⟨_, _, _, _, _, _, _, _, _, _, hst⟩ := lineStage_reached h
  unfold passesThresholds specAccepts
  by_cases hd : cfg.interaction_maf_threshold > 0
  · simp only [hd, if_true, Bool.and_assoc]
  · obtain ⟨hlo, hup⟩ := stratify_disabled hd hst
    have hle : cfg.interaction_maf_threshold ≤ 0 := not_lt.mp hd
    simp [hd, hlo, hup, fge, hle]

/-- C2: a line that reaches the threshold filter is accepted if and only if the rule of
the specification holds (frequency and sample-count thresholds and, only when stratified
filtering is enabled, both half-frequency thresholds), and is counted as MAF-filtered
otherwise; the unguarded test of the code equals the guarded rule for every value of
`interaction_maf_threshold`; every accepted variant has `ma_samples >= ma_sample_threshold`
and `maf >= maf_threshold`. -/
theorem threshold_filter_refines (E : Env) (cfg : Config) (mappingS : List Int) (med : ℚ)
    (str : List Str) (c : Candidate)
    (h : lineStage E cfg mappingS med str = .ok (.reached c)) :
    (lineResult E cfg mappingS med str = .ok (.included (variantOf cfg c)) ↔
      specAccepts cfg c = true) ∧
    (lineResult E cfg mappingS med str = .ok .excludedMAF ↔ specAccepts cfg c = false) ∧
    passesThresholds cfg c = specAccepts cfg c ∧
    (∀ v, lineResult E cfg mappingS med str = .ok (.included v) →
      (v.ma_samples : Int) ≥ cfg.ma_sample_threshold ∧
      ∃ q, v.maf = some q ∧ q ≥ cfg.maf_threshold) := by
  have heq := passesThresholds_eq_spec h
  have hres : lineResult E cfg mappingS med str =
      .ok (if passesThresholds cfg c then .included (variantOf cfg c) else .excludedMAF) := by
    simp only [lineResult, h, filterStage]
  refine ⟨?_, ?_, heq, ?_⟩
  · rw [hres, ← heq]
    cases hp : passesThresholds cfg c <;> simp
  · rw [hres, ← heq]
    cases hp : passesThresholds cfg c <;> simp
  · intro v hv
    rw [hres] at hv
    cases hp : passesThresholds cfg c with
    | false => simp [hp] at hv
    | true =>
      simp only [hp, if_true, Except.ok.injEq, LineResult.included.injEq] at hv
      subst hv
      simp only [passesThresholds, Bool.and_eq_true, decide_eq_true_eq] at hp
      obtain ⟨q, hq, hle⟩ := fge_eq_true hp.1.1.1
      exact ⟨hp.1.1.2, q, hq, hle⟩

theorem threshold_filter_refines_witness :
    lineStage refEnv demoConfig [0, 1] 0 gtLine = .ok (.reached gtCandidate) ∧
    (lineResult refEnv demoConfig [0, 1] 0 gtLine = .ok (.included (variantOf demoConfig gtCandidate)) ↔
      specAccepts demoConfig gtCandidate = true) ∧
    (lineResult refEnv demoConfig [0, 1] 0 gtLine = .ok .excludedMAF ↔
      specAccepts demoConfig gtCandidate = false) ∧
    passesThresholds demoConfig gtCandidate = specAccepts demoConfig gtCandidate ∧
    (∀ v, lineResult refEnv demoConfig [0, 1] 0 gtLine = .ok (.included v) →
      (v.ma_samples : Int) ≥ demoConfig.ma_sample_threshold ∧
      ∃ q, v.maf = some q ∧ q ≥ demoConfig.maf_threshold) :=
  ⟨by decide!,
   threshold_filter_refines refEnv demoConfig [0, 1] 0 gtLine gtCandidate (by decide!)⟩

/-! ## Class counts -/

/-- The loop of lines 137-150 ends in the fatal error exactly when some entry cannot be
classified, and otherwise adds to each counter the number of non-missing entries that round
to its class. -/
theorem classCounts_eq (xs : List ℚ) :
    ∀ c0 c1 c2 : Nat, classCounts xs (c0, c1, c2) =
      if ∀ x ∈ xs, validDosage x then
        .ok (c0 + classSize 0 xs, c1 + classSize 1 xs, c2 + classSize 2 xs)
      else .error (.fatal .badDosage) := by
  induction xs with
  | nil => intro c0 c1 c2; simp [classCounts, classSize]
  | cons x xs ih =>
    intro c0 c1 c2
    by_cases hx : x = -1
    · subst hx
      have hv : validDosage (-1) := Or.inl rfl
      simp only [classCounts, ne_eq, not_true_eq_false, if_false, ih, List.forall_mem_cons, hv,
        true_and, classSize, List.countP_cons, decide_False, Bool.false_and, Bool.false_eq_true,
        Nat.add_zero]
    · by_cases h0 : round x = 0
      · have hv : validDosage x := Or.inr (Or.inl h0)
        simp [classCounts, hx, h0, ih, hv, classSize, List.countP_cons]
        split <;> simp
        all_goals omega
      · by_cases h1 : round x = 1
        · have hv : validDosage x := Or.inr (Or.inr (Or.inl h1))
          simp [classCounts, hx, h1, ih, hv, classSize, List.countP_cons]
          split <;> simp
          all_goals omega
        · by_cases h2 : round x = 2
          · have hv : validDosage x := Or.inr (Or.inr (Or.inr h2))
            simp [classCounts, hx, h2, ih, hv, classSize, List.countP_cons]
            split <;> simp
            all_goals omega
          · have hv : ¬ validDosage x := by
              intro h
              rcases h with h | h | h | h
              · exact hx h
              · exact h0 h
              · exact h1 h
              · exact h2 h
            simp [classCounts, hx, h0, h1, h2, hv]

/-- A value rounds to `0`, `1` or `2` exactly when it lies strictly between `-0.5` and `2.5`. -/
theorem round_class_iff (x : ℚ) :
    (round x = 0 ∨ round x = 1 ∨ round x = 2) ↔ (-1 / 2 < x ∧ x < 5 / 2) := by
  unfold round
  by_cases hx : 0 ≤ x
  · simp only [hx, if_true]
    constructor
    · intro h
      refine ⟨by linarith, ?_⟩
      have hlt : ⌊x + 1 / 2⌋ < 3 := by rcases h with h | h | h <;> omega
      have := Int.floor_lt.mp hlt
      push_cast at this
      linarith
    · intro h
      have h1 : ⌊x + 1 / 2⌋ < 3 := by
        apply Int.floor_lt.mpr
        push_cast
        linarith [h.2]
      have h2 : 0 ≤ ⌊x + 1 / 2⌋ := by
        apply Int.floor_nonneg.mpr
        linarith
      omega
  · simp only [hx, if_false]
    have hneg : x < 0 := not_le.mp hx
    have h2 : 0 ≤ ⌊-x + 1 / 2⌋ := by
      apply Int.floor_nonneg.mpr
      linarith
    constructor
    · intro h
      have h0 : ⌊-x + 1 / 2⌋ < 1 := by rcases h with h | h | h <;> omega
      have := Int.floor_lt.mp h0
      push_cast at this
      exact ⟨by linarith, by linarith⟩
    · intro h
      have h1 : ⌊-x + 1 / 2⌋ < 1 := by
        apply Int.floor_lt.mpr
        push_cast
        linarith [h.1]
      omega

/-! ## Per-sample extractor -/

/-- A genotype-encoded sample is missing or one of the integers `0`, `1`, `2`. -/
theorem gtValue_range {g : Str} {v : ℚ} (h : gtValue g = .ok v) :
    v = -1 ∨ v = 0 ∨ v = 1 ∨ v = 2 := by
  unfold gtValue at h
  cases h0 : charAt g 0 with
  | error e => rw [h0] at h; simp at h
  | ok x0 =>
    simp only [h0] at h
    by_cases hd0 : x0 = '.'
    · simp only [hd0, if_true, Except.ok.injEq] at h
      exact Or.inl h.symm
    · simp only [hd0, if_false] at h
      cases h2 : charAt g 2 with
      | error e => rw [h2] at h; simp at h
      | ok x2 =>
        simp only [h2] at h
        by_cases hd2 : x2 = '.'
        · simp only [hd2, if_true, Except.ok.injEq] at h
          exact Or.inl h.symm
        · simp only [hd2, if_false] at h
          by_cases hr : atoi (substr g 0 1) + atoi (substr g 2 1) < 0 ∨
              atoi (substr g 0 1) + atoi (substr g 2 1) > 2
          · rw [if_pos hr] at h; simp at h
          · rw [if_neg hr] at h
            simp only [Except.ok.injEq] at h
            have hcases : atoi (substr g 0 1) + atoi (substr g 2 1) = 0 ∨
                atoi (substr g 0 1) + atoi (substr g 2 1) = 1 ∨
                atoi (substr g 0 1) + atoi (substr g 2 1) = 2 := by omega
            rcases hcases with hc | hc | hc
            · right; left; rw [← h, hc]; norm_num
            · right; right; left; rw [← h, hc]; norm_num
            · right; right; right; rw [← h, hc]; norm_num

/-- What the extractor writes for a sample of a genotype-encoded line. -/
theorem sampleValue_gt_range {E : Env} {idx_field : Int} {col : Str} {v : ℚ}
    (h : sampleValue E true idx_field col = .ok v) : v = -1 ∨ v = 0 ∨ v = 1 ∨ v = 2 := by
  unfold sampleValue at h
  by_cases hm : col = ".".toList ∨ col = "NN".toList ∨ col = "NA".toList
  · rw [if_pos hm] at h
    simp only [Except.ok.injEq] at h
    exact Or.inl h.symm
  · rw [if_neg hm] at h
    cases hg : (E.tokenize col ":".toList).get? idx_field.toNat with
    | none => rw [hg] at h; simp at h
    | some g =>
      rw [hg] at h
      simp only [Bool.not_true, Bool.false_eq_true, if_false] at h
      exact gtValue_range h

/-- The loop of the extractor keeps every property that holds of the initial entries and
of the values written. -/
theorem extractFrom_forall {E : Env} {mappingS : List Int} {gt_field : Bool} {idx_field : Int}
    (P : ℚ → Prop)
    (hP : ∀ col v, sampleValue E gt_field idx_field col = .ok v → P v) :
    ∀ (cols : List Str) (k : Nat) (vec res : List ℚ),
      extractFrom E mappingS gt_field idx_field cols k vec = .ok res →
      (∀ x ∈ vec, P x) → ∀ x ∈ res, P x := by
  intro cols
  induction cols with
  | nil =>
    intro k vec res h hv
    simp only [extractFrom, Except.ok.injEq] at h
    subst h
    exact hv
  | cons col rest ih =>
    intro k vec res h hv
    unfold extractFrom at h
    cases hm : mappingS.get? k with
    | none => rw [hm] at h; simp at h
    | some m =>
      simp only [hm] at h
      by_cases hge : m ≥ 0
      · rw [if_pos hge] at h
        cases hs : sampleValue E gt_field idx_field col with
        | error e => rw [hs] at h; simp at h
        | ok v =>
          simp only [hs] at h
          by_cases hlt : m.toNat < vec.length
          · rw [if_pos hlt] at h
            apply ih _ _ _ h
            intro x hx
            rcases List.mem_or_eq_of_mem_set hx with hx | hx
            · exact hv x hx
            · rw [hx]; exact hP col v hs
          · rw [if_neg hlt] at h; simp at h
      · rw [if_neg hge] at h
        exact ih _ _ _ h hv

/-- C3 (as amended): on a genotype-encoded line every entry of the dosage vector built by the
extractor is exactly `-1` or one of `0`, `1`, `2`; the value of a dosage-encoded sample is
stored without a range check, and every entry of every original dosage vector stored by a
completed run is exactly `-1` or lies strictly between `-0.5` and `2.5` (it rounds to class
`0`, `1` or `2`). -/
theorem dosage_range_amended (E : Env) (cfg : Config) (mappingS : List Int) (idx_field : Int)
    (str : List Str) (vec : List ℚ) (fvcf : VcfFile) (o : Output) (r : Run)
    (hgt : extract E cfg mappingS true idx_field str = .ok vec)
    (hrun : readGenotypesVCF E cfg fvcf o = .ok r) :
    (∀ x ∈ vec, x = -1 ∨ x = 0 ∨ x = 1 ∨ x = 2) ∧
    ∃ vs : List (List ℚ), r.out.genotype_orig = o.genotype_orig ++ vs ∧
      ∀ v ∈ vs, ∀ x ∈ v, x = -1 ∨ (-1 / 2 < x ∧ x < 5 / 2) := by
  constructor
  · apply extractFrom_forall (fun x => x = -1 ∨ x = 0 ∨ x = 1 ∨ x = 2)
      (fun col v hv => sampleValue_gt_range hv) _ _ _ _ hgt
    intro x hx
    rw [List.eq_of_mem_replicate hx]
    exact Or.inr (Or.inl rfl)
  · obtain ⟨_, _, _, _, rs, hrs, hout, _, _⟩ := readGenotypesVCF_ok hrun
    refine ⟨(acceptedVariants rs).map (fun v => v.orig), by simp [hout, Output.pushAll], ?_⟩
    intro vec2 hvec2 x hx
    obtain ⟨v, hv, rfl⟩ := List.mem_map.mp hvec2
    obtain ⟨buffer, _, _, hres⟩ := acceptedVariants_mem hrs hv
    obtain ⟨c, hstage, _, hvc⟩ := lineResult_included hres
    obtain ⟨_, _, _, _, _, _, _, _, _, hcc, _⟩ := lineStage_reached hstage
    rw [classCounts_eq] at hcc
    by_cases hall : ∀ x ∈ c.genotype_vec, validDosage x
    · have hxv : validDosage x := hall x (by rw [hvc] at hx; exact hx)
      rcases hxv with h | h
      · exact Or.inl h
      · exact Or.inr ((round_class_iff x).mp h)
    · rw [if_neg hall] at hcc; simp at hcc

theorem dosage_range_amended_witness :
    extract refEnv demoConfig [0, 1] true 0 gtLine = .ok [1, 2] ∧
    readGenotypesVCF refEnv demoConfig gtFile emptyOutput = .ok gtRun ∧
    (∀ x ∈ [(1 : ℚ), 2], x = -1 ∨ x = 0 ∨ x = 1 ∨ x = 2) ∧
    ∃ vs : List (List ℚ), gtRun.out.genotype_orig = emptyOutput.genotype_orig ++ vs ∧
      ∀ v ∈ vs, ∀ x ∈ v, x = -1 ∨ (-1 / 2 < x ∧ x < 5 / 2) :=
  ⟨by decide!, by decide!,
   dosage_range_amended refEnv demoConfig [0, 1] 0 gtLine [1, 2] gtFile emptyOutput gtRun
     (by decide!) (by decide!)⟩

/-- C3, counterexample: the line of `dsFile` has FORMAT `GT:DS` and the dosages `1.7` and
`2.4`; the extractor builds the vector `[1.7, 2.4]`, the run accepts the line and stores
the vector, and its entry `2.4` is neither `-1` nor within `[0, 2]`. -/
theorem dosage_range_counterexample :
    extract refEnv demoConfig [0, 1] false 1 dsLine = .ok ([17 / 10, 12 / 5] : List ℚ) ∧
    readGenotypesVCF refEnv demoConfig dsFile emptyOutput = .ok dsRun ∧
    ([17 / 10, 12 / 5] : List ℚ) ∈ dsRun.out.genotype_orig ∧
    ¬ (∀ x ∈ [(17 / 10 : ℚ), 12 / 5], x = -1 ∨ (0 ≤ x ∧ x ≤ 2)) := by
  refine ⟨?_, ?_, ?_, ?_⟩
  · decide!
  · decide!
  · decide!
  intro h
  have := h (12 / 5) (by simp)
  norm_num at this

/-! ## Median of the covariate -/

/-- The sorted copy made at lines 62-63 is the ascending arrangement of the vector. -/
theorem insertionSort_eq_of_sorted {v sorted : List ℚ} (hperm : sorted.Perm v)
    (hsorted : sorted.Sorted (· ≤ ·)) : v.insertionSort (· ≤ ·) = sorted :=
  List.eq_of_perm_of_sorted ((List.perm_insertionSort (· ≤ ·) v).trans hperm.symm)
    (List.sorted_insertionSort (· ≤ ·) v) hsorted

/-- C4: for a non-empty covariate vector `v` of length `s` and its ascending arrangement
`sorted`, the median is `sorted[s/2]` when `s` is odd and the average of `sorted[s/2 - 1]` and
`sorted[s/2]` when `s` is even; it is the value of `median_interaction` when stratification
is enabled; it is the same for every reordering of `v` (the function reads `v` and returns
a number, `v` is not written); `[1,2,3,4]` gives `2.5` and `[1,2,3]` gives `2`. -/
theorem median_spec (v sorted : List ℚ) (hne : v ≠ []) (hperm : sorted.Perm v)
    (hsorted : sorted.Sorted (· ≤ ·)) :
    (v.length % 2 = 1 →
      ∃ a, sorted.get? (v.length / 2) = some a ∧ median v = .ok a) ∧
    (v.length % 2 = 0 →
      ∃ a b, sorted.get? (v.length / 2 - 1) = some a ∧ sorted.get? (v.length / 2) = some b ∧
        median v = .ok ((a + b) / 2)) ∧
    (∀ cfg : Config, cfg.interaction_maf_threshold > 0 → cfg.interaction_val = v →
      medianInteraction cfg = median v) ∧
    (∀ w : List ℚ, w.Perm v → median w = median v) ∧
    median [1, 2, 3, 4] = .ok (5 / 2) ∧ median [1, 2, 3] = .ok 2 := by
  have hsort := insertionSort_eq_of_sorted hperm hsorted
  have hlen : sorted.length = v.length := hperm.length_eq
  have hpos : 0 < v.length := List.length_pos.mpr hne
  have hmid : v.length / 2 < sorted.length := by omega
  refine ⟨?_, ?_, ?_, ?_, by decide!, by decide!⟩
  · intro hodd
    obtain ⟨a, ha⟩ : ∃ a, sorted.get? (v.length / 2) = some a :=
      ⟨_, List.get?_eq_get hmid⟩
    refine ⟨a, ha, ?_⟩
    unfold median
    simp only [hsort, ha]
    rw [if_neg (by omega)]
  · intro heven
    have hlow : v.length / 2 - 1 < sorted.length := by omega
    obtain ⟨a, ha⟩ : ∃ a, sorted.get? (v.length / 2 - 1) = some a :=
      ⟨_, List.get?_eq_get hlow⟩
    obtain ⟨b, hb⟩ : ∃ b, sorted.get? (v.length / 2) = some b :=
      ⟨_, List.get?_eq_get hmid⟩
    refine ⟨a, b, ha, hb, ?_⟩
    unfold median
    simp only [hsort, ha, hb]
    rw [if_pos heven, add_comm]
  · intro cfg hthr hv
    unfold medianInteraction
    rw [if_pos hthr, hv]
  · intro w hw
    have hw2 : w.insertionSort (· ≤ ·) = sorted :=
      insertionSort_eq_of_sorted (hperm.trans hw.symm) hsorted
    unfold median
    simp only [hw2, hsort, hw.length_eq]

theorem median_spec_witness :
    ([3, 1, 2] : List ℚ) ≠ [] ∧ ([1, 2, 3] : List ℚ).Perm [3, 1, 2] ∧
    ([1, 2, 3] : List ℚ).Sorted (· ≤ ·) ∧
    (([3, 1, 2] : List ℚ).length % 2 = 1 →
      ∃ a, ([1, 2, 3] : List ℚ).get? (([3, 1, 2] : List ℚ).length / 2) = some a ∧
        median [3, 1, 2] = .ok a) ∧
    (([3, 1, 2] : List ℚ).length % 2 = 0 →
      ∃ a b, ([1, 2, 3] : List ℚ).get? (([3, 1, 2] : List ℚ).length / 2 - 1) = some a ∧
        ([1, 2, 3] : List ℚ).get? (([3, 1, 2] : List ℚ).length / 2) = some b ∧
        median [3, 1, 2] = .ok ((a + b) / 2)) ∧
    (∀ cfg : Config, cfg.interaction_maf_threshold > 0 → cfg.interaction_val = [3, 1, 2] →
      medianInteraction cfg = median [3, 1, 2]) ∧
    (∀ w : List ℚ, w.Perm [3, 1, 2] → median w = median [3, 1, 2]) ∧
    median [1, 2, 3, 4] = .ok (5 / 2) ∧ median [1, 2, 3] = .ok 2 :=
  have hp : ([1, 2, 3] : List ℚ).Perm [3, 1, 2] := by decide!
  have hs : ([1, 2, 3] : List ℚ).Sorted (· ≤ ·) := by decide!
  ⟨by simp, hp, hs, median_spec [3, 1, 2] [1, 2, 3] (by simp) hp hs⟩

/-! ## Dependence on `maf_threshold` -/

/-- The results of a stream are the filtered stages of its lines. -/
theorem resultsOf_iff_stages (E : Env) (cfg : Config) (mappingS : List Int) (med : ℚ)
    (lines : List Str) (rs : List LineResult) :
    ResultsOf E cfg mappingS med lines rs ↔
      ∃ sts, StagesOf E cfg mappingS med lines sts ∧ rs = sts.map (filterStage cfg) := by
  unfold ResultsOf StagesOf
  generalize nonEmpty lines = ls
  constructor
  · intro h
    induction h with
    | nil => exact ⟨[], List.Forall₂.nil, rfl⟩
    | cons hr _ ih =>
      obtain ⟨sts, hsts, hmap⟩ := ih
      unfold lineResult at hr
      split at hr
      · simp at hr
      · rename_i st hst
        simp only [Except.ok.injEq] at hr
        exact ⟨st :: sts, List.Forall₂.cons hst hsts, by simp [hr, hmap]⟩
  · rintro ⟨sts, hsts, rfl⟩
    induction hsts with
    | nil => exact List.Forall₂.nil
    | cons hst _ ih =>
      refine List.Forall₂.cons ?_ ih
      simp only [lineResult, hst]

/-- No step before the threshold filter reads `maf_threshold`. -/
theorem lineStage_maf_threshold (E : Env) (cfg : Config) (t : ℚ) (mappingS : List Int) (med : ℚ)
    (str : List Str) :
    lineStage E { cfg with maf_threshold := t } mappingS med str
      = lineStage E cfg mappingS med str := rfl

/-- Raising `maf_threshold` can only turn an accepted line into a rejected one. -/
theorem passesThresholds_mono (cfg : Config) {t1 t2 : ℚ} (hle : t1 ≤ t2) (c : Candidate)
    (h : passesThresholds { cfg with maf_threshold := t2 } c = true) :
    passesThresholds { cfg with maf_threshold := t1 } c = true := by
  simp only [passesThresholds, Bool.and_eq_true] at h ⊢
  obtain ⟨⟨⟨hm, hs⟩, hl⟩, hu⟩ := h
  refine ⟨⟨⟨?_, hs⟩, hl⟩, hu⟩
  obtain ⟨q, hq, hq2⟩ := fge_eq_true hm
  rw [hq]
  simp only [fge, decide_eq_true_eq]
  exact le_trans hle hq2

theorem acceptedVariants_sublist (cfg : Config) {t1 t2 : ℚ} (hle : t1 ≤ t2) (sts : List Stage) :
    (acceptedVariants (sts.map (filterStage { cfg with maf_threshold := t2 }))).Sublist
      (acceptedVariants (sts.map (filterStage { cfg with maf_threshold := t1 }))) := by
  induction sts with
  | nil => exact List.Sublist.slnil
  | cons st sts ih =>
    cases st with
    | excludedG => simpa [filterStage, acceptedVariants] using ih
    | excludedF => simpa [filterStage, acceptedVariants] using ih
    | excludedMAFglobal => simpa [filterStage, acceptedVariants] using ih
    | reached c =>
      simp only [List.map_cons, filterStage]
      cases h2 : passesThresholds { cfg with maf_threshold := t2 } c with
      | true =>
        have h1 := passesThresholds_mono cfg hle c h2
        simp only [h1, if_true, acceptedVariants]
        exact List.Sublist.cons₂ _ ih
      | false =>
        cases h1 : passesThresholds { cfg with maf_threshold := t1 } c with
        | true =>
          simp only [if_true, Bool.false_eq_true, if_false, acceptedVariants]
          exact List.Sublist.cons _ ih
        | false =>
          simp only [Bool.false_eq_true, if_false, acceptedVariants]
          exact ih

/-- A run whose start-up checks pass and whose lines all have a result completes as soon
as one line is included. -/
theorem readGenotypesVCF_of_results {E : Env} {cfg : Config} {fvcf : VcfFile} {o : Output}
    {mappingS : List Int} {samples : SampleTally} {med : ℚ} {rs : List LineResult}
    (hi : fvcf.has_index = true) (hr : fvcf.region_ok = true)
    (hs : readSamples E cfg fvcf.header = .ok (mappingS, samples))
    (hm : medianInteraction cfg = .ok med)
    (hrs : ResultsOf E cfg mappingS med fvcf.lines rs)
    (hpos : 0 < (acceptedVariants rs).length) :
    readGenotypesVCF E cfg fvcf o =
      .ok { out := { o.pushAll (acceptedVariants rs) with
                     genotype_count := ((acceptedVariants rs).length : Int) }
            tally := rs.foldl applyTally ⟨0, 0, 0, 0, 0, 0⟩
            mappingS := mappingS
            samples := samples
            median_interaction := med } := by
  have hl := readLines_of_results E cfg mappingS med fvcf.lines rs o ⟨0, 0, 0, 0, 0, 0⟩ hrs
  have hn := foldl_applyTally_included rs ⟨0, 0, 0, 0, 0, 0⟩
  simp only [Nat.zero_add] at hn
  have hz : ¬ (acceptedVariants rs).length ≤ 0 := by omega
  unfold readGenotypesVCF
  simp only [hi, hr, hs, hm, hl, Bool.not_true, Bool.false_eq_true, if_false, hz,
    foldl_applyOutput, hn]

/-- The Sample Reconciler does not read `maf_threshold`. -/
theorem readSamples_maf_threshold (E : Env) (cfg : Config) (t : ℚ) (header : Str) :
    readSamples E { cfg with maf_threshold := t } header = readSamples E cfg header := by
  have key : ∀ (l : List Str) (m : List Int) (c : SampleTally),
      mapSamples E { cfg with maf_threshold := t } l m c = mapSamples E cfg l m c := by
    intro l
    induction l with
    | nil => intro m c; rfl
    | cons label rest ih =>
      intro m c
      have hf : findSample { cfg with maf_threshold := t } label = findSample cfg label := rfl
      simp only [mapSamples, hf, ih]
  simp only [readSamples, key]

/-- C5: for a fixed environment, cohort, covariate vector, file and fixed other thresholds,
and `t1 <= t2`: whenever the loop over the lines completes with `maf_threshold = t1` it
completes with `maf_threshold = t2`, and the variants appended with `t2` are a subsequence
of those appended with `t1`, so the accepted count does not increase; and a run that
completes with `t2` also completes with `t1`, with the same relation between the outputs. -/
theorem maf_threshold_monotone (E : Env) (cfg : Config) (fvcf : VcfFile) (o : Output)
    (t1 t2 : ℚ) (hle : t1 ≤ t2) :
    (∀ (mappingS : List Int) (med : ℚ) (t : Tally) (o1 : Output) (tl1 : Tally),
      readLines E { cfg with maf_threshold := t1 } mappingS med fvcf.lines o t = .ok (o1, tl1) →
      ∃ (vs1 vs2 : List Variant) (tl2 : Tally),
        readLines E { cfg with maf_threshold := t2 } mappingS med fvcf.lines o t
          = .ok (o.pushAll vs2, tl2) ∧
        o1 = o.pushAll vs1 ∧ vs2.Sublist vs1 ∧
        tl1.n_includedG = t.n_includedG + vs1.length ∧
        tl2.n_includedG = t.n_includedG + vs2.length ∧
        tl2.n_includedG ≤ tl1.n_includedG) ∧
    (∀ r2 : Run, readGenotypesVCF E { cfg with maf_threshold := t2 } fvcf o = .ok r2 →
      ∃ (r1 : Run) (vs1 vs2 : List Variant),
        readGenotypesVCF E { cfg with maf_threshold := t1 } fvcf o = .ok r1 ∧
        r1.out = { o.pushAll vs1 with genotype_count := (vs1.length : Int) } ∧
        r2.out = { o.pushAll vs2 with genotype_count := (vs2.length : Int) } ∧
        vs2.Sublist vs1 ∧ r2.out.genotype_count ≤ r1.out.genotype_count) := by
  constructor
  · intro mappingS med t o1 tl1 h1
    obtain ⟨rs1, hrs1, ho1, ht1⟩ := readLines_results _ _ _ _ _ _ _ _ _ h1
    obtain ⟨sts, hsts, hmap⟩ := (resultsOf_iff_stages _ _ _ _ _ _).mp hrs1
    have hsts2 : StagesOf E { cfg with maf_threshold := t2 } mappingS med fvcf.lines sts := hsts
    have hrs2 := (resultsOf_iff_stages E { cfg with maf_threshold := t2 } mappingS med
      fvcf.lines _).mpr ⟨sts, hsts2, rfl⟩
    have hl2 := readLines_of_results _ _ _ _ _ _ o t hrs2
    have hsub := acceptedVariants_sublist cfg hle sts
    refine ⟨acceptedVariants rs1,
      acceptedVariants (sts.map (filterStage { cfg with maf_threshold := t2 })),
      (sts.map (filterStage { cfg with maf_threshold := t2 })).foldl applyTally t,
      ?_, ?_, ?_, ?_, ?_, ?_⟩
    · rw [hl2, foldl_applyOutput]
    · rw [ho1, foldl_applyOutput]
    · rw [hmap]; exact hsub
    · rw [ht1, foldl_applyTally_included]
    · rw [foldl_applyTally_included]
    · rw [ht1, foldl_applyTally_included, foldl_applyTally_included, hmap]
      have := hsub.length_le
      omega
  · intro r2 h2
    obtain ⟨hi, hr, hs, hm, rs2, hrs2, hout2, _, hpos2⟩ := readGenotypesVCF_ok h2
    obtain ⟨sts, hsts, hmap⟩ := (resultsOf_iff_stages _ _ _ _ _ _).mp hrs2
    have hsts1 : StagesOf E { cfg with maf_threshold := t1 } r2.mappingS r2.median_interaction
      fvcf.lines sts := hsts
    have hrs1 := (resultsOf_iff_stages E { cfg with maf_threshold := t1 } r2.mappingS
      r2.median_interaction fvcf.lines _).mpr ⟨sts, hsts1, rfl⟩
    have hsub := acceptedVariants_sublist cfg hle sts
    rw [← hmap] at hsub
    have hpos1 : 0 < (acceptedVariants
        (sts.map (filterStage { cfg with maf_threshold := t1 }))).length :=
      lt_of_lt_of_le hpos2 hsub.length_le
    have hs1 : readSamples E { cfg with maf_threshold := t1 } fvcf.header
        = .ok (r2.mappingS, r2.samples) := by
      rw [readSamples_maf_threshold] at hs ⊢
      exact hs
    have hm1 : medianInteraction { cfg with maf_threshold := t1 }
        = .ok r2.median_interaction := hm
    have h1 := readGenotypesVCF_of_results (o := o) hi hr hs1 hm1 hrs1 hpos1
    refine ⟨_, _, acceptedVariants rs2, h1, rfl, hout2, hsub, ?_⟩
    rw [hout2]
    simp only
    exact_mod_cast hsub.length_le

theorem maf_threshold_monotone_witness :
    (0 : ℚ) ≤ 3 / 10 ∧
    ((readGenotypesVCF refEnv { demoConfig with maf_threshold := 0 } twoLineFile
        emptyOutput).toOption.map (fun r => r.out.genotype_id))
      = some ["rs1".toList, "rs2".toList] ∧
    ((readGenotypesVCF refEnv { demoConfig with maf_threshold := 3 / 10 } twoLineFile
        emptyOutput).toOption.map (fun r => r.out.genotype_id))
      = some ["rs2".toList] ∧
    (∀ r2 : Run,
      readGenotypesVCF refEnv { demoConfig with maf_threshold := 3 / 10 } twoLineFile emptyOutput
        = .ok r2 →
      ∃ (r1 : Run) (vs1 vs2 : List Variant),
        readGenotypesVCF refEnv { demoConfig with maf_threshold := 0 } twoLineFile emptyOutput
          = .ok r1 ∧
        r1.out = { emptyOutput.pushAll vs1 with genotype_count := (vs1.length : Int) } ∧
        r2.out = { emptyOutput.pushAll vs2 with genotype_count := (vs2.length : Int) } ∧
        vs2.Sublist vs1 ∧ r2.out.genotype_count ≤ r1.out.genotype_count) := by
  refine ⟨by norm_num, ?_, ?_, ?_⟩
  · decide!
  · decide!
  · exact (maf_threshold_monotone refEnv demoConfig twoLineFile emptyOutput 0 (3 / 10)
      (by norm_num)).2

/-! ## Sample Reconciler -/

/-- The search of line 48, started at `i` with the rest of `sample_id` still to visit,
finds the first later position of the label. -/
theorem findSampleFrom_eq (sample_id : List Str) (label : Str) :
    ∀ (n i : Nat), i + n = sample_id.length →
      findSampleFrom sample_id label n i =
        .ok (if label ∈ sample_id.drop i
              then ((i + (sample_id.drop i).findIdx (fun s => decide (s = label)) : Nat) : Int) else -1) := by
  intro n
  induction n with
  | zero =>
    intro i hi
    have : sample_id.drop i = [] := List.drop_eq_nil_of_le (by omega)
    simp [findSampleFrom, this]
  | succ n ih =>
    intro i hi
    have hlt : i < sample_id.length := by omega
    have hdrop : sample_id.drop i = sample_id[i] :: sample_id.drop (i + 1) :=
      List.drop_eq_getElem_cons hlt
    have hget : sample_id.get? i = some (sample_id[i]) := by
      rw [List.get?_eq_getElem?, List.getElem?_eq_getElem hlt]
    unfold findSampleFrom
    simp only [hget]
    by_cases heq : sample_id[i] = label
    · rw [if_pos heq, hdrop]
      have hmem : label ∈ sample_id[i] :: sample_id.drop (i + 1) := by
        rw [heq]; exact List.mem_cons_self _ _
      rw [if_pos hmem, List.findIdx_cons]
      simp [heq]
    · rw [if_neg heq, ih (i + 1) (by omega), hdrop]
      have hmem : label ∈ sample_id[i] :: sample_id.drop (i + 1) ↔
          label ∈ sample_id.drop (i + 1) := by
        simp only [List.mem_cons]
        constructor
        · rintro (h | h)
          · exact absurd h.symm heq
          · exact h
        · exact Or.inr
      by_cases hm : label ∈ sample_id.drop (i + 1)
      · rw [if_pos hm, if_pos (hmem.mpr hm), List.findIdx_cons]
        simp only [heq, decide_False, cond_false]
        congr 2
        omega
      · rw [if_neg hm, if_neg (fun h => hm (hmem.mp h))]

/-- Lines 47-48 on a cohort whose `sample_id` has `sample_count` entries. -/
theorem findSample_eq (cfg : Config) (hcohort : cfg.sample_id.length = cfg.sample_count)
    (label : Str) :
    findSample cfg label =
      .ok (if label ∈ cfg.sample_id then ((cfg.sample_id.findIdx (fun s => decide (s = label)) : Nat) : Int) else -1) := by
  unfold findSample
  rw [findSampleFrom_eq cfg.sample_id label cfg.sample_count 0 (by omega)]
  simp

/-- The loop of lines 45-56 appends the specified entry of every label and counts the
resolved ones. -/
theorem mapSamples_eq (E : Env) (cfg : Config) (hcohort : cfg.sample_id.length = cfg.sample_count) :
    ∀ (labels : List Str) (m : List Int) (c : SampleTally),
      ∃ c1, mapSamples E cfg labels m c = .ok (m ++ labels.map (specEntry E cfg), c1) ∧
        c1.n_includedS = c.n_includedS + resolvedCount (labels.map (specEntry E cfg)) := by
  intro labels
  induction labels with
  | nil => intro m c; exact ⟨c, by simp [mapSamples], by simp [resolvedCount]⟩
  | cons label rest ih =>
    intro m c
    unfold mapSamples
    by_cases hc : E.checkSample label = true
    · rw [if_pos hc, findSample_eq cfg hcohort]
      by_cases hm : label ∈ cfg.sample_id
      · have he : specEntry E cfg label = ((cfg.sample_id.findIdx (fun s => decide (s = label)) : Nat) : Int) := by
          simp [specEntry, hc, hm]
        have hge : ((cfg.sample_id.findIdx (fun s => decide (s = label)) : Nat) : Int) ≥ 0 := Int.ofNat_nonneg _
        simp only [if_pos hm, if_pos hge]
        obtain ⟨c1, h1, h2⟩ := ih (m ++ [((cfg.sample_id.findIdx (fun s => decide (s = label)) : Nat) : Int)])
          { c with n_includedS := c.n_includedS + 1 }
        refine ⟨c1, ?_, ?_⟩
        · rw [h1]; simp [he]
        · rw [h2]
          simp only [resolvedCount, List.map_cons, List.countP_cons, he, hge, decide_True,
            if_true]
          omega
      · have he : specEntry E cfg label = -1 := by simp [specEntry, hm]
        simp only [if_neg hm]
        rw [if_neg (by decide)]
        obtain ⟨c1, h1, h2⟩ := ih (m ++ [-1]) { c with n_missingS := c.n_missingS + 1 }
        refine ⟨c1, ?_, ?_⟩
        · rw [h1]; simp [he]
        · rw [h2]
          simp [resolvedCount, List.countP_cons, he]
    · rw [if_neg hc]
      have he : specEntry E cfg label = -1 := by simp [specEntry, hc]
      obtain ⟨c1, h1, h2⟩ := ih (m ++ [-1]) { c with n_excludedS := c.n_excludedS + 1 }
      refine ⟨c1, ?_, ?_⟩
      · rw [h1]; simp [he]
      · rw [h2]
        simp [resolvedCount, List.countP_cons, he]

/-- The specified entry is resolved exactly for a cohort member present in `sample_id`; it
is then the first slot holding the label, and `-1` otherwise. -/
theorem specEntry_spec (E : Env) (cfg : Config) (label : Str) :
    (specEntry E cfg label ≥ 0 ↔ (E.checkSample label = true ∧ label ∈ cfg.sample_id)) ∧
    (specEntry E cfg label ≥ 0 →
      ∃ i : Nat, specEntry E cfg label = (i : Int) ∧ i < cfg.sample_id.length ∧
        cfg.sample_id.get? i = some label ∧ ∀ j, j < i → cfg.sample_id.get? j ≠ some label) ∧
    (¬ specEntry E cfg label ≥ 0 → specEntry E cfg label = -1) := by
  by_cases hc : E.checkSample label = true ∧ label ∈ cfg.sample_id
  · have he : specEntry E cfg label
        = ((cfg.sample_id.findIdx (fun s => decide (s = label)) : Nat) : Int) := by
      rw [specEntry, if_pos hc]
    have hex : ∃ x ∈ cfg.sample_id, (fun s => decide (s = label)) x = true :=
      ⟨label, hc.2, by simp⟩
    have hlt := List.findIdx_lt_length_of_exists hex
    refine ⟨?_, ?_, ?_⟩
    · rw [he]; exact ⟨fun _ => hc, fun _ => Int.ofNat_nonneg _⟩
    · intro _
      refine ⟨_, he, hlt, ?_, ?_⟩
      · have hp := List.findIdx_getElem (w := hlt)
        rw [List.get?_eq_getElem?, List.getElem?_eq_getElem hlt]
        simpa using hp
      · intro j hj hget
        have hjl : j < cfg.sample_id.length := lt_trans hj hlt
        have hp := List.not_of_lt_findIdx hj
        rw [List.get?_eq_getElem?, List.getElem?_eq_getElem hjl] at hget
        simp only [Option.some.injEq] at hget
        simp [hget] at hp
    · intro hneg
      rw [he] at hneg
      exact absurd (Int.ofNat_nonneg _) hneg
  · have he : specEntry E cfg label = -1 := by rw [specEntry, if_neg hc]
    refine ⟨?_, ?_, ?_⟩
    · rw [he]; exact ⟨fun h => absurd h (by decide), fun h => absurd h hc⟩
    · intro h; rw [he] at h; exact absurd h (by decide)
    · intro _; exact he

/-- C6: on a cohort whose `sample_id` has `sample_count` entries and a non-empty header with
`N >= 1` sample columns, the Sample Reconciler builds a Column Mapping of exactly `N`
entries in column order; the entry of a column is resolved exactly when its label passes
`checkSample` and occurs in `sample_id`, it is then the first index below `sample_count`
holding the label, and it is `-1` otherwise; with `M` the number of resolved entries the
reconciler ends in the fatal overlap error if and only if `M` differs from `sample_count`,
and otherwise returns the mapping. -/
theorem sample_reconciler (E : Env) (cfg : Config) (header : Str) (N : Nat)
    (hcohort : cfg.sample_id.length = cfg.sample_count) (hne : header ≠ []) (hN : 1 ≤ N)
    (hcols : (E.tokenize header E.sep_default).length = 9 + N) :
    ∃ (mappingS : List Int) (c : SampleTally),
      mapSamples E cfg ((E.tokenize header E.sep_default).drop 9) [] ⟨0, 0, 0⟩
        = .ok (mappingS, c) ∧
      mappingS.length = N ∧
      (∀ k, k < N → ∃ (label : Str) (e : Int),
        (E.tokenize header E.sep_default).get? (9 + k) = some label ∧
        mappingS.get? k = some e ∧
        (e ≥ 0 ↔ (E.checkSample label = true ∧ label ∈ cfg.sample_id)) ∧
        (e ≥ 0 → ∃ i : Nat, e = (i : Int) ∧ i < cfg.sample_count ∧
          cfg.sample_id.get? i = some label ∧ ∀ j, j < i → cfg.sample_id.get? j ≠ some label) ∧
        (¬ e ≥ 0 → e = -1)) ∧
      c.n_includedS = resolvedCount mappingS ∧
      (readSamples E cfg header = .error (.fatal .noOverlap) ↔
        resolvedCount mappingS ≠ cfg.sample_count) ∧
      (resolvedCount mappingS = cfg.sample_count →
        readSamples E cfg header = .ok (mappingS, c)) := by
  obtain ⟨c, hmap, hc⟩ := mapSamples_eq E cfg hcohort
    ((E.tokenize header E.sep_default).drop 9) [] ⟨0, 0, 0⟩
  simp only [List.nil_append, Nat.zero_add] at hmap hc
  have hlen : (((E.tokenize header E.sep_default).drop 9).map (specEntry E cfg)).length = N := by
    simp [hcols]
  have hhead : ¬ header.length = 0 := fun h => hne (List.length_eq_zero.mp h)
  have hcol10 : ¬ (E.tokenize header E.sep_default).length < 10 := by omega
  have hread : readSamples E cfg header =
      if c.n_includedS ≠ cfg.sample_count then .error (.fatal .noOverlap)
      else .ok (((E.tokenize header E.sep_default).drop 9).map (specEntry E cfg), c) := by
    unfold readSamples
    simp only [hhead, if_false, hcol10, hmap]
  refine ⟨_, c, hmap, hlen, ?_, hc, ?_, ?_⟩
  · intro k hk
    have hk9 : 9 + k < (E.tokenize header E.sep_default).length := by omega
    refine ⟨(E.tokenize header E.sep_default).get ⟨9 + k, hk9⟩,
      specEntry E cfg ((E.tokenize header E.sep_default).get ⟨9 + k, hk9⟩),
      List.get?_eq_get hk9, ?_, ?_⟩
    · simp only [List.get?_eq_getElem?, List.getElem?_map, List.getElem?_drop,
        List.getElem?_eq_getElem hk9, Option.map_some', List.get_eq_getElem]
    · obtain ⟨h1, h2, h3⟩ := specEntry_spec E cfg ((E.tokenize header E.sep_default).get ⟨9 + k, hk9⟩)
      refine ⟨h1, ?_, h3⟩
      intro hge
      obtain ⟨i, hi1, hi2, hi3, hi4⟩ := h2 hge
      exact ⟨i, hi1, by omega, hi3, hi4⟩
  · rw [hread, ← hc]
    by_cases hM : c.n_includedS ≠ cfg.sample_count
    · simp [hM]
    · simp [hM]
  · intro hM
    rw [hread, hc, if_neg (by simpa using hM)]

theorem sample_reconciler_witness :
    demoConfig.sample_id.length = demoConfig.sample_count ∧ demoHeader ≠ [] ∧ 1 ≤ 2 ∧
    (refEnv.tokenize demoHeader refEnv.sep_default).length = 9 + 2 ∧
    readSamples refEnv demoConfig demoHeader = .ok ([0, 1], ⟨2, 0, 0⟩) ∧
    readSamples refEnv { demoConfig with sample_id := ["s1".toList, "s3".toList] } demoHeader
      = .error (.fatal .noOverlap) ∧
    ∃ (mappingS : List Int) (c : SampleTally),
      mapSamples refEnv demoConfig ((refEnv.tokenize demoHeader refEnv.sep_default).drop 9) []
        ⟨0, 0, 0⟩ = .ok (mappingS, c) ∧
      mappingS.length = 2 ∧
      (∀ k, k < 2 → ∃ (label : Str) (e : Int),
        (refEnv.tokenize demoHeader refEnv.sep_default).get? (9 + k) = some label ∧
        mappingS.get? k = some e ∧
        (e ≥ 0 ↔ (refEnv.checkSample label = true ∧ label ∈ demoConfig.sample_id)) ∧
        (e ≥ 0 → ∃ i : Nat, e = (i : Int) ∧ i < demoConfig.sample_count ∧
          demoConfig.sample_id.get? i = some label ∧
          ∀ j, j < i → demoConfig.sample_id.get? j ≠ some label) ∧
        (¬ e ≥ 0 → e = -1)) ∧
      c.n_includedS = resolvedCount mappingS ∧
      (readSamples refEnv demoConfig demoHeader = .error (.fatal .noOverlap) ↔
        resolvedCount mappingS ≠ demoConfig.sample_count) ∧
      (resolvedCount mappingS = demoConfig.sample_count →
        readSamples refEnv demoConfig demoHeader = .ok (mappingS, c)) :=
  ⟨by decide, by decide, by decide, by decide, by decide, by decide,
   sample_reconciler refEnv demoConfig demoHeader 2 (by decide) (by decide) (by decide)
     (by decide)⟩

/-! ## Genotype-encoded samples -/

/-- The function `atoi` on a string of one character. -/
theorem atoi_single (c : Char) : atoi [c] = (charValue c : Int) := by
  unfold atoi charValue
  by_cases hs : isSpace c = true
  · have hd : digitOf c = none := by
      unfold digitOf
      simp only [isSpace, Bool.or_eq_true, decide_eq_true_eq, Bool.and_eq_true] at hs
      rw [if_neg (by omega)]
    simp [List.dropWhile, hs, hd, takeDigits, natOfDigits]
  · have hdw : List.dropWhile isSpace [c] = [c] := by simp [List.dropWhile, hs]
    rw [hdw]
    by_cases hm : c = '-'
    · subst hm; decide
    · by_cases hp : c = '+'
      · subst hp; decide
      · split
        · rename_i heq; simp only [List.cons.injEq] at heq; exact absurd heq.1 hm
        · rename_i heq; simp only [List.cons.injEq] at heq; exact absurd heq.1 hp
        · cases hd : digitOf c with
          | none => simp [takeDigits, hd, natOfDigits]
          | some d => simp [takeDigits, hd, natOfDigits]

theorem atoi_nil : atoi [] = 0 := by decide

/-- C7: for a genotype-encoded record and a sample column that is not a whole-column missing
token, with `g` the selected sub-field, `x0` and `x2` its characters at positions `0` and
`2`: if `x0` or `x2` is `.` the dosage is `-1`; otherwise, with `a0` and `a1` the integer
values of `x0` and `x2`, the dosage is `a0 + a1` when that is within `[0,2]`, and the run
ends in the fatal genotype error if and only if `a0 + a1` is outside `[0,2]`. The calls
`0/1`, `1/1` and `./.` give `1`, `2` and `-1`. -/
theorem gt_sample_value (E : Env) (idx_field : Int) (col : Str) (x0 x1 x2 : Char) (rest : Str)
    (hcol : ¬ (col = ".".toList ∨ col = "NN".toList ∨ col = "NA".toList))
    (hg : (E.tokenize col ":".toList).get? idx_field.toNat = some (x0 :: x1 :: x2 :: rest)) :
    ((x0 = '.' ∨ x2 = '.') → sampleValue E true idx_field col = .ok (-1)) ∧
    (¬ (x0 = '.' ∨ x2 = '.') →
      (charValue x0 + charValue x2 ≤ 2 →
        sampleValue E true idx_field col = .ok ((charValue x0 + charValue x2 : Nat) : ℚ)) ∧
      (sampleValue E true idx_field col = .error (.fatal .badGenotype) ↔
        ¬ (0 ≤ charValue x0 + charValue x2 ∧ charValue x0 + charValue x2 ≤ 2))) ∧
    sampleValue refEnv true 0 "0/1".toList = .ok 1 ∧
    sampleValue refEnv true 0 "1/1".toList = .ok 2 ∧
    sampleValue refEnv true 0 "./.".toList = .ok (-1) := by
  have hsv : sampleValue E true idx_field col = gtValue (x0 :: x1 :: x2 :: rest) := by
    unfold sampleValue
    simp only [hcol, if_false, hg, Bool.not_true, Bool.false_eq_true]
  have h0 : charAt (x0 :: x1 :: x2 :: rest) 0 = .ok x0 := rfl
  have h2 : charAt (x0 :: x1 :: x2 :: rest) 2 = .ok x2 := rfl
  have ha0 : atoi (substr (x0 :: x1 :: x2 :: rest) 0 1) = (charValue x0 : Int) := atoi_single x0
  have ha2 : atoi (substr (x0 :: x1 :: x2 :: rest) 2 1) = (charValue x2 : Int) := atoi_single x2
  refine ⟨?_, ?_, by decide!, by decide!, by decide!⟩
  · intro hdot
    rw [hsv]
    unfold gtValue
    simp only [h0, h2]
    by_cases hd0 : x0 = '.'
    · rw [if_pos hd0]
    · have hd2 : x2 = '.' := hdot.resolve_left hd0
      rw [if_neg hd0, if_pos hd2]
  · intro hdot
    have hd0 : ¬ x0 = '.' := fun h => hdot (Or.inl h)
    have hd2 : ¬ x2 = '.' := fun h => hdot (Or.inr h)
    have hval : sampleValue E true idx_field col =
        if ((charValue x0 : Int) + (charValue x2 : Int) < 0 ∨
            (charValue x0 : Int) + (charValue x2 : Int) > 2)
        then .error (.fatal .badGenotype)
        else .ok ((((charValue x0 : Int) + (charValue x2 : Int) : Int)) : ℚ) := by
      rw [hsv]
      unfold gtValue
      simp only [h0, h2, if_neg hd0, if_neg hd2, ha0, ha2]
    constructor
    · intro hle
      rw [hval, if_neg (by omega)]
      push_cast
      rfl
    · rw [hval]
      by_cases hr : (charValue x0 : Int) + (charValue x2 : Int) < 0 ∨
            (charValue x0 : Int) + (charValue x2 : Int) > 2
      · rw [if_pos hr]
        simp only [true_iff]
        omega
      · rw [if_neg hr]
        simp only [reduceCtorEq, false_iff, not_not]
        omega

theorem gt_sample_value_witness :
    ¬ ("2/1".toList = ".".toList ∨ "2/1".toList = "NN".toList ∨ "2/1".toList = "NA".toList) ∧
    (refEnv.tokenize "2/1".toList ":".toList).get? (0 : Int).toNat = some ['2', '/', '1'] ∧
    sampleValue refEnv true 0 "2/1".toList = .error (.fatal .badGenotype) ∧
    (('2' = '.' ∨ '1' = '.') → sampleValue refEnv true 0 "2/1".toList = .ok (-1)) ∧
    (¬ ('2' = '.' ∨ '1' = '.') →
      (charValue '2' + charValue '1' ≤ 2 →
        sampleValue refEnv true 0 "2/1".toList = .ok ((charValue '2' + charValue '1' : Nat) : ℚ)) ∧
      (sampleValue refEnv true 0 "2/1".toList = .error (.fatal .badGenotype) ↔
        ¬ (0 ≤ charValue '2' + charValue '1' ∧ charValue '2' + charValue '1' ≤ 2))) ∧
    sampleValue refEnv true 0 "0/1".toList = .ok 1 ∧
    sampleValue refEnv true 0 "1/1".toList = .ok 2 ∧
    sampleValue refEnv true 0 "./.".toList = .ok (-1) :=
  ⟨by decide, by decide, by decide!,
   gt_sample_value refEnv 0 "2/1".toList '2' '/' '1' [] (by decide) (by decide)⟩

/-! ## Dosage-encoded samples -/

theorem round_neg_one : round (-1) = -1 := by decide!

/-- The missing sentinel rounds to no class, so guarding the count with `x ≠ -1` does not
change it. -/
theorem classSize_eq_countP (k : Int) (hk : k ≠ -1) (xs : List ℚ) :
    classSize k xs = xs.countP (fun x => decide (round x = k)) := by
  unfold classSize
  apply List.countP_congr
  intro x _
  by_cases hx : x = -1
  · subst hx
    simp [round_neg_one, hk.symm]
  · simp [hx]

/-- The class counts of a vector the statistics engine accepts. -/
theorem classCounts_ok {xs : List ℚ} {c0 c1 c2 : Nat}
    (h : classCounts xs (0, 0, 0) = .ok (c0, c1, c2)) :
    (∀ x ∈ xs, validDosage x) ∧
    c0 = classSize 0 xs ∧ c1 = classSize 1 xs ∧ c2 = classSize 2 xs := by
  rw [classCounts_eq] at h
  by_cases hall : ∀ x ∈ xs, validDosage x
  · rw [if_pos hall] at h
    simp only [Nat.zero_add, Except.ok.injEq, Prod.mk.injEq] at h
    exact ⟨hall, h.1.symm, h.2.1.symm, h.2.2.symm⟩
  · rw [if_neg hall] at h; simp at h

/-- C8: for a dosage-encoded record and a sample column that is not a whole-column missing
token and whose selected sub-field `g` does not start with `.`, the extractor stores the
parsed value `atof(g)` itself, unrounded; and whenever the statistics engine accepts a
dosage vector, each class count `c_k` is the number of entries whose value rounds (nearest
integer, halves away from zero) to `k`, so the sample is counted in the class of its rounded
value. The dosage `1.7` is stored as `1.7` and counted in class `2`. -/
theorem ds_sample_value (E : Env) (idx_field : Int) (col g : Str)
    (hcol : ¬ (col = ".".toList ∨ col = "NN".toList ∨ col = "NA".toList))
    (hg : (E.tokenize col ":".toList).get? idx_field.toNat = some g)
    (hdot : g.head? ≠ some '.') :
    sampleValue E false idx_field col = .ok (E.atof g) ∧
    (∀ (vec : List ℚ) (c0 c1 c2 : Nat), classCounts vec (0, 0, 0) = .ok (c0, c1, c2) →
      c0 = vec.countP (fun x => decide (round x = 0)) ∧
      c1 = vec.countP (fun x => decide (round x = 1)) ∧
      c2 = vec.countP (fun x => decide (round x = 2))) ∧
    round (1 / 2) = 1 ∧ round (3 / 2) = 2 ∧ round (-1 / 2) = -1 ∧
    sampleValue refEnv false 0 "1.7".toList = .ok (17 / 10) ∧
    round (17 / 10) = 2 ∧
    classCounts [17 / 10] (0, 0, 0) = .ok (0, 0, 1) := by
  refine ⟨?_, ?_, by decide!, by decide!, by decide!, by decide!, by decide!, by decide!⟩
  · unfold sampleValue
    simp only [hcol, if_false, hg, Bool.not_false, if_true]
    unfold dsValue
    cases g with
    | nil => rfl
    | cons x xs =>
      have hx : ¬ x = '.' := by
        intro h
        apply hdot
        simp [h]
      have h0 : charAt (x :: xs) 0 = .ok x := rfl
      simp only [h0, if_neg hx]
  · intro vec c0 c1 c2 h
    obtain ⟨_, h0, h1, h2⟩ := classCounts_ok h
    rw [h0, h1, h2, classSize_eq_countP 0 (by decide), classSize_eq_countP 1 (by decide),
      classSize_eq_countP 2 (by decide)]
    exact ⟨rfl, rfl, rfl⟩

theorem ds_sample_value_witness :
    ¬ ("0/1:1.7".toList = ".".toList ∨ "0/1:1.7".toList = "NN".toList ∨
        "0/1:1.7".toList = "NA".toList) ∧
    (refEnv.tokenize "0/1:1.7".toList ":".toList).get? (1 : Int).toNat = some "1.7".toList ∧
    "1.7".toList.head? ≠ some '.' ∧
    sampleValue refEnv false 1 "0/1:1.7".toList = .ok (refEnv.atof "1.7".toList) ∧
    refEnv.atof "1.7".toList = 17 / 10 ∧
    (∀ (vec : List ℚ) (c0 c1 c2 : Nat), classCounts vec (0, 0, 0) = .ok (c0, c1, c2) →
      c0 = vec.countP (fun x => decide (round x = 0)) ∧
      c1 = vec.countP (fun x => decide (round x = 1)) ∧
      c2 = vec.countP (fun x => decide (round x = 2))) :=
  have h := ds_sample_value refEnv 1 "0/1:1.7".toList "1.7".toList (by decide) (by decide)
    (by decide)
  ⟨by decide, by decide, by decide, h.1, by decide!, h.2.1⟩

/-! ## Format Resolver and Global Frequency Prefilter -/

/-- A scan of lines 83-84 ends at a position exactly when it started at one or the name
occurs among the tokens. -/
theorem scanField_nonneg (name : Str) :
    ∀ (xs : List Str) (f : Nat) (idx : Int),
      0 ≤ scanField name xs f idx ↔ (0 ≤ idx ∨ name ∈ xs) := by
  intro xs
  induction xs with
  | nil => intro f idx; simp [scanField]
  | cons x xs ih =>
    intro f idx
    rw [scanField, ih]
    by_cases hx : x = name
    · subst hx
      simp
    · have hne : ¬ name = x := fun h => hx h.symm
      simp [hx, hne]

/-- A line has a usable field exactly when FORMAT names DS or GT. -/
theorem resolveFormat_nonneg (field : List Str) :
    (resolveFormat field).1 ≥ 0 ↔ ("DS".toList ∈ field ∨ "GT".toList ∈ field) := by
  unfold resolveFormat
  by_cases hds : scanField "DS".toList field 0 (-1) < 0
  · have hnot : ¬ "DS".toList ∈ field := by
      intro hmem
      have := (scanField_nonneg "DS".toList field 0 (-1)).mpr (Or.inr hmem)
      omega
    rw [if_pos hds]
    show 0 ≤ scanField "GT".toList field 0 (scanField "DS".toList field 0 (-1)) ↔ _
    rw [scanField_nonneg]
    constructor
    · rintro (h | h)
      · omega
      · exact Or.inr h
    · rintro (h | h)
      · exact absurd h hnot
      · exact Or.inr h
  · have hge : 0 ≤ scanField "DS".toList field 0 (-1) := by omega
    have hmem : "DS".toList ∈ field := by
      rcases (scanField_nonneg "DS".toList field 0 (-1)).mp hge with h | h
      · omega
      · exact h
    rw [if_neg hds]
    exact ⟨fun _ => Or.inl hmem, fun _ => hge⟩

/-- The loop of lines 90-99 looks at the first token with key `AF` only. -/
theorem scanAF_eq (E : Env) (t : ℚ) (fields : List Str) :
    scanAF E t fields =
      match fields.find? (fun x => decide (infoKey x = "AF".toList)) with
      | none => .ok true
      | some x =>
        match E.stod (infoValue x) with
        | none => .error .exception
        | some val => .ok (!(decide (val < t) || decide (val > 1 - t))) := by
  induction fields with
  | nil => rfl
  | cons x xs ih =>
    unfold scanAF
    by_cases hk : infoKey x = "AF".toList
    · simp only [hk, if_true, List.find?_cons, decide_True]
    · simp only [hk, if_false, List.find?_cons, decide_False, ih]

/-- A line is counted as filtered by the global prefilter exactly when it passed the site
check, names DS or GT, and `passed_AF` is false. -/
theorem lineStage_excludedMAFglobal_iff (E : Env) (cfg : Config) (mappingS : List Int) (med : ℚ)
    (str : List Str) :
    lineStage E cfg mappingS med str = .ok .excludedMAFglobal ↔
      ∃ id format, str.get? 2 = some id ∧ E.checkGenotype id = true ∧
        str.get? 8 = some format ∧ (resolveFormat (E.tokenize format ":".toList)).1 ≥ 0 ∧
        passedAF E cfg str = .ok false := by
  constructor
  · intro h
    unfold lineStage at h
    cases h2 : str.get? 2 with
    | none => rw [h2] at h; simp at h
    | some id =>
      simp only [h2] at h
      cases hg : E.checkGenotype id with
      | false => rw [hg] at h; simp at h
      | true =>
        simp only [hg, if_true] at h
        cases h8 : str.get? 8 with
        | none => rw [h8] at h; simp at h
        | some format =>
          simp only [h8] at h
          cases hp : passedAF E cfg str with
          | error e => rw [hp] at h; simp at h
          | ok passed =>
            simp only [hp] at h
            by_cases hf : (resolveFormat (E.tokenize format ":".toList)).1 ≥ 0
            · simp only [hf, if_true] at h
              cases passed with
              | false => exact ⟨id, format, rfl, hg, rfl, hf, rfl⟩
              | true =>
                simp only [if_true] at h
                split at h
                · simp at h
                · split at h
                  · simp at h
                  · split at h <;> simp at h
            · rw [if_neg hf] at h; simp at h
  · rintro ⟨id, format, h2, hg, h8, hf, hp⟩
    unfold lineStage
    simp only [h2, hg, if_true, h8, hp, hf, Bool.false_eq_true, if_false]

/-- The first nine columns of a line with at least nine columns do not change when the
sample columns are replaced. -/
theorem get?_take_nine_append (str samples : List Str) (k : Nat) (hk : k < 9) (x : Str)
    (h8 : str.get? 8 = some x) :
    (str.take 9 ++ samples).get? k = str.get? k := by
  have hlen : 8 < str.length := by
    by_contra hcon
    have hnone : str.get? 8 = none := List.get?_eq_none.mpr (by omega)
    rw [hnone] at h8
    cases h8
  have hk2 : k < (str.take 9).length := by
    rw [List.length_take]
    omega
  rw [List.get?_eq_getElem?, List.get?_eq_getElem?, List.getElem?_append_left hk2,
    List.getElem?_take_of_lt hk]

/-- C9: with `global_af_threshold = t > 0`, a line that passed the site check and whose
FORMAT names DS or GT is rejected by the global prefilter if and only if the first INFO
sub-field with key `AF` has a value `v` with `v < t` or `v > 1 - t`; a line with no such
sub-field passes; with `t <= 0` no line is rejected by the prefilter; a rejected line stays
rejected whatever its sample columns are replaced by (they are not read, so no genotype
error can arise), it leaves the output unchanged and adds one to the global-AF tally and to
the line count only. -/
theorem global_prefilter (E : Env) (cfg : Config) (mappingS : List Int) (med : ℚ)
    (str : List Str) (id info format : Str)
    (ht : cfg.global_af_threshold > 0)
    (h2 : str.get? 2 = some id) (hg : E.checkGenotype id = true)
    (h7 : str.get? 7 = some info) (h8 : str.get? 8 = some format)
    (hf : "DS".toList ∈ E.tokenize format ":".toList ∨
      "GT".toList ∈ E.tokenize format ":".toList) :
    (lineStage E cfg mappingS med str = .ok .excludedMAFglobal ↔
      ∃ fld v,
        (E.tokenize info ";".toList).find? (fun x => decide (infoKey x = "AF".toList)) = some fld ∧
        E.stod (infoValue fld) = some v ∧
        (v < cfg.global_af_threshold ∨ v > 1 - cfg.global_af_threshold)) ∧
    ((E.tokenize info ";".toList).find? (fun x => decide (infoKey x = "AF".toList)) = none →
      passedAF E cfg str = .ok true ∧
      lineStage E cfg mappingS med str ≠ .ok .excludedMAFglobal) ∧
    (∀ (cfg0 : Config) (str0 : List Str), cfg0.global_af_threshold ≤ 0 →
      passedAF E cfg0 str0 = .ok true ∧
      lineStage E cfg0 mappingS med str0 ≠ .ok .excludedMAFglobal) ∧
    (lineStage E cfg mappingS med str = .ok .excludedMAFglobal →
      ∀ (samples : List Str) (mappingS1 : List Int),
        lineResult E cfg mappingS1 med (str.take 9 ++ samples) = .ok .excludedMAFglobal) ∧
    (∀ (o : Output) (t : Tally),
      applyOutput o .excludedMAFglobal = o ∧
      applyTally t .excludedMAFglobal =
        { t with n_excludedMAFglobal := t.n_excludedMAFglobal + 1, n_parsed := t.n_parsed + 1 }) := by
  have hfmt : (resolveFormat (E.tokenize format ":".toList)).1 ≥ 0 :=
    (resolveFormat_nonneg _).mpr hf
  have hpass : passedAF E cfg str =
      scanAF E cfg.global_af_threshold (E.tokenize info ";".toList) := by
    unfold passedAF
    rw [if_pos ht, h7]
  have hiff : lineStage E cfg mappingS med str = .ok .excludedMAFglobal ↔
      passedAF E cfg str = .ok false := by
    rw [lineStage_excludedMAFglobal_iff]
    constructor
    · rintro ⟨_, _, _, _, _, _, hp⟩; exact hp
    · intro hp; exact ⟨id, format, h2, hg, h8, hfmt, hp⟩
  refine ⟨?_, ?_, ?_, ?_, ?_⟩
  · rw [hiff, hpass, scanAF_eq]
    cases hfind : (E.tokenize info ";".toList).find?
        (fun x => decide (infoKey x = "AF".toList)) with
    | none => simp
    | some fld =>
      cases hst : E.stod (infoValue fld) with
      | none => simp [hst]
      | some v =>
        simp only [hst, Except.ok.injEq, Bool.not_eq_false', Bool.or_eq_true, decide_eq_true_eq,
          Option.some.injEq]
        constructor
        · intro h; exact ⟨fld, v, rfl, hst, h⟩
        · rintro ⟨fld1, v1, hfld, hv, h⟩
          subst hfld
          rw [hst] at hv
          cases hv
          exact h
  · intro hnone
    have hp : passedAF E cfg str = .ok true := by
      rw [hpass, scanAF_eq, hnone]
    refine ⟨hp, ?_⟩
    rw [Ne, hiff, hp]
    simp
  · intro cfg0 str0 h0
    have hp : passedAF E cfg0 str0 = .ok true := by
      unfold passedAF
      rw [if_neg (not_lt.mpr h0)]
    refine ⟨hp, ?_⟩
    intro hcon
    obtain ⟨_, _, _, _, _, _, hp2⟩ := (lineStage_excludedMAFglobal_iff _ _ _ _ _).mp hcon
    rw [hp] at hp2
    simp at hp2
  · intro hrej samples mappingS1
    have hp : passedAF E cfg str = .ok false := hiff.mp hrej
    have h2' := get?_take_nine_append str samples 2 (by omega) format h8
    have h7' := get?_take_nine_append str samples 7 (by omega) format h8
    have h8' := get?_take_nine_append str samples 8 (by omega) format h8
    have hp' : passedAF E cfg (str.take 9 ++ samples) = .ok false := by
      rw [← hp]
      unfold passedAF
      rw [h7']
    have hstage : lineStage E cfg mappingS1 med (str.take 9 ++ samples)
        = .ok .excludedMAFglobal :=
      (lineStage_excludedMAFglobal_iff _ _ _ _ _).mpr
        ⟨id, format, by rw [h2', h2], hg, by rw [h8', h8], hfmt, hp'⟩
    simp only [lineResult, hstage, filterStage]
  · intro o t
    exact ⟨rfl, rfl⟩

theorem global_prefilter_witness :
    afConfig.global_af_threshold > 0 ∧
    lineResult refEnv afConfig [0, 1] 0 afLine = .ok .excludedMAFglobal ∧
    lineResult refEnv demoConfig [0, 1] 0 afLine = .error (.fatal .badGenotype) ∧
    (lineStage refEnv afConfig [0, 1] 0 afLine = .ok .excludedMAFglobal ↔
      ∃ fld v,
        (refEnv.tokenize "DP=7;AF=0.01".toList ";".toList).find?
          (fun x => decide (infoKey x = "AF".toList)) = some fld ∧
        refEnv.stod (infoValue fld) = some v ∧
        (v < afConfig.global_af_threshold ∨ v > 1 - afConfig.global_af_threshold)) ∧
    (lineStage refEnv afConfig [0, 1] 0 afLine = .ok .excludedMAFglobal →
      ∀ (samples : List Str) (mappingS1 : List Int),
        lineResult refEnv afConfig mappingS1 0 (afLine.take 9 ++ samples)
          = .ok .excludedMAFglobal) :=
  have h := global_prefilter refEnv afConfig [0, 1] 0 afLine "rs1".toList
    "DP=7;AF=0.01".toList "GT".toList (by decide!) (by decide) (by decide) (by decide)
    (by decide) (by decide)
  ⟨by decide!, by decide!, by decide!, h.1, h.2.2.2.1⟩

/-! ## Allele Statistics Engine -/

/-- The three class counts of a classifiable vector add up to its non-missing entries. -/
theorem classSize_sum (xs : List ℚ) (hall : ∀ x ∈ xs, validDosage x) :
    classSize 0 xs + classSize 1 xs + classSize 2 xs
      = xs.countP (fun x => decide (x ≠ -1)) := by
  induction xs with
  | nil => simp [classSize]
  | cons x xs ih =>
    have ih2 := ih (fun y hy => hall y (List.mem_cons_of_mem _ hy))
    have hx := hall x (List.mem_cons_self _ _)
    unfold classSize at ih2 ⊢
    simp only [List.countP_cons]
    by_cases hm : x = -1
    · subst hm
      simp only [ne_eq, not_true_eq_false, decide_False, Bool.false_and, Bool.false_eq_true,
        if_false, Nat.add_zero]
      exact ih2
    · rcases hx with h | h | h | h
      · exact absurd h hm
      · simp [hm, h] at ih2 ⊢; omega
      · simp [hm, h] at ih2 ⊢; omega
      · simp [hm, h] at ih2 ⊢; omega

/-- C10: for every dosage vector whose non-missing entries all round into `{0,1,2}` the class
counts `c0, c1, c2` exist and add up to the number of non-missing entries; with
`ref_alleles = 2*c0 + c1` and `alt_alleles = c1 + 2*c2`: if `ref_alleles >= alt_alleles`
then `maf = alt_alleles / (2*(c0+c1+c2))` (the NaN of `0/0` when no sample is counted),
`ma_samples = c1 + c2`, `ma_count = alt_alleles` and the orientation is `+1`; otherwise
`maf = ref_alleles / (2*(c0+c1+c2))`, `ma_samples = c0 + c1`, `ma_count = ref_alleles` and
the orientation is `-1`. Hence `ma_count = min(ref_alleles, alt_alleles)` and
`ma_samples <= c0 + c1 + c2`. -/
theorem allele_statistics (vec : List ℚ)
    (hvalid : ∀ x ∈ vec, x ≠ -1 → (round x = 0 ∨ round x = 1 ∨ round x = 2)) :
    ∃ c0 c1 c2 : Nat,
      classCounts vec (0, 0, 0) = .ok (c0, c1, c2) ∧
      c0 + c1 + c2 = vec.countP (fun x => decide (x ≠ -1)) ∧
      (2 * c0 + c1 ≥ c1 + 2 * c2 →
        (alleleStats c0 c1 c2).maf =
          (if c0 + c1 + c2 = 0 then none
           else some (((c1 + 2 * c2 : Nat) : ℚ) / ((2 * (c0 + c1 + c2) : Nat) : ℚ))) ∧
        (alleleStats c0 c1 c2).ma_samples = c1 + c2 ∧
        (alleleStats c0 c1 c2).ma_count = c1 + 2 * c2 ∧
        (alleleStats c0 c1 c2).ref_factor = 1) ∧
      (¬ 2 * c0 + c1 ≥ c1 + 2 * c2 →
        (alleleStats c0 c1 c2).maf =
          some (((2 * c0 + c1 : Nat) : ℚ) / ((2 * (c0 + c1 + c2) : Nat) : ℚ)) ∧
        (alleleStats c0 c1 c2).ma_samples = c0 + c1 ∧
        (alleleStats c0 c1 c2).ma_count = 2 * c0 + c1 ∧
        (alleleStats c0 c1 c2).ref_factor = -1) ∧
      (alleleStats c0 c1 c2).ma_count = min (2 * c0 + c1) (c1 + 2 * c2) ∧
      (alleleStats c0 c1 c2).ma_samples ≤ c0 + c1 + c2 ∧
      (alleleStats c0 c1 c2).ma_samples ≤ vec.countP (fun x => decide (x ≠ -1)) := by
  have hall : ∀ x ∈ vec, validDosage x := by
    intro x hx
    by_cases hm : x = -1
    · exact Or.inl hm
    · exact Or.inr (hvalid x hx hm)
  have hcc : classCounts vec (0, 0, 0)
      = .ok (classSize 0 vec, classSize 1 vec, classSize 2 vec) := by
    rw [classCounts_eq, if_pos hall]
    simp
  have hsum := classSize_sum vec hall
  refine ⟨classSize 0 vec, classSize 1 vec, classSize 2 vec, hcc, hsum, ?_, ?_, ?_, ?_, ?_⟩
  · intro hge
    unfold alleleStats
    simp only [hge, if_true, and_true, fdiv]
    by_cases hn : classSize 0 vec + classSize 1 vec + classSize 2 vec = 0
    · simp [hn]
    · have hq : ((2 * (classSize 0 vec + classSize 1 vec + classSize 2 vec) : Nat) : ℚ) ≠ 0 := by
        exact_mod_cast (by omega : 2 * (classSize 0 vec + classSize 1 vec + classSize 2 vec) ≠ 0)
      simp only [hq, if_false, hn]
  · intro hlt
    unfold alleleStats
    simp only [hlt, if_false, and_true, fdiv]
    have hq : ((2 * (classSize 0 vec + classSize 1 vec + classSize 2 vec) : Nat) : ℚ) ≠ 0 := by
      exact_mod_cast (by omega : 2 * (classSize 0 vec + classSize 1 vec + classSize 2 vec) ≠ 0)
    simp only [hq, if_false]
  · unfold alleleStats
    by_cases hge : 2 * classSize 0 vec + classSize 1 vec ≥ classSize 1 vec + 2 * classSize 2 vec
    · simp only [hge, if_true]
      exact (Nat.min_eq_right hge).symm
    · simp only [hge, if_false]
      exact (Nat.min_eq_left (by omega)).symm
  · unfold alleleStats
    by_cases hge : 2 * classSize 0 vec + classSize 1 vec ≥ classSize 1 vec + 2 * classSize 2 vec
    · simp only [hge, if_true]; omega
    · simp only [hge, if_false]; omega
  · rw [← hsum]
    unfold alleleStats
    by_cases hge : 2 * classSize 0 vec + classSize 1 vec ≥ classSize 1 vec + 2 * classSize 2 vec
    · simp only [hge, if_true]; omega
    · simp only [hge, if_false]; omega

theorem allele_statistics_witness :
    (∀ x ∈ [(1 : ℚ), 2, -1, 17 / 10],
      x ≠ -1 → (round x = 0 ∨ round x = 1 ∨ round x = 2)) ∧
    classCounts [1, 2, -1, 17 / 10] (0, 0, 0) = .ok (0, 1, 2) ∧
    alleleStats 0 1 2 = ⟨some (1 / 6), 1, 1, -1⟩ ∧
    ∃ c0 c1 c2 : Nat,
      classCounts [1, 2, -1, 17 / 10] (0, 0, 0) = .ok (c0, c1, c2) ∧
      c0 + c1 + c2 = [(1 : ℚ), 2, -1, 17 / 10].countP (fun x => decide (x ≠ -1)) ∧
      (2 * c0 + c1 ≥ c1 + 2 * c2 →
        (alleleStats c0 c1 c2).maf =
          (if c0 + c1 + c2 = 0 then none
           else some (((c1 + 2 * c2 : Nat) : ℚ) / ((2 * (c0 + c1 + c2) : Nat) : ℚ))) ∧
        (alleleStats c0 c1 c2).ma_samples = c1 + c2 ∧
        (alleleStats c0 c1 c2).ma_count = c1 + 2 * c2 ∧
        (alleleStats c0 c1 c2).ref_factor = 1) ∧
      (¬ 2 * c0 + c1 ≥ c1 + 2 * c2 →
        (alleleStats c0 c1 c2).maf =
          some (((2 * c0 + c1 : Nat) : ℚ) / ((2 * (c0 + c1 + c2) : Nat) : ℚ)) ∧
        (alleleStats c0 c1 c2).ma_samples = c0 + c1 ∧
        (alleleStats c0 c1 c2).ma_count = 2 * c0 + c1 ∧
        (alleleStats c0 c1 c2).ref_factor = -1) ∧
      (alleleStats c0 c1 c2).ma_count = min (2 * c0 + c1) (c1 + 2 * c2) ∧
      (alleleStats c0 c1 c2).ma_samples ≤ c0 + c1 + c2 ∧
      (alleleStats c0 c1 c2).ma_samples
        ≤ [(1 : ℚ), 2, -1, 17 / 10].countP (fun x => decide (x ≠ -1)) := by
  have hv : ∀ x ∈ [(1 : ℚ), 2, -1, 17 / 10],
      x ≠ -1 → (round x = 0 ∨ round x = 1 ∨ round x = 2) := by decide!
  refine ⟨hv, ?_, ?_, allele_statistics [1, 2, -1, 17 / 10] hv⟩
  · decide!
  · decide!

/-! ## Covariate-Stratified Frequency Splitter -/

/-- The frequency of a half is NaN when the half counts no sample and is otherwise the raw
frequency folded to the smaller of `f` and `1 - f`. -/
theorem halfMaf_eq (c : Int → Nat) :
    halfMaf c =
      if c 0 + c 1 + c 2 = 0 then none
      else some (min (rawFrequency (c 0) (c 1) (c 2)) (1 - rawFrequency (c 0) (c 1) (c 2))) := by
  unfold halfMaf rawFrequency fdiv
  by_cases hn : c 0 + c 1 + c 2 = 0
  · simp [hn, fgt]
  · have hq : ((2 * (c 0 + c 1 + c 2) : Nat) : ℚ) ≠ 0 := by
      exact_mod_cast (by omega : 2 * (c 0 + c 1 + c 2) ≠ 0)
    simp only [hq, if_false, hn, fgt, decide_eq_true_eq]
    by_cases hgt : (1 : ℚ) / 2 < ((c 1 + 2 * c 2 : Nat) : ℚ) / ((2 * (c 0 + c 1 + c 2) : Nat) : ℚ)
    · rw [if_pos hgt]
      simp only [Option.map_some']
      congr 1
      rw [min_eq_right (by linarith)]
    · rw [if_neg hgt]
      congr 1
      rw [min_eq_left (by linarith)]

/-- The raw frequency of class counts lies in `[0, 1]`. -/
theorem rawFrequency_bounds (c0 c1 c2 : Nat) :
    0 ≤ rawFrequency c0 c1 c2 ∧ rawFrequency c0 c1 c2 ≤ 1 := by
  unfold rawFrequency
  constructor
  · positivity
  · by_cases hn : c0 + c1 + c2 = 0
    · simp [hn]
    · have hpos : (0 : ℚ) < ((2 * (c0 + c1 + c2) : Nat) : ℚ) := by
        exact_mod_cast (by omega : 0 < 2 * (c0 + c1 + c2))
      rw [div_le_one hpos]
      exact_mod_cast (by omega : c1 + 2 * c2 ≤ 2 * (c0 + c1 + c2))

/-- Mirroring the alleles of a half (exchanging the classes `0` and `2`) turns the raw
frequency `f` into `1 - f`. -/
theorem rawFrequency_mirror (c0 c1 c2 : Nat) (hn : c0 + c1 + c2 ≠ 0) :
    rawFrequency c2 c1 c0 = 1 - rawFrequency c0 c1 c2 := by
  unfold rawFrequency
  have hq : ((2 * (c0 + c1 + c2) : Nat) : ℚ) ≠ 0 := by
    exact_mod_cast (by omega : 2 * (c0 + c1 + c2) ≠ 0)
  have hq2 : ((2 * (c2 + c1 + c0) : Nat) : ℚ) ≠ 0 := by
    exact_mod_cast (by omega : 2 * (c2 + c1 + c0) ≠ 0)
  rw [eq_sub_iff_add_eq, div_add_div _ _ hq2 hq, div_eq_one_iff_eq (mul_ne_zero hq2 hq)]
  push_cast
  ring
/-- The loop of lines 176-185 adds to the counter of each half and class the number of
non-missing samples of that half rounding to that class, and every non-missing sample it
passes has a covariate value. -/
theorem splitCounts_eq (ival : List ℚ) (med : ℚ) :
    ∀ (xs : List ℚ) (i : Nat) (cu cl cu1 cl1 : Int → Nat),
      splitCounts ival med xs i cu cl = .ok (cu1, cl1) →
      (∀ k, cu1 k = cu k + halfCount true med k (xs.zip (ival.drop i))) ∧
      (∀ k, cl1 k = cl k + halfCount false med k (xs.zip (ival.drop i))) ∧
      xs.countP (fun x => decide (x ≠ -1))
        = (xs.zip (ival.drop i)).countP (fun p => decide (p.1 ≠ -1)) := by
  intro xs
  induction xs with
  | nil =>
    intro i cu cl cu1 cl1 h
    simp only [splitCounts, Except.ok.injEq, Prod.mk.injEq] at h
    obtain ⟨h1, h2⟩ := h
    subst h1 h2
    simp [halfCount]
  | cons x xs ih =>
    intro i cu cl cu1 cl1 h
    unfold splitCounts at h
    cases hd : ival.get? i with
    | none =>
      have hlen : ival.length ≤ i := List.get?_eq_none.mp hd
      have hdrop : ival.drop i = [] := List.drop_eq_nil_of_le hlen
      have hdrop1 : ival.drop (i + 1) = [] := List.drop_eq_nil_of_le (by omega)
      by_cases hx : x = -1
      · subst hx
        simp only [ne_eq, not_true_eq_false, if_false] at h
        obtain ⟨h1, h2, h3⟩ := ih _ _ _ _ _ h
        rw [hdrop1] at h1 h2 h3
        rw [hdrop]
        simp only [List.zip_nil_right] at h1 h2 h3 ⊢
        refine ⟨h1, h2, ?_⟩
        simpa using h3
      · rw [if_pos hx, hd] at h
        simp at h
    | some v =>
      have hlt : i < ival.length := by
        by_contra hcon
        rw [List.get?_eq_none.mpr (by omega)] at hd
        cases hd
      have hv : ival[i] = v := by
        rw [List.get?_eq_getElem?, List.getElem?_eq_getElem hlt] at hd
        exact Option.some.inj hd
      have hdrop : ival.drop i = v :: ival.drop (i + 1) := by
        rw [List.drop_eq_getElem_cons hlt, hv]
      rw [hdrop]
      by_cases hx : x = -1
      · subst hx
        simp only [ne_eq, not_true_eq_false, if_false] at h
        obtain ⟨h1, h2, h3⟩ := ih _ _ _ _ _ h
        refine ⟨?_, ?_, ?_⟩
        · intro k; rw [h1 k]; simp [halfCount]
        · intro k; rw [h2 k]; simp [halfCount]
        · simpa using h3
      · rw [if_pos hx] at h
        simp only [hd] at h
        by_cases hge : v ≥ med
        · rw [if_pos hge] at h
          obtain ⟨h1, h2, h3⟩ := ih _ _ _ _ _ h
          have hnlt : ¬ v < med := not_lt.mpr hge
          refine ⟨?_, ?_, ?_⟩
          · intro k
            rw [h1 k]
            by_cases hk : k = round x
            · simp [halfCount, bump, hk, hx, inHalf, hge, List.countP_cons]
              omega
            · have hk2 : ¬ round x = k := fun h => hk h.symm
              simp [halfCount, bump, hk, hk2, hx, inHalf, hge, List.countP_cons]
          · intro k
            rw [h2 k]
            simp [halfCount, hx, inHalf, hnlt, List.countP_cons]
          · simp only [ne_eq, decide_not] at h3
            simp [List.countP_cons, hx, h3]
        · rw [if_neg hge] at h
          obtain ⟨h1, h2, h3⟩ := ih _ _ _ _ _ h
          have hlt2 : v < med := not_le.mp hge
          have hnge : ¬ med ≤ v := hge
          refine ⟨?_, ?_, ?_⟩
          · intro k
            rw [h1 k]
            simp [halfCount, hx, inHalf, hnge, List.countP_cons]
          · intro k
            rw [h2 k]
            by_cases hk : k = round x
            · simp [halfCount, bump, hk, hx, inHalf, hlt2, List.countP_cons]
              omega
            · have hk2 : ¬ round x = k := fun h => hk h.symm
              simp [halfCount, bump, hk, hk2, hx, inHalf, hlt2, List.countP_cons]
          · simp only [ne_eq, decide_not] at h3
            simp [List.countP_cons, hx, h3]
/-- The class counts of a half add up to its non-missing samples when every dosage can be
classified. -/
theorem halfCount_sum (upper : Bool) (med : ℚ) (pairs : List (ℚ × ℚ))
    (hall : ∀ p ∈ pairs, validDosage p.1) :
    halfCount upper med 0 pairs + halfCount upper med 1 pairs + halfCount upper med 2 pairs
      = halfSamples upper med pairs := by
  induction pairs with
  | nil => simp [halfCount, halfSamples]
  | cons p ps ih =>
    have ih2 := ih (fun q hq => hall q (List.mem_cons_of_mem _ hq))
    have hp := hall p (List.mem_cons_self _ _)
    unfold halfCount halfSamples at ih2 ⊢
    simp only [List.countP_cons]
    by_cases hm : p.1 = -1
    · simp only [hm, ne_eq, not_true_eq_false, decide_False, Bool.false_and, Bool.false_eq_true,
        if_false, Nat.add_zero]
      exact ih2
    · by_cases hin : inHalf upper med p.2 = true
      · rcases hp with h | h | h | h
        · exact absurd h hm
        · simp [hm, h, hin] at ih2 ⊢; omega
        · simp [hm, h, hin] at ih2 ⊢; omega
        · simp [hm, h, hin] at ih2 ⊢; omega
      · simp [hin] at ih2 ⊢
        omega

/-- Every non-missing sample belongs to exactly one half. -/
theorem halfSamples_partition (med : ℚ) (pairs : List (ℚ × ℚ)) :
    halfSamples true med pairs + halfSamples false med pairs
      = pairs.countP (fun p => decide (p.1 ≠ -1)) := by
  induction pairs with
  | nil => simp [halfSamples]
  | cons p ps ih =>
    unfold halfSamples at ih ⊢
    simp only [List.countP_cons]
    by_cases hm : p.1 = -1
    · simp [hm] at ih ⊢
      omega
    · by_cases hge : p.2 ≥ med
      · have hnlt : ¬ p.2 < med := not_lt.mpr hge
        simp [hm, inHalf, hge, hnlt] at ih ⊢
        omega
      · have hlt : p.2 < med := not_le.mp hge
        have hnge : ¬ med ≤ p.2 := hge
        simp [hm, inHalf, hnge, hlt] at ih ⊢
        omega

/-- The folded frequency of a half that counts a sample lies in `[0, 1/2]`. -/
theorem folded_bounds (c0 c1 c2 : Nat) :
    0 ≤ min (rawFrequency c0 c1 c2) (1 - rawFrequency c0 c1 c2) ∧
    min (rawFrequency c0 c1 c2) (1 - rawFrequency c0 c1 c2) ≤ 1 / 2 := by
  obtain ⟨h0, h1⟩ := rawFrequency_bounds c0 c1 c2
  constructor
  · exact le_min h0 (by linarith)
  · by_cases h : rawFrequency c0 c1 c2 ≤ 1 / 2
    · exact le_trans (min_le_left _ _) h
    · exact le_trans (min_le_right _ _) (by linarith)

/-- Mirroring the alleles of a half does not change its folded frequency. -/
theorem halfMaf_mirror (c0 c1 c2 : Nat) :
    halfMaf (countsMap c2 c1 c0) = halfMaf (countsMap c0 c1 c2) := by
  rw [halfMaf_eq, halfMaf_eq]
  simp only [countsMap, if_true, one_ne_zero, if_false, OfNat.ofNat_ne_zero, OfNat.ofNat_ne_one]
  by_cases hn : c0 + c1 + c2 = 0
  · have h2 : c2 + c1 + c0 = 0 := by omega
    rw [if_pos hn, if_pos h2]
  · have h2 : ¬ c2 + c1 + c0 = 0 := by omega
    rw [if_neg hn, if_neg h2, rawFrequency_mirror c0 c1 c2 hn]
    congr 1
    rw [sub_sub_cancel, min_comm]

/-- C11: with stratification enabled, on every line that reaches the threshold filter the
samples split into the upper half (covariate at or above the median) and the lower half
(covariate below it); the class counts of each half add up to the non-missing samples of
that half, and every non-missing sample is in exactly one half; for a half with at least
one non-missing sample the half-frequency used by the filter is `min(f, 1 - f)` with
`f = (c1 + 2*c2) / (2*(c0 + c1 + c2))` over that half, hence within `[0, 0.5]`; the folded
frequency is the same when the alleles of the half are mirrored, so it does not depend on
the orientation. A raw frequency of `0.5` stays `0.5` and one of `0.8` becomes `0.2`. -/
theorem stratified_half_frequency (E : Env) (cfg : Config) (mappingS : List Int) (med : ℚ)
    (str : List Str) (c : Candidate)
    (hthr : cfg.interaction_maf_threshold > 0)
    (h : lineStage E cfg mappingS med str = .ok (.reached c)) :
    ∃ (u0 u1 u2 l0 l1 l2 : Nat),
      u0 = halfCount true med 0 (c.genotype_vec.zip cfg.interaction_val) ∧
      u1 = halfCount true med 1 (c.genotype_vec.zip cfg.interaction_val) ∧
      u2 = halfCount true med 2 (c.genotype_vec.zip cfg.interaction_val) ∧
      l0 = halfCount false med 0 (c.genotype_vec.zip cfg.interaction_val) ∧
      l1 = halfCount false med 1 (c.genotype_vec.zip cfg.interaction_val) ∧
      l2 = halfCount false med 2 (c.genotype_vec.zip cfg.interaction_val) ∧
      u0 + u1 + u2 = halfSamples true med (c.genotype_vec.zip cfg.interaction_val) ∧
      l0 + l1 + l2 = halfSamples false med (c.genotype_vec.zip cfg.interaction_val) ∧
      (u0 + u1 + u2) + (l0 + l1 + l2) = c.genotype_vec.countP (fun x => decide (x ≠ -1)) ∧
      (0 < u0 + u1 + u2 →
        c.maf_upper = some (min (rawFrequency u0 u1 u2) (1 - rawFrequency u0 u1 u2)) ∧
        0 ≤ min (rawFrequency u0 u1 u2) (1 - rawFrequency u0 u1 u2) ∧
        min (rawFrequency u0 u1 u2) (1 - rawFrequency u0 u1 u2) ≤ 1 / 2) ∧
      (0 < l0 + l1 + l2 →
        c.maf_lower = some (min (rawFrequency l0 l1 l2) (1 - rawFrequency l0 l1 l2)) ∧
        0 ≤ min (rawFrequency l0 l1 l2) (1 - rawFrequency l0 l1 l2) ∧
        min (rawFrequency l0 l1 l2) (1 - rawFrequency l0 l1 l2) ≤ 1 / 2) ∧
      (∀ a b d : Nat, halfMaf (countsMap d b a) = halfMaf (countsMap a b d)) ∧
      rawFrequency 0 1 0 = 1 / 2 ∧ halfMaf (countsMap 0 1 0) = some (1 / 2) ∧
      rawFrequency 0 2 3 = 4 / 5 ∧ halfMaf (countsMap 0 2 3) = some (1 / 5) := by
  obtain ⟨_, _, _, _, _, _, _, _, _, hcc, hst⟩ := lineStage_reached h
  obtain ⟨hall, _, _, _⟩ := classCounts_ok hcc
  unfold stratify at hst
  rw [if_pos hthr] at hst
  cases hsp : splitCounts cfg.interaction_val med c.genotype_vec 0 (fun _ => 0) (fun _ => 0) with
  | error e => rw [hsp] at hst; simp at hst
  | ok cs =>
    obtain ⟨cu, cl⟩ := cs
    rw [hsp] at hst
    simp only [Except.ok.injEq, Prod.mk.injEq] at hst
    obtain ⟨hlo, hup⟩ := hst
    obtain ⟨hu, hl, hcnt⟩ := splitCounts_eq _ _ _ _ _ _ _ _ hsp
    simp only [List.drop_zero, Nat.zero_add] at hu hl hcnt
    have hallp : ∀ p ∈ c.genotype_vec.zip cfg.interaction_val, validDosage p.1 := by
      intro p hp
      exact hall p.1 (List.of_mem_zip hp).1
    have hsu := halfCount_sum true med _ hallp
    have hsl := halfCount_sum false med _ hallp
    have hpart := halfSamples_partition med (c.genotype_vec.zip cfg.interaction_val)
    refine ⟨_, _, _, _, _, _, rfl, rfl, rfl, rfl, rfl, rfl, hsu, hsl, ?_, ?_, ?_,
      fun a b d => halfMaf_mirror a b d, by decide!, by decide!, by decide!, by decide!⟩
    · rw [hsu, hsl, hpart, hcnt]
    · intro hpos
      refine ⟨?_, folded_bounds _ _ _⟩
      rw [← hup, halfMaf_eq, hu 0, hu 1, hu 2, if_neg (by omega)]
    · intro hpos
      refine ⟨?_, folded_bounds _ _ _⟩
      rw [← hlo, halfMaf_eq, hl 0, hl 1, hl 2, if_neg (by omega)]

theorem stratified_half_frequency_witness :
    stratConfig.interaction_maf_threshold > 0 ∧
    medianInteraction stratConfig = .ok (3 / 2) ∧
    lineStage refEnv stratConfig [0, 1] (3 / 2) gtLine = .ok (.reached stratCandidate) ∧
    ∃ (u0 u1 u2 l0 l1 l2 : Nat),
      u0 = halfCount true (3 / 2) 0 (stratCandidate.genotype_vec.zip stratConfig.interaction_val) ∧
      u1 = halfCount true (3 / 2) 1 (stratCandidate.genotype_vec.zip stratConfig.interaction_val) ∧
      u2 = halfCount true (3 / 2) 2 (stratCandidate.genotype_vec.zip stratConfig.interaction_val) ∧
      l0 = halfCount false (3 / 2) 0 (stratCandidate.genotype_vec.zip stratConfig.interaction_val) ∧
      l1 = halfCount false (3 / 2) 1 (stratCandidate.genotype_vec.zip stratConfig.interaction_val) ∧
      l2 = halfCount false (3 / 2) 2 (stratCandidate.genotype_vec.zip stratConfig.interaction_val) ∧
      u0 + u1 + u2
        = halfSamples true (3 / 2) (stratCandidate.genotype_vec.zip stratConfig.interaction_val) ∧
      l0 + l1 + l2
        = halfSamples false (3 / 2) (stratCandidate.genotype_vec.zip stratConfig.interaction_val) ∧
      (u0 + u1 + u2) + (l0 + l1 + l2)
        = stratCandidate.genotype_vec.countP (fun x => decide (x ≠ -1)) ∧
      (0 < u0 + u1 + u2 →
        stratCandidate.maf_upper
          = some (min (rawFrequency u0 u1 u2) (1 - rawFrequency u0 u1 u2)) ∧
        0 ≤ min (rawFrequency u0 u1 u2) (1 - rawFrequency u0 u1 u2) ∧
        min (rawFrequency u0 u1 u2) (1 - rawFrequency u0 u1 u2) ≤ 1 / 2) ∧
      (0 < l0 + l1 + l2 →
        stratCandidate.maf_lower
          = some (min (rawFrequency l0 l1 l2) (1 - rawFrequency l0 l1 l2)) ∧
        0 ≤ min (rawFrequency l0 l1 l2) (1 - rawFrequency l0 l1 l2) ∧
        min (rawFrequency l0 l1 l2) (1 - rawFrequency l0 l1 l2) ≤ 1 / 2) ∧
      (∀ a b d : Nat, halfMaf (countsMap d b a) = halfMaf (countsMap a b d)) ∧
      rawFrequency 0 1 0 = 1 / 2 ∧ halfMaf (countsMap 0 1 0) = some (1 / 2) ∧
      rawFrequency 0 2 3 = 4 / 5 ∧ halfMaf (countsMap 0 2 3) = some (1 / 5) := by
  refine ⟨?_, ?_, ?_, ?_⟩
  · decide!
  · decide!
  · decide!
  · exact stratified_half_frequency refEnv stratConfig [0, 1] (3 / 2) gtLine stratCandidate
      (by decide!) (by decide!)

/-! ## Format Resolver -/

/-- A scan of lines 83-84 over tokens that do not hold the name leaves `idx_field` alone. -/
theorem scanField_of_not_mem (name : Str) :
    ∀ (xs : List Str) (f : Nat) (idx : Int), name ∉ xs → scanField name xs f idx = idx := by
  intro xs
  induction xs with
  | nil => intro f idx _; rfl
  | cons x xs ih =>
    intro f idx hmem
    have hx : ¬ x = name := fun h => hmem (h ▸ List.mem_cons_self _ _)
    have hxs : name ∉ xs := fun h => hmem (List.mem_cons_of_mem _ h)
    rw [scanField, if_neg hx, ih _ _ hxs]

/-- A scan of lines 83-84 over tokens that hold the name ends at the position of one of
them (the last). -/
theorem scanField_of_mem (name : Str) :
    ∀ (xs : List Str) (f : Nat) (idx : Int), name ∈ xs →
      ∃ i : Nat, scanField name xs f idx = ((f + i : Nat) : Int) ∧ xs.get? i = some name ∧
        ∀ j, i < j → xs.get? j ≠ some name := by
  intro xs
  induction xs with
  | nil => intro f idx h; cases h
  | cons x xs ih =>
    intro f idx hmem
    rw [scanField]
    by_cases hxs : name ∈ xs
    · obtain ⟨i, h1, h2, h3⟩ := ih (f + 1) (if x = name then (f : Int) else idx) hxs
      refine ⟨i + 1, ?_, ?_, ?_⟩
      · rw [h1]; congr 1; omega
      · simpa using h2
      · intro j hj
        cases j with
        | zero => omega
        | succ j => simpa using h3 j (by omega)
    · have hx : x = name := by
        rcases List.mem_cons.mp hmem with h | h
        · exact h.symm
        · exact absurd h hxs
      rw [scanField_of_not_mem name xs _ _ hxs, if_pos hx]
      refine ⟨0, by simp, by simp [hx], ?_⟩
      intro j hj
      cases j with
      | zero => omega
      | succ j =>
        intro hget
        simp only [List.get?_cons_succ] at hget
        exact hxs (List.get?_mem hget)

/-- Lines 80-84: DS is selected whenever FORMAT names it, GT only when DS is absent, and
`idx_field` stays negative when FORMAT names neither. -/
theorem resolveFormat_spec (field : List Str) :
    ("DS".toList ∈ field →
      ∃ i : Nat, resolveFormat field = ((i : Int), false) ∧ field.get? i = some "DS".toList) ∧
    ("DS".toList ∉ field → "GT".toList ∈ field →
      ∃ i : Nat, resolveFormat field = ((i : Int), true) ∧ field.get? i = some "GT".toList) ∧
    ("DS".toList ∉ field → "GT".toList ∉ field → resolveFormat field = (-1, true)) := by
  refine ⟨?_, ?_, ?_⟩
  · intro hds
    obtain ⟨i, h1, h2, _⟩ := scanField_of_mem "DS".toList field 0 (-1) hds
    refine ⟨i, ?_, h2⟩
    unfold resolveFormat
    rw [h1]
    simp only [Nat.zero_add]
    rw [if_neg (by omega)]
  · intro hds hgt
    have h0 := scanField_of_not_mem "DS".toList field 0 (-1) hds
    obtain ⟨i, h1, h2, _⟩ := scanField_of_mem "GT".toList field 0 (-1) hgt
    refine ⟨i, ?_, h2⟩
    unfold resolveFormat
    rw [h0]
    simp only [Nat.zero_add] at h1
    rw [if_pos (by decide), h1]
  · intro hds hgt
    have h0 := scanField_of_not_mem "DS".toList field 0 (-1) hds
    have h1 := scanField_of_not_mem "GT".toList field 0 (-1) hgt
    unfold resolveFormat
    rw [h0, if_pos (by decide), h1]

/-- A kept line whose FORMAT names neither DS nor GT is counted as format-missing as soon as
the prefilter, which lines 86-100 evaluate first, returns; otherwise the run ends where the
prefilter ends it. -/
theorem lineResult_format_missing (E : Env) (cfg : Config) (mappingS : List Int) (med : ℚ)
    (str : List Str) (id format : Str)
    (h2 : str.get? 2 = some id) (hg : E.checkGenotype id = true)
    (h8 : str.get? 8 = some format)
    (hds : "DS".toList ∉ E.tokenize format ":".toList)
    (hgt : "GT".toList ∉ E.tokenize format ":".toList) :
    lineResult E cfg mappingS med str =
      match passedAF E cfg str with
      | .error e => .error e
      | .ok _ => .ok .excludedF := by
  have hf : ¬ (resolveFormat (E.tokenize format ":".toList)).1 ≥ 0 := by
    rw [(resolveFormat_spec _).2.2 hds hgt]
    decide
  unfold lineResult lineStage
  simp only [h2, hg, if_true, h8]
  cases hp : passedAF E cfg str with
  | error e => rfl
  | ok p => simp only [if_neg hf, filterStage]

/-- C12, failing input: with `global_af_threshold = 0.05`, the line of `plLine` has FORMAT
`PL` (neither DS nor GT) and INFO `AF=.`; lines 89-93 parse the AF value before the format
is tested, `std::stod(".")` throws, and the run ends there: the line is not counted as
format-missing, and the later line of `plFile` is never read. With the prefilter disabled
the same line is counted as format-missing and the run completes. -/
theorem format_missing_aborts :
    "DS".toList ∉ refEnv.tokenize "PL".toList ":".toList ∧
    "GT".toList ∉ refEnv.tokenize "PL".toList ":".toList ∧
    plLine.get? 8 = some "PL".toList ∧ plLine.get? 7 = some "AF=.".toList ∧
    refEnv.stod (infoValue "AF=.".toList) = none ∧
    lineResult refEnv afConfig [0, 1] 0 plLine = .error .exception ∧
    readGenotypesVCF refEnv afConfig plFile emptyOutput = .error .exception ∧
    lineResult refEnv demoConfig [0, 1] 0 plLine = .ok .excludedF ∧
    (readGenotypesVCF refEnv demoConfig plFile emptyOutput).toOption.map (fun r => r.tally)
      = some ⟨1, 0, 1, 0, 0, 2⟩ := by
  refine ⟨?_, ?_, ?_, ?_, ?_, ?_, ?_, ?_, ?_⟩
  · decide
  · decide
  · decide
  · decide
  · decide!
  · decide!
  · decide!
  · decide!
  · decide!

/-! ## Output order -/

/-- The variants among the results of a stream are those of its included lines, in stream
order. -/
theorem acceptedVariants_of_lines (E : Env) (cfg : Config) (mappingS : List Int) (med : ℚ) :
    ∀ (ls : List Str) (rs : List LineResult),
      List.Forall₂ (fun buffer r =>
        lineResult E cfg mappingS med (E.tokenize buffer E.sep_default) = .ok r) ls rs →
      List.Forall₂ (fun str v => lineResult E cfg mappingS med str = .ok (.included v))
        ((ls.map (fun buffer => E.tokenize buffer E.sep_default)).filter
          (fun str => isIncluded (lineResult E cfg mappingS med str)))
        (acceptedVariants rs) := by
  intro ls
  induction ls with
  | nil =>
    intro rs h
    cases h
    exact List.Forall₂.nil
  | cons b bs ih =>
    intro rs h
    cases h with
    | cons hr hrs =>
      rename_i r rs2
      have hall := ih rs2 hrs
      cases r with
      | included v =>
        simp only [List.map_cons, List.filter_cons, hr, isIncluded, if_true, acceptedVariants]
        exact List.Forall₂.cons hr hall
      | excludedG | excludedF | excludedMAFglobal | excludedMAF =>
        simp only [List.map_cons, List.filter_cons, hr, isIncluded, Bool.false_eq_true, if_false,
          acceptedVariants]
        exact hall

/-- The identifier, chromosome and position stored for an included line are those of its
columns `2`, `0` and `1`. -/
theorem included_columns {E : Env} {cfg : Config} {mappingS : List Int} {med : ℚ}
    {str : List Str} {v : Variant}
    (h : lineResult E cfg mappingS med str = .ok (.included v)) :
    v.id = str.getD 2 [] ∧ v.chr = str.getD 0 [] ∧ v.pos = atoi (str.getD 1 []) := by
  obtain ⟨c, hstage, _, hvc⟩ := lineResult_included h
  obtain ⟨_, _, _, _, _, _, _, hstr, _⟩ := lineStage_reached hstage
  subst hvc
  simp only [variantOf, hstr, and_self]

theorem forall₂_map_columns {E : Env} {cfg : Config} {mappingS : List Int} {med : ℚ} :
    ∀ {acc : List (List Str)} {vs : List Variant},
      List.Forall₂ (fun str v => lineResult E cfg mappingS med str = .ok (.included v)) acc vs →
      vs.map (fun v => v.id) = acc.map (fun str => str.getD 2 []) ∧
      vs.map (fun v => v.chr) = acc.map (fun str => str.getD 0 []) ∧
      vs.map (fun v => v.pos) = acc.map (fun str => atoi (str.getD 1 [])) ∧
      vs.length = acc.length := by
  intro acc vs h
  induction h with
  | nil => simp
  | cons hr _ ih =>
    obtain ⟨h1, h2, h3⟩ := included_columns hr
    obtain ⟨i1, i2, i3, i4⟩ := ih
    simp [h1, h2, h3, i1, i2, i3, i4]

/-- What the loop leaves behind, in terms of the included lines of the stream. -/
theorem readLines_accepted {E : Env} {cfg : Config} {mappingS : List Int} {med : ℚ}
    {lines : List Str} {o o1 : Output} {t t1 : Tally}
    (h : readLines E cfg mappingS med lines o t = .ok (o1, t1)) :
    ∃ vs : List Variant,
      List.Forall₂ (fun str v => lineResult E cfg mappingS med str = .ok (.included v))
        (acceptedLines E cfg mappingS med lines) vs ∧
      o1 = o.pushAll vs ∧ t1.n_includedG = t.n_includedG + vs.length := by
  obtain ⟨rs, hrs, ho, ht⟩ := readLines_results _ _ _ _ _ _ _ _ _ h
  refine ⟨acceptedVariants rs, acceptedVariants_of_lines E cfg mappingS med _ _ hrs, ?_, ?_⟩
  · rw [ho, foldl_applyOutput]
  · rw [ht, foldl_applyTally_included]

/-- C13: when the loop over a line stream completes, the identifiers, chromosomes and
positions appended to the output are exactly those of the included lines, in stream order
(a subsequence of the stream); each of the nine parallel vectors grows by exactly one entry
per included line and the included count grows by their number; a line that is not
included leaves the output unchanged; if the positions of the stream are sorted, so are the
appended positions. For a completed run `genotype_count` is the number of included lines. -/
theorem output_follows_input (E : Env) (cfg : Config) :
    (∀ (mappingS : List Int) (med : ℚ) (lines : List Str) (o o1 : Output) (t t1 : Tally),
      readLines E cfg mappingS med lines o t = .ok (o1, t1) →
      (acceptedLines E cfg mappingS med lines).Sublist
        ((nonEmpty lines).map (fun buffer => E.tokenize buffer E.sep_default)) ∧
      o1.genotype_id = o.genotype_id ++
        (acceptedLines E cfg mappingS med lines).map (fun str => str.getD 2 []) ∧
      o1.genotype_chr = o.genotype_chr ++
        (acceptedLines E cfg mappingS med lines).map (fun str => str.getD 0 []) ∧
      o1.genotype_pos = o.genotype_pos ++
        (acceptedLines E cfg mappingS med lines).map (fun str => atoi (str.getD 1 [])) ∧
      o1.genotype_id.length
        = o.genotype_id.length + (acceptedLines E cfg mappingS med lines).length ∧
      o1.genotype_chr.length
        = o.genotype_chr.length + (acceptedLines E cfg mappingS med lines).length ∧
      o1.genotype_pos.length
        = o.genotype_pos.length + (acceptedLines E cfg mappingS med lines).length ∧
      o1.genotype_orig.length
        = o.genotype_orig.length + (acceptedLines E cfg mappingS med lines).length ∧
      o1.genotype_curr.length
        = o.genotype_curr.length + (acceptedLines E cfg mappingS med lines).length ∧
      o1.genotype_maf.length
        = o.genotype_maf.length + (acceptedLines E cfg mappingS med lines).length ∧
      o1.genotype_ma_count.length
        = o.genotype_ma_count.length + (acceptedLines E cfg mappingS med lines).length ∧
      o1.genotype_ma_samples.length
        = o.genotype_ma_samples.length + (acceptedLines E cfg mappingS med lines).length ∧
      o1.genotype_ref_factor.length
        = o.genotype_ref_factor.length + (acceptedLines E cfg mappingS med lines).length ∧
      t1.n_includedG = t.n_includedG + (acceptedLines E cfg mappingS med lines).length ∧
      (((nonEmpty lines).map
          (fun buffer => atoi ((E.tokenize buffer E.sep_default).getD 1 []))).Sorted (· ≤ ·) →
        ((acceptedLines E cfg mappingS med lines).map
          (fun str => atoi (str.getD 1 []))).Sorted (· ≤ ·))) ∧
    (∀ (fvcf : VcfFile) (o : Output) (r : Run),
      readGenotypesVCF E cfg fvcf o = .ok r →
      r.out.genotype_id = o.genotype_id ++
        (acceptedLines E cfg r.mappingS r.median_interaction fvcf.lines).map
          (fun str => str.getD 2 []) ∧
      r.out.genotype_chr = o.genotype_chr ++
        (acceptedLines E cfg r.mappingS r.median_interaction fvcf.lines).map
          (fun str => str.getD 0 []) ∧
      r.out.genotype_pos = o.genotype_pos ++
        (acceptedLines E cfg r.mappingS r.median_interaction fvcf.lines).map
          (fun str => atoi (str.getD 1 [])) ∧
      r.out.genotype_count
        = ((acceptedLines E cfg r.mappingS r.median_interaction fvcf.lines).length : Int) ∧
      r.tally.n_includedG
        = (acceptedLines E cfg r.mappingS r.median_interaction fvcf.lines).length) ∧
    (∀ (o : Output) (r : LineResult), (∀ v, r ≠ .included v) → applyOutput o r = o) ∧
    (∀ (o : Output) (v : Variant), applyOutput o (.included v) = o.push v) := by
  refine ⟨?_, ?_, ?_, fun _ _ => rfl⟩
  · intro mappingS med lines o o1 t t1 h
    obtain ⟨vs, hall, ho, ht⟩ := readLines_accepted h
    obtain ⟨h1, h2, h3, h4⟩ := forall₂_map_columns hall
    have hsub : (acceptedLines E cfg mappingS med lines).Sublist
        ((nonEmpty lines).map (fun buffer => E.tokenize buffer E.sep_default)) :=
      List.filter_sublist _
    subst ho
    refine ⟨hsub, ?_, ?_, ?_, ?_, ?_, ?_, ?_, ?_, ?_, ?_, ?_, ?_, ?_, ?_⟩
    · simp only [Output.pushAll, h1]
    · simp only [Output.pushAll, h2]
    · simp only [Output.pushAll, h3]
    · simp [Output.pushAll, h4]
    · simp [Output.pushAll, h4]
    · simp [Output.pushAll, h4]
    · simp [Output.pushAll, h4]
    · simp [Output.pushAll, h4]
    · simp [Output.pushAll, h4]
    · simp [Output.pushAll, h4]
    · simp [Output.pushAll, h4]
    · simp [Output.pushAll, h4]
    · rw [ht, h4]
    · intro hsorted
      have hmap := hsub.map (fun str => atoi (str.getD 1 []))
      rw [List.map_map] at hmap
      exact List.Pairwise.sublist hmap hsorted
  · intro fvcf o r h
    obtain ⟨_, _, _, _, rs, hrs, hout, htally, _⟩ := readGenotypesVCF_ok h
    have hall := acceptedVariants_of_lines E cfg r.mappingS r.median_interaction _ _ hrs
    obtain ⟨h1, h2, h3, h4⟩ := forall₂_map_columns hall
    have hn := foldl_applyTally_included rs ⟨0, 0, 0, 0, 0, 0⟩
    rw [← htally] at hn
    refine ⟨?_, ?_, ?_, ?_, ?_⟩
    · rw [hout]; simp only [Output.pushAll, h1]; rfl
    · rw [hout]; simp only [Output.pushAll, h2]; rfl
    · rw [hout]; simp only [Output.pushAll, h3]; rfl
    · rw [hout]; simp only [h4]; rfl
    · rw [hn, h4]; simp [acceptedLines]
  · intro o r hr
    cases r with
    | included v => exact absurd rfl (hr v)
    | excludedG | excludedF | excludedMAFglobal | excludedMAF => rfl

theorem output_follows_input_witness :
    readGenotypesVCF refEnv mafConfig twoLineFile emptyOutput = .ok mafRun ∧
    acceptedLines refEnv mafConfig mafRun.mappingS mafRun.median_interaction twoLineFile.lines
      = [tokenizeRef "1\t200\trs2\tC\tT\t.\tPASS\tAF=0.5\tGT\t0/1\t0/1".toList
          refEnv.sep_default] ∧
    mafRun.out.genotype_id = emptyOutput.genotype_id ++
      (acceptedLines refEnv mafConfig mafRun.mappingS mafRun.median_interaction
        twoLineFile.lines).map (fun str => str.getD 2 []) ∧
    mafRun.out.genotype_chr = emptyOutput.genotype_chr ++
      (acceptedLines refEnv mafConfig mafRun.mappingS mafRun.median_interaction
        twoLineFile.lines).map (fun str => str.getD 0 []) ∧
    mafRun.out.genotype_pos = emptyOutput.genotype_pos ++
      (acceptedLines refEnv mafConfig mafRun.mappingS mafRun.median_interaction
        twoLineFile.lines).map (fun str => atoi (str.getD 1 [])) ∧
    mafRun.out.genotype_count
      = ((acceptedLines refEnv mafConfig mafRun.mappingS mafRun.median_interaction
          twoLineFile.lines).length : Int) ∧
    mafRun.tally.n_includedG
      = (acceptedLines refEnv mafConfig mafRun.mappingS mafRun.median_interaction
          twoLineFile.lines).length := by
  refine ⟨?_, ?_, ?_⟩
  · decide!
  · decide!
  · exact (output_follows_input refEnv mafConfig).2.1 twoLineFile emptyOutput mafRun
      (by decide!)

/-! ## End of the run -/

/-- C14: once the start-up checks have passed and the loop has consumed the whole region
without ending the run, `readGenotypesVCF` ends in an error if and only if no line was
included, the error being the fatal `No genotypes in this region`; with at least one
included line it completes, with `genotype_count` equal to the number of included lines. -/
theorem empty_region_fatal (E : Env) (cfg : Config) (fvcf : VcfFile) (o : Output)
    (mappingS : List Int) (samples : SampleTally) (med : ℚ) (o1 : Output) (t1 : Tally)
    (hi : fvcf.has_index = true)
    (hs : readSamples E cfg fvcf.header = .ok (mappingS, samples))
    (hm : medianInteraction cfg = .ok med)
    (hr : fvcf.region_ok = true)
    (hl : readLines E cfg mappingS med fvcf.lines o ⟨0, 0, 0, 0, 0, 0⟩ = .ok (o1, t1)) :
    t1.n_includedG = (acceptedLines E cfg mappingS med fvcf.lines).length ∧
    ((∃ e, readGenotypesVCF E cfg fvcf o = .error e) ↔ t1.n_includedG = 0) ∧
    (t1.n_includedG = 0 → readGenotypesVCF E cfg fvcf o = .error (.fatal .noGenotypes)) ∧
    (0 < t1.n_includedG →
      readGenotypesVCF E cfg fvcf o =
        .ok { out := { o1 with genotype_count := (t1.n_includedG : Int) }
              tally := t1
              mappingS := mappingS
              samples := samples
              median_interaction := med }) := by
  have hrun : readGenotypesVCF E cfg fvcf o =
      if t1.n_includedG ≤ 0 then .error (.fatal .noGenotypes)
      else .ok { out := { o1 with genotype_count := (t1.n_includedG : Int) }
                 tally := t1
                 mappingS := mappingS
                 samples := samples
                 median_interaction := med } := by
    unfold readGenotypesVCF
    simp only [hi, hs, hm, hr, hl, Bool.not_true, Bool.false_eq_true, if_false]
  obtain ⟨vs, hall, _, ht⟩ := readLines_accepted hl
  obtain ⟨_, _, _, hlen⟩ := forall₂_map_columns hall
  refine ⟨by rw [ht, hlen]; simp, ?_, ?_, ?_⟩
  · rw [hrun]
    by_cases hz : t1.n_includedG ≤ 0
    · rw [if_pos hz]
      exact ⟨fun _ => by omega, fun _ => ⟨_, rfl⟩⟩
    · rw [if_neg hz]
      constructor
      · rintro ⟨e, he⟩; cases he
      · intro h0; omega
  · intro h0
    rw [hrun, if_pos (by omega)]
  · intro hpos
    rw [hrun, if_neg (by omega)]

theorem empty_region_fatal_witness :
    twoLineFile.has_index = true ∧
    readSamples refEnv mafConfig twoLineFile.header = .ok ([0, 1], ⟨2, 0, 0⟩) ∧
    medianInteraction mafConfig = .ok 0 ∧ twoLineFile.region_ok = true ∧
    readLines refEnv mafConfig [0, 1] 0 twoLineFile.lines emptyOutput ⟨0, 0, 0, 0, 0, 0⟩
      = .ok ({ mafRun.out with genotype_count := 0 }, mafRun.tally) ∧
    readGenotypesVCF refEnv { demoConfig with maf_threshold := 1 } twoLineFile emptyOutput
      = .error (.fatal .noGenotypes) ∧
    mafRun.tally.n_includedG
      = (acceptedLines refEnv mafConfig [0, 1] 0 twoLineFile.lines).length ∧
    ((∃ e, readGenotypesVCF refEnv mafConfig twoLineFile emptyOutput = .error e) ↔
      mafRun.tally.n_includedG = 0) ∧
    (mafRun.tally.n_includedG = 0 →
      readGenotypesVCF refEnv mafConfig twoLineFile emptyOutput = .error (.fatal .noGenotypes)) ∧
    (0 < mafRun.tally.n_includedG →
      readGenotypesVCF refEnv mafConfig twoLineFile emptyOutput =
        .ok { out := { ({ mafRun.out with genotype_count := 0 } : Output) with
                       genotype_count := (mafRun.tally.n_includedG : Int) }
              tally := mafRun.tally
              mappingS := [0, 1]
              samples := ⟨2, 0, 0⟩
              median_interaction := 0 }) := by
  refine ⟨?_, ?_, ?_, ?_, ?_, ?_, ?_⟩
  · decide
  · decide
  · decide!
  · decide
  · decide!
  · decide!
  · exact empty_region_fatal refEnv mafConfig twoLineFile emptyOutput [0, 1] ⟨2, 0, 0⟩ 0
      { mafRun.out with genotype_count := 0 } mafRun.tally (by decide) (by decide) (by decide!)
      (by decide) (by decide!)

/-! ## Tallies -/

/-- The loop over a stream is the loop over its first part followed by the loop over the
rest. -/
theorem readLines_append (E : Env) (cfg : Config) (mappingS : List Int) (med : ℚ) :
    ∀ (l1 l2 : List Str) (o : Output) (t : Tally),
      readLines E cfg mappingS med (l1 ++ l2) o t =
        match readLines E cfg mappingS med l1 o t with
        | .error e => .error e
        | .ok (o1, t1) => readLines E cfg mappingS med l2 o1 t1 := by
  intro l1
  induction l1 with
  | nil => intro l2 o t; rfl
  | cons b bs ih =>
    intro l2 o t
    have hcons : (b :: bs) ++ l2 = b :: (bs ++ l2) := rfl
    rw [hcons]
    by_cases hb : b.length = 0
    · simp only [readLines, hb, if_true]
      exact ih l2 o t
    · simp only [readLines, hb, if_false]
      cases hr : lineResult E cfg mappingS med (E.tokenize b E.sep_default) with
      | error e => rfl
      | ok r => exact ih l2 _ _

/-- One line adds one to exactly one of the five tallies and to the line count. -/
theorem applyTally_counters (t : Tally) (r : LineResult) :
    (applyTally t r).n_parsed = t.n_parsed + 1 ∧
    (applyTally t r).total = t.total + 1 ∧
    ∀ j, j < 5 → (applyTally t r).counters.getD j 0
      = t.counters.getD j 0 + (if j = tallyIndex r then 1 else 0) := by
  refine ⟨?_, ?_, ?_⟩
  · cases r <;> rfl
  · cases r <;> simp only [applyTally, Tally.total] <;> omega
  · intro j hj
    have hcases : j = 0 ∨ j = 1 ∨ j = 2 ∨ j = 3 ∨ j = 4 := by omega
    rcases hcases with h | h | h | h | h <;> subst h <;> cases r <;>
      simp [applyTally, Tally.counters, tallyIndex]

/-- The loop keeps the difference between the line count and the sum of the five tallies. -/
theorem readLines_total {E : Env} {cfg : Config} {mappingS : List Int} {med : ℚ} :
    ∀ {lines : List Str} {o o1 : Output} {t t1 : Tally},
      readLines E cfg mappingS med lines o t = .ok (o1, t1) →
      t1.n_parsed = t.n_parsed + (nonEmpty lines).length ∧
      t1.total = t.total + (nonEmpty lines).length := by
  intro lines o o1 t t1 h
  obtain ⟨rs, hrs, _, ht⟩ := readLines_results _ _ _ _ _ _ _ _ _ h
  have hlen : (nonEmpty lines).length = rs.length := hrs.length_eq
  have key : ∀ (rs : List LineResult) (t : Tally),
      (rs.foldl applyTally t).n_parsed = t.n_parsed + rs.length ∧
      (rs.foldl applyTally t).total = t.total + rs.length := by
    intro rs
    induction rs with
    | nil => intro t; simp
    | cons r rs ih =>
      intro t
      obtain ⟨h1, h2, _⟩ := applyTally_counters t r
      obtain ⟨i1, i2⟩ := ih (applyTally t r)
      simp only [List.foldl_cons, List.length_cons, i1, i2, h1, h2]
      omega
  rw [ht, hlen]
  exact key rs t

/-- C15: every non-empty line that is processed without ending the run adds one to exactly
one of the five tallies and one to `n_parsed`, so that `n_parsed` equals the sum of the five
after every prefix of the stream and at the end of a completed run; a line is tallied under
the first stage that rejects it, in the order site exclusion, format-missing, global-AF
prefilter, thresholds: an excluded site is counted as such whatever the rest of the line
holds, a kept line without DS and GT is counted as format-missing also when its AF fails
the prefilter, a kept line with DS or GT whose AF fails is counted as global-AF-filtered
before any sample is read, and a line reaching the filter is included or MAF-filtered. -/
theorem tally_order (E : Env) (cfg : Config) (mappingS : List Int) (med : ℚ) :
    (∀ (t : Tally) (r : LineResult),
      (applyTally t r).n_parsed = t.n_parsed + 1 ∧
      ∀ j, j < 5 → (applyTally t r).counters.getD j 0
        = t.counters.getD j 0 + (if j = tallyIndex r then 1 else 0)) ∧
    (∀ (l1 l2 : List Str) (o o2 : Output) (t t2 : Tally),
      readLines E cfg mappingS med (l1 ++ l2) o t = .ok (o2, t2) →
      t.n_parsed = t.total →
      ∃ (o1 : Output) (t1 : Tally),
        readLines E cfg mappingS med l1 o t = .ok (o1, t1) ∧ t1.n_parsed = t1.total) ∧
    (∀ (fvcf : VcfFile) (o : Output) (r : Run),
      readGenotypesVCF E cfg fvcf o = .ok r → r.tally.n_parsed = r.tally.total) ∧
    (∀ (str : List Str) (id : Str), str.get? 2 = some id → E.checkGenotype id = false →
      lineResult E cfg mappingS med str = .ok .excludedG) ∧
    (∀ (str : List Str) (id format : Str) (p : Bool),
      str.get? 2 = some id → E.checkGenotype id = true → str.get? 8 = some format →
      "DS".toList ∉ E.tokenize format ":".toList →
      "GT".toList ∉ E.tokenize format ":".toList →
      passedAF E cfg str = .ok p →
      lineResult E cfg mappingS med str = .ok .excludedF) ∧
    (∀ (str : List Str) (id format : Str),
      str.get? 2 = some id → E.checkGenotype id = true → str.get? 8 = some format →
      ("DS".toList ∈ E.tokenize format ":".toList ∨
        "GT".toList ∈ E.tokenize format ":".toList) →
      passedAF E cfg str = .ok false →
      lineResult E cfg mappingS med str = .ok .excludedMAFglobal) ∧
    (∀ (str : List Str) (c : Candidate),
      lineStage E cfg mappingS med str = .ok (.reached c) →
      lineResult E cfg mappingS med str =
        .ok (if passesThresholds cfg c then .included (variantOf cfg c) else .excludedMAF)) ∧
    passedAF refEnv afConfig plAfLine = .ok false ∧
    lineResult refEnv afConfig [0, 1] 0 plAfLine = .ok .excludedF := by
  refine ⟨?_, ?_, ?_, ?_, ?_, ?_, ?_, by decide!, by decide!⟩
  · intro t r
    obtain ⟨h1, _, h3⟩ := applyTally_counters t r
    exact ⟨h1, h3⟩
  · intro l1 l2 o o2 t t2 h ht
    rw [readLines_append] at h
    cases h1 : readLines E cfg mappingS med l1 o t with
    | error e => rw [h1] at h; simp at h
    | ok ot =>
      obtain ⟨o1, t1⟩ := ot
      obtain ⟨hp, hs⟩ := readLines_total h1
      exact ⟨o1, t1, rfl, by omega⟩
  · intro fvcf o r h
    obtain ⟨_, _, _, _, rs, hrs, _, htally, _⟩ := readGenotypesVCF_ok h
    have hl := readLines_of_results E cfg r.mappingS r.median_interaction fvcf.lines rs o
      ⟨0, 0, 0, 0, 0, 0⟩ hrs
    obtain ⟨hp, hs⟩ := readLines_total hl
    rw [htally, hp, hs]
    rfl
  · intro str id h2 hg
    simp only [lineResult, lineStage, h2, hg, Bool.false_eq_true, if_false, filterStage]
  · intro str id format p h2 hg h8 hds hgt hp
    rw [lineResult_format_missing E cfg mappingS med str id format h2 hg h8 hds hgt, hp]
  · intro str id format h2 hg h8 hf hp
    have hstage := (lineStage_excludedMAFglobal_iff E cfg mappingS med str).mpr
      ⟨id, format, h2, hg, h8, (resolveFormat_nonneg _).mpr hf, hp⟩
    simp only [lineResult, hstage, filterStage]
  · intro str c h
    simp only [lineResult, h, filterStage]

theorem tally_order_witness :
    readGenotypesVCF refEnv mafConfig twoLineFile emptyOutput = .ok mafRun ∧
    mafRun.tally.n_parsed = mafRun.tally.total ∧
    plAfLine.get? 2 = some "rs1".toList ∧ refEnv.checkGenotype "rs1".toList = true ∧
    plAfLine.get? 8 = some "PL".toList ∧
    "DS".toList ∉ refEnv.tokenize "PL".toList ":".toList ∧
    "GT".toList ∉ refEnv.tokenize "PL".toList ":".toList ∧
    passedAF refEnv afConfig plAfLine = .ok false ∧
    lineResult refEnv afConfig [0, 1] 0 plAfLine = .ok .excludedF := by
  have h := tally_order refEnv afConfig [0, 1] 0
  have hm := tally_order refEnv mafConfig [0, 1] 0
  refine ⟨by decide!, hm.2.2.1 twoLineFile emptyOutput mafRun (by decide!), by decide,
    by decide, by decide, by decide, by decide, by decide!, ?_⟩
  exact h.2.2.2.2.1 plAfLine "rs1".toList "PL".toList false (by decide) (by decide)
    (by decide) (by decide) (by decide) (by decide!)

/-! ## Fatal dosage class -/

/-- The loop of lines 176-185 can only end the run by reading past the covariate vector. -/
theorem splitCounts_error (ival : List ℚ) (med : ℚ) :
    ∀ (xs : List ℚ) (i : Nat) (cu cl : Int → Nat) (e : Err),
      splitCounts ival med xs i cu cl = .error e → e = .outOfRange := by
  intro xs
  induction xs with
  | nil => intro i cu cl e h; simp [splitCounts] at h
  | cons x xs ih =>
    intro i cu cl e h
    unfold splitCounts at h
    by_cases hx : x = -1
    · subst hx
      simp only [ne_eq, not_true_eq_false, if_false] at h
      exact ih _ _ _ _ h
    · rw [if_pos hx] at h
      cases hd : ival.get? i with
      | none =>
        rw [hd] at h
        simp only [Except.error.injEq] at h
        exact h.symm
      | some v =>
        simp only [hd] at h
        by_cases hge : v ≥ med
        · rw [if_pos hge] at h; exact ih _ _ _ _ h
        · rw [if_neg hge] at h; exact ih _ _ _ _ h

/-- The splitter raises no fatal error. -/
theorem stratify_error {cfg : Config} {med : ℚ} {vec : List ℚ} {e : Err}
    (h : stratify cfg med vec = .error e) : e = .outOfRange := by
  unfold stratify at h
  by_cases hthr : cfg.interaction_maf_threshold > 0
  · rw [if_pos hthr] at h
    cases hsp : splitCounts cfg.interaction_val med vec 0 (fun _ => 0) (fun _ => 0) with
    | error e2 =>
      rw [hsp] at h
      simp only [Except.error.injEq] at h
      subst h
      exact splitCounts_error _ _ _ _ _ _ _ hsp
    | ok cs => rw [hsp] at h; simp at h
  · rw [if_neg hthr] at h; simp at h

/-- A line whose dosage vector has been extracted continues with the class counts and then
the splitter. -/
theorem lineStage_of_extract {E : Env} {cfg : Config} {mappingS : List Int} (med : ℚ)
    {str : List Str} {id format : Str} {vec : List ℚ}
    (h2 : str.get? 2 = some id) (hg : E.checkGenotype id = true)
    (h8 : str.get? 8 = some format)
    (hf : (resolveFormat (E.tokenize format ":".toList)).1 ≥ 0)
    (hp : passedAF E cfg str = .ok true)
    (he : extract E cfg mappingS (resolveFormat (E.tokenize format ":".toList)).2
      (resolveFormat (E.tokenize format ":".toList)).1 str = .ok vec) :
    lineStage E cfg mappingS med str =
      match classCounts vec (0, 0, 0) with
      | .error e => .error e
      | .ok (c0, c1, c2) =>
        match stratify cfg med vec with
        | .error e => .error e
        | .ok (maf_lower, maf_upper) =>
          .ok (.reached ⟨str, vec, c0, c1, c2, maf_lower, maf_upper⟩) := by
  unfold lineStage
  simp only [h2, hg, if_true, h8, hp, hf, he]

/-- C16: for every line that reaches the Allele Statistics Engine (site kept, DS or GT
named, prefilter passed, dosage vector extracted), the line ends the run with a fatal error
if and only if some entry of the dosage vector different from `-1` rounds (nearest integer,
halves away from zero) outside `{0,1,2}`, the error being `Dosage values must be between 0
and 2`; otherwise the class counts exist and `c0 + c1 + c2` is the number of entries
different from `-1`. -/
theorem statistics_engine_fatal (E : Env) (cfg : Config) (mappingS : List Int) (med : ℚ)
    (str : List Str) (id format : Str) (vec : List ℚ)
    (h2 : str.get? 2 = some id) (hg : E.checkGenotype id = true)
    (h8 : str.get? 8 = some format)
    (hf : "DS".toList ∈ E.tokenize format ":".toList ∨
      "GT".toList ∈ E.tokenize format ":".toList)
    (hp : passedAF E cfg str = .ok true)
    (he : extract E cfg mappingS (resolveFormat (E.tokenize format ":".toList)).2
      (resolveFormat (E.tokenize format ":".toList)).1 str = .ok vec) :
    ((∃ msg, lineResult E cfg mappingS med str = .error (.fatal msg)) ↔
      ∃ x ∈ vec, x ≠ -1 ∧ ¬ (round x = 0 ∨ round x = 1 ∨ round x = 2)) ∧
    (lineResult E cfg mappingS med str = .error (.fatal .badDosage) ↔
      ∃ x ∈ vec, x ≠ -1 ∧ ¬ (round x = 0 ∨ round x = 1 ∨ round x = 2)) ∧
    (classCounts vec (0, 0, 0) = .error (.fatal .badDosage) ↔
      ∃ x ∈ vec, x ≠ -1 ∧ ¬ (round x = 0 ∨ round x = 1 ∨ round x = 2)) ∧
    ((¬ ∃ x ∈ vec, x ≠ -1 ∧ ¬ (round x = 0 ∨ round x = 1 ∨ round x = 2)) →
      ∃ c0 c1 c2 : Nat, classCounts vec (0, 0, 0) = .ok (c0, c1, c2) ∧
        c0 + c1 + c2 = vec.countP (fun x => decide (x ≠ -1))) := by
  have hstage := lineStage_of_extract med h2 hg h8 ((resolveFormat_nonneg _).mpr hf) hp he
  have hbad : (∃ x ∈ vec, x ≠ -1 ∧ ¬ (round x = 0 ∨ round x = 1 ∨ round x = 2)) ↔
      ¬ ∀ x ∈ vec, validDosage x := by
    constructor
    · rintro ⟨x, hx, hne, hr⟩ hall
      rcases hall x hx with h | h
      · exact hne h
      · exact hr h
    · intro hnall
      by_contra hcon
      apply hnall
      intro x hx
      by_cases hm : x = -1
      · exact Or.inl hm
      · by_cases hr : round x = 0 ∨ round x = 1 ∨ round x = 2
        · exact Or.inr hr
        · exact absurd ⟨x, hx, hm, hr⟩ hcon
  have hcc := classCounts_eq vec 0 0 0
  by_cases hall : ∀ x ∈ vec, validDosage x
  · rw [if_pos hall] at hcc
    have hnb : ¬ ∃ x ∈ vec, x ≠ -1 ∧ ¬ (round x = 0 ∨ round x = 1 ∨ round x = 2) :=
      fun h => (hbad.mp h) hall
    have hres : ∀ msg, lineResult E cfg mappingS med str ≠ .error (.fatal msg) := by
      intro msg hcon
      unfold lineResult at hcon
      rw [hstage, hcc] at hcon
      simp only at hcon
      cases hst : stratify cfg med vec with
      | error e =>
        rw [hst] at hcon
        have := stratify_error hst
        subst this
        simp at hcon
      | ok lu => rw [hst] at hcon; simp at hcon
    refine ⟨?_, ?_, ?_, ?_⟩
    · exact ⟨fun ⟨msg, h⟩ => absurd h (hres msg), fun h => absurd h hnb⟩
    · exact ⟨fun h => absurd h (hres _), fun h => absurd h hnb⟩
    · rw [hcc]
      exact ⟨fun h => by simp at h, fun h => absurd h hnb⟩
    · intro _
      refine ⟨_, _, _, hcc, ?_⟩
      simp only [Nat.zero_add]
      exact classSize_sum vec hall
  · rw [if_neg hall] at hcc
    have hb := hbad.mpr hall
    have hres : lineResult E cfg mappingS med str = .error (.fatal .badDosage) := by
      unfold lineResult
      rw [hstage, hcc]
    refine ⟨?_, ?_, ?_, ?_⟩
    · exact ⟨fun _ => hb, fun _ => ⟨_, hres⟩⟩
    · exact ⟨fun _ => hb, fun _ => hres⟩
    · exact ⟨fun _ => hb, fun _ => hcc⟩
    · intro hnb; exact absurd hb hnb

theorem statistics_engine_fatal_witness :
    badDsLine.get? 2 = some "rs1".toList ∧ refEnv.checkGenotype "rs1".toList = true ∧
    badDsLine.get? 8 = some "DS".toList ∧
    passedAF refEnv demoConfig badDsLine = .ok true ∧
    extract refEnv demoConfig [0, 1]
      (resolveFormat (refEnv.tokenize "DS".toList ":".toList)).2
      (resolveFormat (refEnv.tokenize "DS".toList ":".toList)).1 badDsLine = .ok [3, 1] ∧
    round 3 = 3 ∧
    lineResult refEnv demoConfig [0, 1] 0 badDsLine = .error (.fatal .badDosage) ∧
    (lineResult refEnv demoConfig [0, 1] 0 badDsLine = .error (.fatal .badDosage) ↔
      ∃ x ∈ [(3 : ℚ), 1], x ≠ -1 ∧ ¬ (round x = 0 ∨ round x = 1 ∨ round x = 2)) := by
  refine ⟨by decide, by decide, by decide, by decide!, by decide!, by decide!, by decide!, ?_⟩
  exact (statistics_engine_fatal refEnv demoConfig [0, 1] 0 badDsLine "rs1".toList "DS".toList
    [3, 1] (by decide) (by decide) (by decide) (by decide) (by decide!) (by decide!)).2.1

/-! ## Genotype calls outside the named ones -/

/-- C17, failing input: the call `0/2` is neither marked missing nor does it raise the fatal
genotype error, although its second allele character is `2` and the error message names
only `00`, `01` and `11`: lines 121-125 test the sum `0 + 2 = 2` and store the dosage `2`.
The run on `multiAllelicFile` completes and stores the vector `[2, 0]`. The calls `2/0` and
`a/b` pass as well, with the dosages `2` and `0`. -/
theorem gt_call_outside_named :
    sampleValue refEnv true 0 "0/2".toList = .ok 2 ∧
    ¬ ("0/2".toList.getD 2 'x' = '0' ∨ "0/2".toList.getD 2 'x' = '1') ∧
    sampleValue refEnv true 0 "2/0".toList = .ok 2 ∧
    sampleValue refEnv true 0 "a/b".toList = .ok 0 ∧
    sampleValue refEnv true 0 "1/2".toList = .error (.fatal .badGenotype) ∧
    (readGenotypesVCF refEnv demoConfig multiAllelicFile emptyOutput).toOption.map
      (fun r => (r.out.genotype_id, r.out.genotype_orig, r.out.genotype_maf))
      = some (["rs1".toList], [[2, 0]], [some (1 / 2)]) := by
  refine ⟨?_, ?_, ?_, ?_, ?_, ?_⟩
  · decide!
  · decide
  · decide!
  · decide!
  · decide!
  · decide!

/-! ## Column Mapping as a bijection -/

/-- A resolved result of the search of line 48 is a position below the loop bound that holds
the label. -/
theorem findSampleFrom_ok (sample_id : List Str) (label : Str) :
    ∀ (n i : Nat) (e : Int), findSampleFrom sample_id label n i = .ok e →
      e = -1 ∨ ∃ j : Nat, e = (j : Int) ∧ j < i + n ∧ sample_id.get? j = some label := by
  intro n
  induction n with
  | zero =>
    intro i e h
    simp only [findSampleFrom, Except.ok.injEq] at h
    exact Or.inl h.symm
  | succ n ih =>
    intro i e h
    unfold findSampleFrom at h
    cases hd : sample_id.get? i with
    | none => rw [hd] at h; simp at h
    | some s =>
      simp only [hd] at h
      by_cases hs : s = label
      · rw [if_pos hs] at h
        simp only [Except.ok.injEq] at h
        exact Or.inr ⟨i, h.symm, by omega, by rw [hd, hs]⟩
      · rw [if_neg hs] at h
        rcases ih (i + 1) e h with h1 | ⟨j, hj1, hj2, hj3⟩
        · exact Or.inl h1
        · exact Or.inr ⟨j, hj1, by omega, hj3⟩

/-- A completed loop of lines 45-56 has appended one entry per label, each `-1` or a slot
holding the label, and counted the resolved ones. -/
theorem mapSamples_ok (E : Env) (cfg : Config) :
    ∀ (labels : List Str) (m m1 : List Int) (c c1 : SampleTally),
      mapSamples E cfg labels m c = .ok (m1, c1) →
      ∃ es : List Int, m1 = m ++ es ∧ List.Forall₂ (EntryFor cfg) labels es ∧
        c1.n_includedS = c.n_includedS + resolvedCount es := by
  intro labels
  induction labels with
  | nil =>
    intro m m1 c c1 h
    simp only [mapSamples, Except.ok.injEq, Prod.mk.injEq] at h
    exact ⟨[], by simp [h.1], List.Forall₂.nil, by simp [resolvedCount, h.2]⟩
  | cons label rest ih =>
    intro m m1 c c1 h
    unfold mapSamples at h
    by_cases hc : E.checkSample label = true
    · rw [if_pos hc] at h
      cases hf : findSample cfg label with
      | error e => rw [hf] at h; simp at h
      | ok idx =>
        simp only [hf] at h
        have hent : EntryFor cfg label idx := by
          rcases findSampleFrom_ok _ _ _ _ _ hf with h1 | ⟨j, hj1, hj2, hj3⟩
          · exact Or.inl h1
          · exact Or.inr ⟨j, hj1, by omega, hj3⟩
        by_cases hge : idx ≥ 0
        · rw [if_pos hge] at h
          obtain ⟨es, h1, h2, h3⟩ := ih _ _ _ _ h
          refine ⟨idx :: es, by simp [h1], List.Forall₂.cons hent h2, ?_⟩
          rw [h3]
          simp only [resolvedCount, List.countP_cons, hge, decide_True, if_true]
          omega
        · rw [if_neg hge] at h
          obtain ⟨es, h1, h2, h3⟩ := ih _ _ _ _ h
          refine ⟨idx :: es, by simp [h1], List.Forall₂.cons hent h2, ?_⟩
          rw [h3]
          simp [resolvedCount, List.countP_cons, hge]
    · rw [if_neg hc] at h
      obtain ⟨es, h1, h2, h3⟩ := ih _ _ _ _ h
      refine ⟨-1 :: es, by simp [h1], List.Forall₂.cons (Or.inl rfl) h2, ?_⟩
      rw [h3]
      simp [resolvedCount, List.countP_cons]

/-- A completed Sample Reconciler returns one entry per sample column of the header, each
`-1` or a slot holding the label of its column, `sample_count` of them resolved. -/
theorem readSamples_ok {E : Env} {cfg : Config} {header : Str} {mappingS : List Int}
    {samples : SampleTally} (h : readSamples E cfg header = .ok (mappingS, samples)) :
    List.Forall₂ (EntryFor cfg) ((E.tokenize header E.sep_default).drop 9) mappingS ∧
    resolvedCount mappingS = cfg.sample_count := by
  unfold readSamples at h
  by_cases h0 : header.length = 0
  · rw [if_pos h0] at h; simp at h
  · rw [if_neg h0] at h
    simp only at h
    by_cases h10 : (E.tokenize header E.sep_default).length < 10
    · rw [if_pos h10] at h; simp at h
    · rw [if_neg h10] at h
      cases hm : mapSamples E cfg ((E.tokenize header E.sep_default).drop 9) [] ⟨0, 0, 0⟩ with
      | error e => rw [hm] at h; simp at h
      | ok mc =>
        obtain ⟨m1, c1⟩ := mc
        rw [hm] at h
        simp only at h
        by_cases hn : c1.n_includedS ≠ cfg.sample_count
        · rw [if_pos hn] at h; simp at h
        · rw [if_neg hn] at h
          simp only [Except.ok.injEq, Prod.mk.injEq] at h
          obtain ⟨es, h1, h2, h3⟩ := mapSamples_ok E cfg _ _ _ _ _ hm
          simp only [List.nil_append, Nat.zero_add] at h1 h3
          obtain ⟨hm1, _⟩ := h
          subst hm1
          subst h1
          exact ⟨h2, by rw [← h3]; exact not_not.mp hn⟩

/-- An entry found among the entries of some labels belongs to one of them. -/
theorem entryFor_of_mem {cfg : Config} :
    ∀ {labels : List Str} {es : List Int}, List.Forall₂ (EntryFor cfg) labels es →
      ∀ e ∈ es, ∃ label ∈ labels, EntryFor cfg label e := by
  intro labels es h
  induction h with
  | nil => intro e he; cases he
  | cons hd _ ih =>
    intro e he
    rcases List.mem_cons.mp he with h1 | h1
    · subst h1; exact ⟨_, List.mem_cons_self _ _, hd⟩
    · obtain ⟨l, hl, hent⟩ := ih e h1
      exact ⟨l, List.mem_cons_of_mem _ hl, hent⟩

/-- Distinct labels resolve to distinct slots. -/
theorem resolved_nodup {cfg : Config} :
    ∀ {labels : List Str} {es : List Int}, List.Forall₂ (EntryFor cfg) labels es →
      labels.Nodup → (es.filter (fun e => decide (e ≥ 0))).Nodup := by
  intro labels es h
  induction h with
  | nil => intro _; exact List.nodup_nil
  | cons hd htl ih =>
    rename_i label e labels es
    intro hnd
    obtain ⟨hnot, hnd2⟩ := List.nodup_cons.mp hnd
    have ih2 := ih hnd2
    by_cases hge : e ≥ 0
    · rw [List.filter_cons_of_pos (by simpa using hge)]
      refine List.nodup_cons.mpr ⟨?_, ih2⟩
      intro hmem
      have hmem2 : e ∈ es := (List.mem_filter.mp hmem).1
      obtain ⟨l, hl, hent⟩ := entryFor_of_mem htl e hmem2
      rcases hd with h1 | ⟨j, hj1, _, hj3⟩
      · omega
      · rcases hent with h2 | ⟨j2, hk1, _, hk3⟩
        · omega
        · have hjj : j = j2 := by omega
          subst hjj
          rw [hj3] at hk3
          simp only [Option.some.injEq] at hk3
          subst hk3
          exact hnot hl
    · rw [List.filter_cons_of_neg (by simpa using hge)]
      exact ih2

/-- A duplicate-free list of `n` slots below `n` holds every slot. -/
theorem mem_of_nodup_of_length (n : Nat) (l : List Nat) (hnd : l.Nodup)
    (hlt : ∀ x ∈ l, x < n) (hlen : l.length = n) : ∀ s, s < n → s ∈ l := by
  intro s hs
  have hsub : l.toFinset ⊆ Finset.range n := by
    intro x hx
    exact Finset.mem_range.mpr (hlt x (List.mem_toFinset.mp hx))
  have hcard : (Finset.range n).card ≤ l.toFinset.card := by
    rw [List.toFinset_card_of_nodup hnd, hlen, Finset.card_range]
  have heq := Finset.eq_of_subset_of_card_le hsub hcard
  have : s ∈ l.toFinset := by rw [heq]; exact Finset.mem_range.mpr hs
  exact List.mem_toFinset.mp this

/-- With pairwise distinct labels and `sample_count` resolved entries, every cohort slot is
the entry of exactly one column, and every entry is `-1` or a slot. -/
theorem mapping_count_one {cfg : Config} {labels : List Str} {es : List Int}
    (h : List.Forall₂ (EntryFor cfg) labels es) (hnd : labels.Nodup)
    (hcount : resolvedCount es = cfg.sample_count) :
    (∀ e ∈ es, e = -1 ∨ (0 ≤ e ∧ e < (cfg.sample_count : Int))) ∧
    ∀ s, s < cfg.sample_count → es.count (s : Int) = 1 := by
  have hrange : ∀ e ∈ es, e = -1 ∨ (0 ≤ e ∧ e < (cfg.sample_count : Int)) := by
    intro e he
    obtain ⟨l, _, hent⟩ := entryFor_of_mem h e he
    rcases hent with h1 | ⟨j, hj1, hj2, _⟩
    · exact Or.inl h1
    · exact Or.inr ⟨by omega, by omega⟩
  refine ⟨hrange, ?_⟩
  intro s hs
  have hR := resolved_nodup h hnd
  have hlenR : (es.filter (fun e => decide (e ≥ 0))).length = cfg.sample_count := by
    rw [← hcount, resolvedCount, List.countP_eq_length_filter]
  have hinj : ∀ a ∈ es.filter (fun e => decide (e ≥ 0)),
      ∀ b ∈ es.filter (fun e => decide (e ≥ 0)), Int.toNat a = Int.toNat b → a = b := by
    intro a ha b hb hab
    have ha2 := (List.mem_filter.mp ha).2
    have hb2 := (List.mem_filter.mp hb).2
    simp only [decide_eq_true_eq] at ha2 hb2
    omega
  have hnd2 : ((es.filter (fun e => decide (e ≥ 0))).map Int.toNat).Nodup :=
    List.Nodup.map_on hinj hR
  have hlt : ∀ x ∈ (es.filter (fun e => decide (e ≥ 0))).map Int.toNat,
      x < cfg.sample_count := by
    intro x hx
    obtain ⟨e, he, rfl⟩ := List.mem_map.mp hx
    have he1 := (List.mem_filter.mp he).1
    have he2 := (List.mem_filter.mp he).2
    simp only [decide_eq_true_eq] at he2
    rcases hrange e he1 with h1 | ⟨_, h2⟩
    · omega
    · omega
  have hmem := mem_of_nodup_of_length cfg.sample_count _ hnd2 hlt (by simp [hlenR]) s hs
  obtain ⟨e, he, hes⟩ := List.mem_map.mp hmem
  have he2 := (List.mem_filter.mp he).2
  simp only [decide_eq_true_eq] at he2
  have hes2 : e = (s : Int) := by omega
  subst hes2
  have hc : (es.filter (fun e => decide (e ≥ 0))).count (s : Int) = 1 :=
    List.count_eq_one_of_mem hR he
  rw [List.count_filter (by simp)] at hc
  exact hc

/-- The loop of the extractor keeps the length of the vector and every slot that no column
it visits is mapped to. -/
theorem extractFrom_frame {E : Env} {mappingS : List Int} {gt_field : Bool} {idx_field : Int} :
    ∀ (cols : List Str) (k : Nat) (vec res : List ℚ),
      extractFrom E mappingS gt_field idx_field cols k vec = .ok res →
      res.length = vec.length ∧
      ∀ s : Nat, (∀ j, j < cols.length → mappingS.get? (k + j) ≠ some (s : Int)) →
        res.get? s = vec.get? s := by
  intro cols
  induction cols with
  | nil =>
    intro k vec res h
    simp only [extractFrom, Except.ok.injEq] at h
    subst h
    exact ⟨rfl, fun _ _ => rfl⟩
  | cons col rest ih =>
    intro k vec res h
    unfold extractFrom at h
    cases hm : mappingS.get? k with
    | none => rw [hm] at h; simp at h
    | some m =>
      simp only [hm] at h
      have hshift : ∀ s : Nat,
          (∀ j, j < (col :: rest).length → mappingS.get? (k + j) ≠ some (s : Int)) →
          ∀ j, j < rest.length → mappingS.get? (k + 1 + j) ≠ some (s : Int) := by
        intro s hs j hj
        have := hs (j + 1) (by simp; omega)
        rwa [show k + (j + 1) = k + 1 + j by omega] at this
      by_cases hge : m ≥ 0
      · rw [if_pos hge] at h
        cases hsv : sampleValue E gt_field idx_field col with
        | error e => rw [hsv] at h; simp at h
        | ok v =>
          simp only [hsv] at h
          by_cases hlt : m.toNat < vec.length
          · rw [if_pos hlt] at h
            obtain ⟨h1, h2⟩ := ih _ _ _ h
            refine ⟨by rw [h1, List.length_set], ?_⟩
            intro s hs
            rw [h2 s (hshift s hs)]
            have hne : m.toNat ≠ s := by
              intro heq
              have h0 := hs 0 (by simp)
              rw [Nat.add_zero, hm] at h0
              apply h0
              congr 1
              omega
            rw [List.get?_eq_getElem?, List.get?_eq_getElem?, List.getElem?_set_ne hne]
          · rw [if_neg hlt] at h; simp at h
      · rw [if_neg hge] at h
        obtain ⟨h1, h2⟩ := ih _ _ _ h
        exact ⟨h1, fun s hs => h2 s (hshift s hs)⟩

/-- When no two visited columns are mapped to the same slot, the extractor leaves in the
slot of every included column the value of that column. -/
theorem extractFrom_written {E : Env} {mappingS : List Int} {gt_field : Bool} {idx_field : Int} :
    ∀ (cols : List Str) (k : Nat) (vec res : List ℚ),
      extractFrom E mappingS gt_field idx_field cols k vec = .ok res →
      (∀ j1 j2 (m : Int), j1 < cols.length → j2 < cols.length → m ≥ 0 →
        mappingS.get? (k + j1) = some m → mappingS.get? (k + j2) = some m → j1 = j2) →
      ∀ (j : Nat) (col : Str) (m : Int), cols.get? j = some col →
        mappingS.get? (k + j) = some m → m ≥ 0 →
        ∃ v, sampleValue E gt_field idx_field col = .ok v ∧ res.get? m.toNat = some v := by
  intro cols
  induction cols with
  | nil => intro k vec res _ _ j col m hj; simp at hj
  | cons c rest ih =>
    intro k vec res h hdist j col m hj hmj hm0
    unfold extractFrom at h
    have hdist2 : ∀ j1 j2 (m : Int), j1 < rest.length → j2 < rest.length → m ≥ 0 →
        mappingS.get? (k + 1 + j1) = some m → mappingS.get? (k + 1 + j2) = some m → j1 = j2 := by
      intro j1 j2 m h1 h2 hm e1 e2
      have := hdist (j1 + 1) (j2 + 1) m (by simp; omega) (by simp; omega) hm
        (by rwa [show k + (j1 + 1) = k + 1 + j1 by omega])
        (by rwa [show k + (j2 + 1) = k + 1 + j2 by omega])
      omega
    cases hmk : mappingS.get? k with
    | none => rw [hmk] at h; simp at h
    | some m0 =>
      simp only [hmk] at h
      cases j with
      | succ j' =>
        simp only [List.get?_cons_succ] at hj
        rw [show k + (j' + 1) = k + 1 + j' by omega] at hmj
        by_cases hge : m0 ≥ 0
        · rw [if_pos hge] at h
          cases hsv : sampleValue E gt_field idx_field c with
          | error e => rw [hsv] at h; simp at h
          | ok v0 =>
            simp only [hsv] at h
            by_cases hlt : m0.toNat < vec.length
            · rw [if_pos hlt] at h
              exact ih _ _ _ h hdist2 j' col m hj hmj hm0
            · rw [if_neg hlt] at h; simp at h
        · rw [if_neg hge] at h
          exact ih _ _ _ h hdist2 j' col m hj hmj hm0
      | zero =>
        simp only [List.get?_cons_zero, Option.some.injEq] at hj
        subst hj
        rw [Nat.add_zero, hmk] at hmj
        simp only [Option.some.injEq] at hmj
        subst hmj
        rw [if_pos hm0] at h
        cases hsv : sampleValue E gt_field idx_field c with
        | error e => rw [hsv] at h; simp at h
        | ok v0 =>
          simp only [hsv] at h
          by_cases hlt : m0.toNat < vec.length
          · rw [if_pos hlt] at h
            refine ⟨v0, rfl, ?_⟩
            obtain ⟨_, hframe⟩ := extractFrom_frame _ _ _ _ h
            rw [hframe m0.toNat]
            · rw [List.get?_eq_getElem?, List.getElem?_set_self hlt]
            · intro j hj hcon
              have hm0' : ((m0.toNat : Nat) : Int) = m0 := Int.toNat_of_nonneg hm0
              rw [hm0'] at hcon
              have := hdist 0 (j + 1) m0 (by simp) (by simp; omega) hm0
                (by rw [Nat.add_zero]; exact hmk)
                (by rwa [show k + (j + 1) = k + 1 + j by omega])
              omega
          · rw [if_neg hlt] at h; simp at h

/-- An element that occurs exactly once in a list has exactly one position. -/
theorem position_of_count_one (a : Int) :
    ∀ (l : List Int), l.count a = 1 →
      ∃ k, l.get? k = some a ∧ ∀ k2, l.get? k2 = some a → k2 = k := by
  intro l
  induction l with
  | nil => intro h; simp at h
  | cons x xs ih =>
    intro h
    by_cases hx : x = a
    · subst hx
      have h0 : xs.count x = 0 := by
        rw [List.count_cons_self] at h
        omega
      have hnot : x ∉ xs := List.count_eq_zero.mp h0
      refine ⟨0, rfl, ?_⟩
      intro k2 hk2
      cases k2 with
      | zero => rfl
      | succ k =>
        simp only [List.get?_cons_succ] at hk2
        exact absurd (List.get?_mem hk2) hnot
    · rw [List.count_cons_of_ne (fun h => hx h.symm)] at h
      obtain ⟨k, hk1, hk2⟩ := ih h
      refine ⟨k + 1, by simpa using hk1, ?_⟩
      intro k2 hk
      cases k2 with
      | zero =>
        simp only [List.get?_cons_zero, Option.some.injEq] at hk
        exact absurd hk hx
      | succ k3 =>
        simp only [List.get?_cons_succ] at hk
        rw [hk2 k3 hk]

/-- C18: if the sample labels of the header are pairwise distinct and the Sample Reconciler
succeeds, the Column Mapping has one entry per sample column, each `-1` or a cohort slot
below `sample_count`, and every cohort slot is the entry of exactly one column; so for a
line with as many sample columns as the header whose extraction completes, the dosage
vector has `sample_count` entries and each slot holds the value of the one column mapped to
it. Without distinct labels the count check does not give this: for the header `dupHeader`
and the cohort `s1, s2` the reconciler succeeds with the mapping `[0, 0]`, slot `1` is the
entry of no column and keeps the initial `0.0`, and slot `0` is written twice. -/
theorem mapping_bijection (E : Env) (cfg : Config) (header : Str) (mappingS : List Int)
    (samples : SampleTally)
    (hnd : ((E.tokenize header E.sep_default).drop 9).Nodup)
    (hs : readSamples E cfg header = .ok (mappingS, samples)) :
    mappingS.length = ((E.tokenize header E.sep_default).drop 9).length ∧
    (∀ e ∈ mappingS, e = -1 ∨ (0 ≤ e ∧ e < (cfg.sample_count : Int))) ∧
    (∀ s, s < cfg.sample_count → mappingS.count (s : Int) = 1) ∧
    (∀ (gt_field : Bool) (idx_field : Int) (str : List Str) (vec : List ℚ),
      (str.drop 9).length = mappingS.length →
      extract E cfg mappingS gt_field idx_field str = .ok vec →
      vec.length = cfg.sample_count ∧
      ∀ s, s < cfg.sample_count →
        ∃ (k : Nat) (col : Str) (v : ℚ),
          mappingS.get? k = some (s : Int) ∧ (str.drop 9).get? k = some col ∧
          sampleValue E gt_field idx_field col = .ok v ∧ vec.get? s = some v ∧
          ∀ k2, mappingS.get? k2 = some (s : Int) → k2 = k) ∧
    readSamples refEnv demoConfig dupHeader = .ok ([0, 0], ⟨2, 0, 0⟩) ∧
    ([0, 0] : List Int).count 1 = 0 ∧ ([0, 0] : List Int).count 0 = 2 ∧
    extract refEnv demoConfig [0, 0] true 0 gtLine = .ok [2, 0] := by
  obtain ⟨hall, hcount⟩ := readSamples_ok hs
  obtain ⟨hrange, hone⟩ := mapping_count_one hall hnd hcount
  refine ⟨hall.length_eq.symm, hrange, hone, ?_, by decide, by decide, by decide, by decide!⟩
  intro gt_field idx_field str vec hlen hex
  unfold extract at hex
  obtain ⟨hl, _⟩ := extractFrom_frame _ _ _ _ hex
  have hdist : ∀ j1 j2 (m : Int), j1 < (str.drop 9).length → j2 < (str.drop 9).length → m ≥ 0 →
      mappingS.get? (0 + j1) = some m → mappingS.get? (0 + j2) = some m → j1 = j2 := by
    intro j1 j2 m _ _ hm e1 e2
    rw [Nat.zero_add] at e1 e2
    have hmem : m ∈ mappingS := List.get?_mem e1
    rcases hrange m hmem with h1 | ⟨_, h2⟩
    · omega
    · have hm2 : ((m.toNat : Nat) : Int) = m := Int.toNat_of_nonneg hm
      have hc := hone m.toNat (by omega)
      rw [hm2] at hc
      obtain ⟨k, _, huniq⟩ := position_of_count_one m mappingS hc
      rw [huniq j1 e1, huniq j2 e2]
  refine ⟨by rw [hl, List.length_replicate], ?_⟩
  intro s hs2
  obtain ⟨k, hk, huniq⟩ := position_of_count_one (s : Int) mappingS (hone s hs2)
  have hklt : k < mappingS.length := by
    by_contra hcon
    rw [List.get?_eq_none.mpr (by omega)] at hk
    cases hk
  have hkcol : k < (str.drop 9).length := by omega
  obtain ⟨v, hv1, hv2⟩ := extractFrom_written _ _ _ _ hex hdist k
    ((str.drop 9).get ⟨k, hkcol⟩) (s : Int) (List.get?_eq_get hkcol)
    (by rw [Nat.zero_add]; exact hk) (Int.ofNat_nonneg s)
  exact ⟨k, _, v, hk, List.get?_eq_get hkcol, hv1, by simpa using hv2, huniq⟩

theorem mapping_bijection_witness :
    ((refEnv.tokenize demoHeader refEnv.sep_default).drop 9).Nodup ∧
    readSamples refEnv demoConfig demoHeader = .ok ([0, 1], ⟨2, 0, 0⟩) ∧
    ([0, 1] : List Int).length = ((refEnv.tokenize demoHeader refEnv.sep_default).drop 9).length ∧
    (∀ e ∈ ([0, 1] : List Int), e = -1 ∨ (0 ≤ e ∧ e < (demoConfig.sample_count : Int))) ∧
    (∀ s, s < demoConfig.sample_count → ([0, 1] : List Int).count (s : Int) = 1) ∧
    extract refEnv demoConfig [0, 1] true 0 gtLine = .ok [1, 2] := by
  have h := mapping_bijection refEnv demoConfig demoHeader [0, 1] ⟨2, 0, 0⟩ (by decide)
    (by decide)
  exact ⟨by decide, by decide, h.1, h.2.1, h.2.2.1, by decide!⟩

/-! ## The halves of the covariate -/

/-- In a sorted list every element from a position on is at least the element there. -/
theorem sorted_drop_ge {s : List ℚ} (hs : s.Sorted (· ≤ ·)) {k : Nat} (hk : k < s.length) :
    ∀ x ∈ s.drop k, s[k] ≤ x := by
  have hdrop : s.drop k = s[k] :: s.drop (k + 1) := List.drop_eq_getElem_cons hk
  have hsd : (s.drop k).Sorted (· ≤ ·) := List.Pairwise.drop hs
  rw [hdrop] at hsd
  intro x hx
  rw [hdrop] at hx
  rcases List.mem_cons.mp hx with h | h
  · rw [h]
  · exact List.rel_of_sorted_cons hsd x h

/-- The median of a non-empty vector is at most the element at position `n/2` of its sorted
copy, and is an element or the mean of two elements of the vector. -/
theorem median_le_middle (v : List ℚ) (hne : v ≠ []) :
    ∃ (m : ℚ) (hmid : v.length / 2 < (v.insertionSort (· ≤ ·)).length),
      median v = .ok m ∧ m ≤ (v.insertionSort (· ≤ ·))[v.length / 2] ∧
      ∃ a ∈ v, ∃ b ∈ v, m = (a + b) / 2 := by
  have hlen : (v.insertionSort (· ≤ ·)).length = v.length := List.length_insertionSort _ _
  have hpos : 0 < v.length := List.length_pos.mpr hne
  have hmid : v.length / 2 < (v.insertionSort (· ≤ ·)).length := by omega
  have hsorted := List.sorted_insertionSort (· ≤ ·) v
  have hperm := List.perm_insertionSort (· ≤ ·) v
  have hget : (v.insertionSort (· ≤ ·)).get? (v.length / 2)
      = some (v.insertionSort (· ≤ ·))[v.length / 2] := by
    rw [List.get?_eq_getElem?, List.getElem?_eq_getElem hmid]
  have hmemmid : (v.insertionSort (· ≤ ·))[v.length / 2] ∈ v :=
    hperm.subset (List.getElem_mem _)
  by_cases hodd : v.length % 2 = 0
  · have hlow : v.length / 2 - 1 < (v.insertionSort (· ≤ ·)).length := by omega
    have hget2 : (v.insertionSort (· ≤ ·)).get? (v.length / 2 - 1)
        = some (v.insertionSort (· ≤ ·))[v.length / 2 - 1] := by
      rw [List.get?_eq_getElem?, List.getElem?_eq_getElem hlow]
    have hle : (v.insertionSort (· ≤ ·))[v.length / 2 - 1]
        ≤ (v.insertionSort (· ≤ ·))[v.length / 2] := by
      apply sorted_drop_ge hsorted hlow
      have : (v.insertionSort (· ≤ ·))[v.length / 2]
          ∈ (v.insertionSort (· ≤ ·)).drop (v.length / 2) := by
        rw [List.drop_eq_getElem_cons hmid]
        exact List.mem_cons_self _ _
      exact List.drop_subset_drop_left _ (by omega) this
    refine ⟨_, hmid, ?_, ?_, _, hmemmid, _, hperm.subset (List.getElem_mem hlow), rfl⟩
    · unfold median
      simp only [hodd, if_true, hget, hget2]
    · linarith
  · refine ⟨_, hmid, ?_, le_refl _, _, hmemmid, _, hmemmid, by ring⟩
    unfold median
    simp only [hodd, if_false, hget]

/-- C19: for every non-empty covariate vector of length `n` the median exists; at least
`ceil(n/2)` samples have a covariate value at or above it (the upper half, never empty) and
at most `floor(n/2)` samples a value below it (the lower half), which is empty when all
values are equal. -/
theorem median_halves (v : List ℚ) (hne : v ≠ []) :
    ∃ m, median v = .ok m ∧
      (v.length + 1) / 2 ≤ v.countP (fun x => decide (x ≥ m)) ∧
      v.countP (fun x => decide (x < m)) ≤ v.length / 2 ∧
      v.countP (fun x => decide (x ≥ m)) + v.countP (fun x => decide (x < m)) = v.length ∧
      0 < v.countP (fun x => decide (x ≥ m)) ∧
      ((∀ x ∈ v, ∀ y ∈ v, x = y) → v.countP (fun x => decide (x < m)) = 0) := by
  obtain ⟨m, hmid, hmed, hle, a, ha, b, hb, hab⟩ := median_le_middle v hne
  have hlen : (v.insertionSort (· ≤ ·)).length = v.length := List.length_insertionSort _ _
  have hpos : 0 < v.length := List.length_pos.mpr hne
  have hsorted := List.sorted_insertionSort (· ≤ ·) v
  have hperm := List.perm_insertionSort (· ≤ ·) v
  have hupper : (v.length + 1) / 2 ≤ v.countP (fun x => decide (x ≥ m)) := by
    rw [← hperm.countP_eq, ← List.take_append_drop (v.length / 2) (v.insertionSort (· ≤ ·)),
      List.countP_append]
    have hall : ((v.insertionSort (· ≤ ·)).drop (v.length / 2)).countP (fun x => decide (x ≥ m))
        = ((v.insertionSort (· ≤ ·)).drop (v.length / 2)).length := by
      rw [List.countP_eq_length]
      intro x hx
      have := sorted_drop_ge hsorted hmid x hx
      simp only [ge_iff_le, decide_eq_true_eq]
      linarith
    rw [hall, List.length_drop, hlen]
    omega
  have hpart : v.countP (fun x => decide (x ≥ m)) + v.countP (fun x => decide (x < m))
      = v.length := by
    rw [List.length_eq_countP_add_countP (fun x => decide (x ≥ m)) v]
    congr 1
    apply List.countP_congr
    intro x _
    simp
  refine ⟨m, hmed, hupper, by omega, hpart, by omega, ?_⟩
  intro heq
  rw [List.countP_eq_zero]
  intro x hx
  have h1 := heq x hx a ha
  have h2 := heq x hx b hb
  simp only [decide_eq_true_eq, not_lt]
  rw [hab, ← h1, ← h2]
  linarith

theorem median_halves_witness :
    ([3, 1, 2, 2] : List ℚ) ≠ [] ∧ median [3, 1, 2, 2] = .ok 2 ∧
    ([3, 1, 2, 2] : List ℚ).countP (fun x => decide (x ≥ 2)) = 3 ∧
    ([3, 1, 2, 2] : List ℚ).countP (fun x => decide (x < 2)) = 1 ∧
    ∃ m, median [3, 1, 2, 2] = .ok m ∧
      (([3, 1, 2, 2] : List ℚ).length + 1) / 2
        ≤ ([3, 1, 2, 2] : List ℚ).countP (fun x => decide (x ≥ m)) ∧
      ([3, 1, 2, 2] : List ℚ).countP (fun x => decide (x < m))
        ≤ ([3, 1, 2, 2] : List ℚ).length / 2 ∧
      ([3, 1, 2, 2] : List ℚ).countP (fun x => decide (x ≥ m))
        + ([3, 1, 2, 2] : List ℚ).countP (fun x => decide (x < m))
        = ([3, 1, 2, 2] : List ℚ).length ∧
      0 < ([3, 1, 2, 2] : List ℚ).countP (fun x => decide (x ≥ m)) ∧
      ((∀ x ∈ ([3, 1, 2, 2] : List ℚ), ∀ y ∈ ([3, 1, 2, 2] : List ℚ), x = y) →
        ([3, 1, 2, 2] : List ℚ).countP (fun x => decide (x < m)) = 0) := by
  refine ⟨by simp, ?_, ?_, ?_, median_halves [3, 1, 2, 2] (by simp)⟩
  · decide!
  · decide!
  · decide!

/-! ## Accesses in range -/

/-- Reading the first character of a string is always defined. -/
theorem charAt_zero (g : Str) : ∃ c, charAt g 0 = .ok c := by
  cases g with
  | nil => exact ⟨_, rfl⟩
  | cons x xs => exact ⟨x, rfl⟩

/-- The value of a sample is read within range when the column is a missing token or has
the selected sub-field, of at least three characters for a genotype. -/
theorem sampleValue_in_range {E : Env} {gt_field : Bool} {idx_field : Int} {col : Str}
    (h : ¬ (col = ".".toList ∨ col = "NN".toList ∨ col = "NA".toList) →
      ∃ g, (E.tokenize col ":".toList).get? idx_field.toNat = some g ∧
        (gt_field = true → 3 ≤ g.length)) :
    sampleValue E gt_field idx_field col ≠ .error .outOfRange := by
  unfold sampleValue
  by_cases hm : col = ".".toList ∨ col = "NN".toList ∨ col = "NA".toList
  · simp only [hm, if_true]
    exact fun hcon => by cases hcon
  · obtain ⟨g, hg, hlen⟩ := h hm
    simp only [hm, if_false, hg]
    cases gt_field with
    | false =>
      simp only [Bool.not_false, if_true]
      unfold dsValue
      obtain ⟨c, hc⟩ := charAt_zero g
      rw [hc]
      simp only
      split <;> exact fun hcon => by cases hcon
    | true =>
      simp only [Bool.not_true, Bool.false_eq_true, if_false]
      have h3 := hlen rfl
      obtain ⟨x0, x1, x2, rest, rfl⟩ : ∃ x0 x1 x2 rest, g = x0 :: x1 :: x2 :: rest := by
        match g, h3 with
        | x0 :: x1 :: x2 :: rest, _ => exact ⟨x0, x1, x2, rest, rfl⟩
      have h0 : charAt (x0 :: x1 :: x2 :: rest) 0 = .ok x0 := rfl
      have h2 : charAt (x0 :: x1 :: x2 :: rest) 2 = .ok x2 := rfl
      unfold gtValue
      simp only [h0, h2]
      split
      · exact fun hcon => by cases hcon
      · split
        · exact fun hcon => by cases hcon
        · split <;> exact fun hcon => by cases hcon

/-- The loop of the extractor stays in range when the mapping covers the columns, its
resolved entries are slots of the vector, and every included column is read in range. -/
theorem extractFrom_in_range {E : Env} {mappingS : List Int} {gt_field : Bool} {idx_field : Int} :
    ∀ (cols : List Str) (k : Nat) (vec : List ℚ),
      k + cols.length ≤ mappingS.length →
      (∀ m ∈ mappingS, m ≥ 0 → m.toNat < vec.length) →
      (∀ j col m, cols.get? j = some col → mappingS.get? (k + j) = some m → m ≥ 0 →
        sampleValue E gt_field idx_field col ≠ .error .outOfRange) →
      extractFrom E mappingS gt_field idx_field cols k vec ≠ .error .outOfRange := by
  intro cols
  induction cols with
  | nil => intro k vec _ _ _ hcon; simp [extractFrom] at hcon
  | cons col rest ih =>
    intro k vec hlen hslots hvals
    have hk : k < mappingS.length := by simp only [List.length_cons] at hlen; omega
    have hget : mappingS.get? k = some mappingS[k] := by
      rw [List.get?_eq_getElem?, List.getElem?_eq_getElem hk]
    have hrest : ∀ j col m, rest.get? j = some col → mappingS.get? (k + 1 + j) = some m → m ≥ 0 →
        sampleValue E gt_field idx_field col ≠ .error .outOfRange := by
      intro j c m hj hm hm0
      exact hvals (j + 1) c m (by simpa using hj)
        (by rwa [show k + (j + 1) = k + 1 + j by omega]) hm0
    have hlen2 : k + 1 + rest.length ≤ mappingS.length := by
      simp only [List.length_cons] at hlen; omega
    unfold extractFrom
    simp only [hget]
    by_cases hge : mappingS[k] ≥ 0
    · rw [if_pos hge]
      have hval := hvals 0 col mappingS[k] rfl (by rw [Nat.add_zero]; exact hget) hge
      cases hsv : sampleValue E gt_field idx_field col with
      | error e =>
        simp only
        intro hcon
        rw [hsv] at hval
        simp only [Except.error.injEq] at hcon
        subst hcon
        exact hval rfl
      | ok v =>
        simp only
        have hslot := hslots mappingS[k] (List.getElem_mem hk) hge
        rw [if_pos hslot]
        exact ih (k + 1) _ hlen2 (by simpa using hslots) hrest
    · rw [if_neg hge]
      exact ih (k + 1) vec hlen2 hslots hrest

/-- The loop of the splitter stays in range when the covariate vector covers the samples
still to visit. -/
theorem splitCounts_in_range (ival : List ℚ) (med : ℚ) :
    ∀ (xs : List ℚ) (i : Nat) (cu cl : Int → Nat), i + xs.length ≤ ival.length →
      ∃ r, splitCounts ival med xs i cu cl = .ok r := by
  intro xs
  induction xs with
  | nil => intro i cu cl _; exact ⟨_, rfl⟩
  | cons x xs ih =>
    intro i cu cl hlen
    simp only [List.length_cons] at hlen
    have hi : i < ival.length := by omega
    have hget : ival.get? i = some ival[i] := by
      rw [List.get?_eq_getElem?, List.getElem?_eq_getElem hi]
    unfold splitCounts
    by_cases hx : x = -1
    · subst hx
      simp only [ne_eq, not_true_eq_false, if_false]
      exact ih (i + 1) cu cl (by omega)
    · rw [if_pos hx]
      simp only [hget]
      by_cases hge : ival[i] ≥ med
      · rw [if_pos hge]; exact ih (i + 1) _ _ (by omega)
      · rw [if_neg hge]; exact ih (i + 1) _ _ (by omega)

/-- C20: after a successful Sample Reconciler every resolved entry `m` of the Column Mapping
satisfies `0 <= m < sample_count`; and for every body line with at least nine columns, no
more sample columns than the header, every included sample column that is not a
whole-column missing token having more than `idx_field` sub-fields (the selected one of at
least three characters for GT) when FORMAT names DS or GT, and a covariate vector of length `sample_count` when
stratification is enabled, the processing of the line performs no out-of-range access:
whatever it ends in, it is not an access outside the column list, the Column Mapping, a
sub-field list, a sub-field, the dosage vector or the covariate vector. -/
theorem accesses_in_range (E : Env) (cfg : Config) (header : Str) (mappingS : List Int)
    (samples : SampleTally) (med : ℚ) (str : List Str) (format : Str)
    (hs : readSamples E cfg header = .ok (mappingS, samples))
    (h8 : str.get? 8 = some format)
    (hcols : (str.drop 9).length ≤ ((E.tokenize header E.sep_default).drop 9).length)
    (hfields : (resolveFormat (E.tokenize format ":".toList)).1 ≥ 0 →
      ∀ k col m, (str.drop 9).get? k = some col → mappingS.get? k = some m → m ≥ 0 →
      ¬ (col = ".".toList ∨ col = "NN".toList ∨ col = "NA".toList) →
      (resolveFormat (E.tokenize format ":".toList)).1.toNat
          < (E.tokenize col ":".toList).length ∧
      ((resolveFormat (E.tokenize format ":".toList)).2 = true →
        ∀ g, (E.tokenize col ":".toList).get?
            (resolveFormat (E.tokenize format ":".toList)).1.toNat = some g → 3 ≤ g.length))
    (hcov : cfg.interaction_maf_threshold > 0 →
      cfg.interaction_val.length = cfg.sample_count) :
    (∀ m ∈ mappingS, m ≥ 0 → m < (cfg.sample_count : Int)) ∧
    lineResult E cfg mappingS med str ≠ .error .outOfRange := by
  obtain ⟨hall, _⟩ := readSamples_ok hs
  have hmlen : mappingS.length = ((E.tokenize header E.sep_default).drop 9).length :=
    hall.length_eq.symm
  have hrange : ∀ m ∈ mappingS, m ≥ 0 → m < (cfg.sample_count : Int) := by
    intro m hm hm0
    obtain ⟨_, _, hent⟩ := entryFor_of_mem hall m hm
    rcases hent with h1 | ⟨j, hj1, hj2, _⟩
    · omega
    · omega
  refine ⟨hrange, ?_⟩
  have hlen9 : 8 < str.length := by
    by_contra hcon
    rw [List.get?_eq_none.mpr (by omega)] at h8
    cases h8
  have h2 : str.get? 2 = some str[2] := by
    rw [List.get?_eq_getElem?, List.getElem?_eq_getElem (by omega)]
  have h7 : str.get? 7 = some str[7] := by
    rw [List.get?_eq_getElem?, List.getElem?_eq_getElem (by omega)]
  have hpass : passedAF E cfg str ≠ .error .outOfRange := by
    unfold passedAF
    by_cases ht : cfg.global_af_threshold > 0
    · rw [if_pos ht, h7]
      simp only
      rw [scanAF_eq]
      split
      · exact fun hcon => by cases hcon
      · split <;> exact fun hcon => by cases hcon
    · rw [if_neg ht]
      exact fun hcon => by cases hcon
  have hextract : (resolveFormat (E.tokenize format ":".toList)).1 ≥ 0 →
      ∀ e vec, extract E cfg mappingS
      (resolveFormat (E.tokenize format ":".toList)).2
      (resolveFormat (E.tokenize format ":".toList)).1 str = e →
      e ≠ .error .outOfRange ∧ (e = .ok vec → vec.length = cfg.sample_count) := by
    intro hidx e vec he
    subst he
    constructor
    · unfold extract
      apply extractFrom_in_range
      · omega
      · intro m hm hm0
        have := hrange m hm hm0
        rw [List.length_replicate]
        omega
      · intro j col m hj hm hm0
        rw [Nat.zero_add] at hm
        apply sampleValue_in_range
        intro hmiss
        obtain ⟨hlt, hgt⟩ := hfields hidx j col m hj hm hm0 hmiss
        refine ⟨(E.tokenize col ":".toList).get ⟨_, hlt⟩, List.get?_eq_get hlt, ?_⟩
        intro hg
        exact hgt hg _ (List.get?_eq_get hlt)
    · intro hok
      unfold extract at hok
      obtain ⟨hl, _⟩ := extractFrom_frame _ _ _ _ hok
      rw [hl, List.length_replicate]
  intro hcon
  unfold lineResult at hcon
  cases hst : lineStage E cfg mappingS med str with
  | ok st => rw [hst] at hcon; simp at hcon
  | error e =>
    rw [hst] at hcon
    simp only [Except.error.injEq] at hcon
    subst hcon
    unfold lineStage at hst
    simp only [h2, h8] at hst
    by_cases hg : E.checkGenotype str[2] = true
    · simp only [hg, if_true] at hst
      cases hp : passedAF E cfg str with
      | error e =>
        rw [hp] at hst
        simp only [Except.error.injEq] at hst
        subst hst
        exact hpass hp
      | ok p =>
        simp only [hp] at hst
        by_cases hf : (resolveFormat (E.tokenize format ":".toList)).1 ≥ 0
        · simp only [hf, if_true] at hst
          cases p with
          | false => simp at hst
          | true =>
            simp only [if_true] at hst
            cases hex : extract E cfg mappingS (resolveFormat (E.tokenize format ":".toList)).2
                (resolveFormat (E.tokenize format ":".toList)).1 str with
            | error e =>
              rw [hex] at hst
              simp only [Except.error.injEq] at hst
              subst hst
              exact (hextract hf _ [] hex).1 rfl
            | ok vec =>
              have hvlen := (hextract hf _ vec hex).2 rfl
              simp only [hex] at hst
              rw [classCounts_eq] at hst
              by_cases hallv : ∀ x ∈ vec, validDosage x
              · simp only [if_pos hallv] at hst
                have hstrat : ∃ r, stratify cfg med vec = .ok r := by
                  unfold stratify
                  by_cases hthr : cfg.interaction_maf_threshold > 0
                  · rw [if_pos hthr]
                    obtain ⟨r, hr⟩ := splitCounts_in_range cfg.interaction_val med vec 0
                      (fun _ => 0) (fun _ => 0) (by rw [hvlen, hcov hthr]; omega)
                    rw [hr]
                    exact ⟨_, rfl⟩
                  · rw [if_neg hthr]
                    exact ⟨_, rfl⟩
                obtain ⟨r, hr⟩ := hstrat
                rw [hr] at hst
                simp at hst
              · simp only [if_neg hallv] at hst
                simp at hst
        · rw [if_neg hf] at hst; simp at hst
    · simp only [hg, Bool.false_eq_true, if_false] at hst
      simp at hst

theorem accesses_in_range_witness :
    readSamples refEnv stratConfig demoHeader = .ok ([0, 1], ⟨2, 0, 0⟩) ∧
    gtLine.get? 8 = some "GT".toList ∧
    (gtLine.drop 9).length ≤ ((refEnv.tokenize demoHeader refEnv.sep_default).drop 9).length ∧
    (stratConfig.interaction_maf_threshold > 0 →
      stratConfig.interaction_val.length = stratConfig.sample_count) ∧
    lineResult refEnv stratConfig [0, 1] (3 / 2) (gtLine ++ ["0/0".toList])
      = .error .outOfRange ∧
    (∀ m ∈ ([0, 1] : List Int), m ≥ 0 → m < (stratConfig.sample_count : Int)) ∧
    lineResult refEnv stratConfig [0, 1] (3 / 2) gtLine ≠ .error .outOfRange := by
  have hdrop : gtLine.drop 9 = ["0/1".toList, "1/1".toList] := by decide
  have hfields : (resolveFormat (refEnv.tokenize "GT".toList ":".toList)).1 ≥ 0 →
      ∀ k col m, (gtLine.drop 9).get? k = some col →
      ([0, 1] : List Int).get? k = some m → m ≥ 0 →
      ¬ (col = ".".toList ∨ col = "NN".toList ∨ col = "NA".toList) →
      (resolveFormat (refEnv.tokenize "GT".toList ":".toList)).1.toNat
          < (refEnv.tokenize col ":".toList).length ∧
      ((resolveFormat (refEnv.tokenize "GT".toList ":".toList)).2 = true →
        ∀ g, (refEnv.tokenize col ":".toList).get?
            (resolveFormat (refEnv.tokenize "GT".toList ":".toList)).1.toNat = some g →
          3 ≤ g.length) := by
    intro _ k col m hk _ _ _
    have hmem := List.get?_mem hk
    rw [hdrop] at hmem
    simp only [List.mem_cons, List.mem_singleton, List.not_mem_nil, or_false] at hmem
    rcases hmem with h | h
    · subst h
      refine ⟨by decide, fun _ g hg => ?_⟩
      have hv : (refEnv.tokenize "0/1".toList ":".toList).get?
          (resolveFormat (refEnv.tokenize "GT".toList ":".toList)).1.toNat
            = some "0/1".toList := by decide
      rw [hv] at hg
      rw [← Option.some.inj hg]
      decide
    · subst h
      refine ⟨by decide, fun _ g hg => ?_⟩
      have hv : (refEnv.tokenize "1/1".toList ":".toList).get?
          (resolveFormat (refEnv.tokenize "GT".toList ":".toList)).1.toNat
            = some "1/1".toList := by decide
      rw [hv] at hg
      rw [← Option.some.inj hg]
      decide
  have hcov : stratConfig.interaction_maf_threshold > 0 →
      stratConfig.interaction_val.length = stratConfig.sample_count := fun _ => by decide
  have h := accesses_in_range refEnv stratConfig demoHeader [0, 1] ⟨2, 0, 0⟩ (3 / 2) gtLine
    "GT".toList (by decide) (by decide) (by decide) hfields hcov
  exact ⟨by decide, by decide, by decide, hcov, by decide!, h.1, h.2⟩

end FastQTL
